import Mathlib

/-!
Verification of the smeecher TFT analytics engine against its
natural-language specification.

The Python sources under `src/server/src/graph/` are shallowly embedded:

* `items.py`          → namespace `Items` (item taxonomy);
* `causal.py`         → namespace `Causal` (outcome transform and the
  clipping / trimming / overlap-gate / estimation tail of `aipw_ate`;
  the cross-fitted sklearn model predictions `e_hat`, `mu1_hat`,
  `mu0_hat` are inputs of the embedding, since the learners themselves
  are external library code);
* `engine.py`         → namespace `Engine` (engine state, the bitmap
  query operations `intersect` / `filter_bitmap` /
  `avg_placement_for_bitmap`, the index builder `build_from_db` over an
  abstract relational snapshot, and the version-3 binary snapshot
  codec `save` / `load`);
* `clustering.py`     → namespace `Clustering` (the per-cluster summary
  construction and final sort of `compute_clusters`; the MiniBatch
  KMeans fit is external library code, so the embedding takes the label
  vector it returns as an input).

Machine integers are modelled as `Int`/`Nat` (byte-level two's-complement
encode/decode is explicit in the codec), floats as `ℚ` except where only
the raw bit pattern matters (the float32 necessity arrays are stored and
round-tripped as 32-bit words) or where a square root is inherently real
(`se`/CI of the AIPW estimate, which are `ℝ` on top of a rational core).
Python `BitMap` values (pyroaring compressed integer sets) are modelled
as canonical (sorted, duplicate-free) lists of naturals; their
serialization is modelled as a length-prefixed list of little-endian
32-bit words, which is faithful to the interface the engine relies on:
a canonical-set codec whose `deserialize` inverts `serialize` and which
serializes the empty set to a non-empty byte string.
-/

namespace Smeecher

/-! ## Python string primitives

Embeddings of the `str` operations the sources use, as structural
recursion over `String.data` so that every definition kernel-evaluates.
Only ASCII-relevant behaviour is exercised by the claims; `lower` is the
ASCII case fold. -/
/-- Python `s.startswith(p)`. -/
def pyStartsWith (s pre : String) : Bool := pre.data.isPrefixOf s.data

/-- Python `s.endswith(p)`. -/
def pyEndsWith (s suf : String) : Bool := suf.data.reverse.isPrefixOf s.data.reverse

/-- Python `sub in s` on char lists. -/
def containsSubAux (needle : List Char) : List Char → Bool
  | [] => needle.isEmpty
  | c :: rest => needle.isPrefixOf (c :: rest) || containsSubAux needle rest

/-- Python `sub in s`. -/
def pyContains (s sub : String) : Bool := containsSubAux sub.data s.data

/-- One left-to-right, non-overlapping replacement pass over a char list,
with explicit fuel for structural recursion (fuel ≥ list length). -/
def replaceChars (pat rep : List Char) : Nat → List Char → List Char
  | 0, l => l
  | _ + 1, [] => []
  | fuel + 1, c :: rest =>
    if pat ≠ [] ∧ pat.isPrefixOf (c :: rest) then
      rep ++ replaceChars pat rep fuel ((c :: rest).drop pat.length)
    else
      c :: replaceChars pat rep fuel rest

/-- Python `s.replace(pat, rep)` (all non-overlapping occurrences,
left to right; `pat` is never empty at the call sites in the sources). -/
def pyReplace (s pat rep : String) : String :=
  String.mk (replaceChars pat.data rep.data s.data.length s.data)

/-- Python `c.lower()` for one character (ASCII case fold; the outcome
aliases matched by `causal.py` are all ASCII). -/
def pyCharLower (c : Char) : Char :=
  if 65 ≤ c.toNat ∧ c.toNat ≤ 90 then
    Char.ofNat (c.toNat + 32)
  else c

/-- Python `s.lower()` (ASCII case fold). -/
def pyLower (s : String) : String := String.mk (s.data.map pyCharLower)

/-- The characters Python `str.strip()` removes (the ASCII whitespace
set; the sources never feed non-ASCII whitespace to `strip`). -/
def pyIsSpace (c : Char) : Bool :=
  c = ' ' ∨ c = '\t' ∨ c = '\n' ∨ c = '\x0d' ∨ c = '\x0b' ∨ c = '\x0c'

/-- Python `s.strip()` on a char list: drop leading and trailing
whitespace. -/
def stripChars (l : List Char) : List Char :=
  ((l.dropWhile pyIsSpace).reverse.dropWhile pyIsSpace).reverse

/-- Python `s.strip()`. -/
def pyStrip (s : String) : String := String.mk (stripChars s.data)

/-! ## Sorting

A structural insertion sort (kernel-evaluable, unlike the library's
well-founded merge sort), used to model Python's `list.sort` / numpy
sorting and the canonical order of roaring bitmaps. -/
/-- Insert `a` into `l` before the first element `b` with `le a b`. -/
def insertSorted (le : α → α → Bool) (a : α) : List α → List α
  | [] => [a]
  | b :: bs => if le a b then a :: b :: bs else b :: insertSorted le a bs

/-- Insertion sort by the boolean comparator `le`. -/
def insertionSort (le : α → α → Bool) : List α → List α
  | [] => []
  | a :: as => insertSorted le a (insertionSort le as)

namespace Items

/-! ## `items.py` — item taxonomy -/

/-- `COMPONENT_ITEMS` from `items.py`. -/
def COMPONENT_ITEMS : List String :=
  ["BFSword", "ChainVest", "GiantsBelt", "NeedlesslyLargeRod",
   "NegatronCloak", "RecurveBow", "SparringGloves", "Spatula",
   "TearOfTheGoddess"]

/-- `get_item_type` from `items.py`, with the source's branch order:
component; then the set-namespace artifact test; then radiant; then the
`Artifact_` / `Item_Ornn` artifact test; then emblem; else full. -/
def get_item_type (item_name : String) : String :=
  if COMPONENT_ITEMS.contains item_name then "component"
  else if (pyStartsWith item_name "TFT" || pyStartsWith item_name "Set")
          && pyContains item_name "_" then "artifact"
  else if pyEndsWith item_name "Radiant" then "radiant"
  else if pyStartsWith item_name "Artifact_" || pyContains item_name "Item_Ornn" then "artifact"
  else if pyEndsWith item_name "EmblemItem" || pyStartsWith item_name "TFT_Item_Emblem_" then "emblem"
  else "full"

/-- The categorization in the priority order the spec (§6.3) states:
component; else artifact (either artifact test); else emblem; else
radiant; else full. Written from the spec's words, for comparison with
`get_item_type`. -/
def get_item_type_spec_order (item_name : String) : String :=
  if COMPONENT_ITEMS.contains item_name then "component"
  else if pyStartsWith item_name "Artifact_" || pyContains item_name "Item_Ornn"
          || ((pyStartsWith item_name "TFT" || pyStartsWith item_name "Set")
              && pyContains item_name "_") then "artifact"
  else if pyEndsWith item_name "EmblemItem" || pyStartsWith item_name "TFT_Item_Emblem_" then "emblem"
  else if pyEndsWith item_name "Radiant" then "radiant"
  else "full"

end Items

namespace Causal

/-! ## `causal.py` — outcome transform and the AIPW estimator tail -/

/-- The normalization `(outcome or "").strip().lower()` applied by
`placements_to_outcome`. -/
def normalizeOutcome (outcome : Option String) : String :=
  pyLower (pyStrip (outcome.getD ""))

/-- `placements_to_outcome` from `causal.py`: convert placements (1..8)
to an outcome vector together with its kind. An absent (`None`) outcome
string is the Python-falsy case of `outcome or ""`. -/
def placements_to_outcome (placements : List ℤ) (outcome : Option String) :
    List ℚ × String :=
  let oc := normalizeOutcome outcome
  if oc = "top4" ∨ oc = "top_4" ∨ oc = "topfour" then
    (placements.map (fun p => if p ≤ 4 then (1 : ℚ) else 0), "binary")
  else if oc = "win" ∨ oc = "first" ∨ oc = "1st" then
    (placements.map (fun p => if p = 1 then (1 : ℚ) else 0), "binary")
  else if oc = "rank_score" ∨ oc = "rankscore" ∨ oc = "score" then
    (placements.map (fun p => ((8 - p : ℤ) : ℚ)), "continuous")
  else
    (placements.map (fun p => (p : ℚ)), "continuous")

/-- The outcome aliases recognized by `placements_to_outcome`. -/
def outcomeAliases : List String :=
  ["top4", "top_4", "topfour", "win", "first", "1st",
   "rank_score", "rankscore", "score"]

/-- `np.clip(x, lo, hi)`. -/
def npClip (x lo hi : ℚ) : ℚ := min (max x lo) hi

/-- `np.quantile(a, q)` with the default linear interpolation, on an
already-sorted list. -/
def npQuantileSorted (a : List ℚ) (q : ℚ) : ℚ :=
  match a with
  | [] => 0
  | _ :: _ =>
    let h : ℚ := q * ((a.length : ℚ) - 1)
    let lo : ℕ := (⌊h⌋).toNat
    let frac : ℚ := h - (lo : ℚ)
    let x := a.getD lo 0
    let x1 := a.getD (lo + 1) x
    x + frac * (x1 - x)

/-- `np.quantile(a, q)` (linear method). -/
def npQuantile (a : List ℚ) (q : ℚ) : ℚ :=
  npQuantileSorted (insertionSort (fun x y => x ≤ y) a) q

/-- `a.min()` on a nonempty array (0 for the empty one, which the
sources never hit). -/
def listMin (l : List ℚ) : ℚ :=
  match l with
  | [] => 0
  | x :: xs => xs.foldl min x

/-- `a.max()`. -/
def listMax (l : List ℚ) : ℚ :=
  match l with
  | [] => 0
  | x :: xs => xs.foldl max x

/-- `AIPWConfig` from `causal.py`. `n_splits` and `random_state` only
steer the cross-fitting, which is upstream of this embedding. -/
structure AIPWConfig where
  n_splits : ℤ := 2
  random_state : ℤ := 42
  clip_eps : ℚ := 1 / 1000
  trim_low : Option ℚ := some (1 / 20)
  trim_high : Option ℚ := some (19 / 20)
deriving DecidableEq

/-- The diagnostics `OverlapError` carries. -/
structure OverlapDiag where
  n : ℕ
  n_used : ℕ
  n_treated_used : ℕ
  n_control_used : ℕ
  trim_low : Option ℚ
  trim_high : Option ℚ
  e_min : ℚ
  e_p01 : ℚ
  e_p50 : ℚ
  e_p99 : ℚ
  e_max : ℚ
  frac_trimmed : ℚ
deriving DecidableEq

/-- The rational core of `AIPWEstimate`: everything except `se`,
`ci95_low`, `ci95_high` and `p_value`, which involve a square root (and
the normal tail) and live in `ℝ` on top of this record; `phi_var` is the
ddof-1 variance of the influence function over the used rows, so
`se = √phi_var / √n_used`. `p_value` (a `math.erfc` value the claims do
not touch) is not modelled. -/
structure AIPWCore where
  tau : ℚ
  phi_var : ℚ
  y1 : ℚ
  y0 : ℚ
  n : ℕ
  n_treated : ℕ
  n_control : ℕ
  n_used : ℕ
  e_min : ℚ
  e_p01 : ℚ
  e_p50 : ℚ
  e_p99 : ℚ
  e_max : ℚ
  frac_trimmed : ℚ
deriving DecidableEq

/-- Five-way zip of parallel arrays. -/
def zip5 : List α → List β → List γ → List δ → List ε →
    List (α × β × γ × δ × ε)
  | a :: as, b :: bs, c :: cs, d :: ds, e :: es =>
    (a, b, c, d, e) :: zip5 as bs cs ds es
  | _, _, _, _, _ => []

/-- Numeric value of the treatment indicator (`T.astype(float)`). -/
def t01 (t : Bool) : ℚ := if t then 1 else 0

/-- Restrict a parallel array to the rows of a boolean mask
(`arr[used]`). -/
def maskRows (arr : List ℚ) (used : List Bool) : List ℚ :=
  (arr.zip used).filterMap (fun p => if p.2 then some p.1 else none)

/-- Mean of a list (`arr.mean()`; 0 on the empty list, which the gate
rules out where it matters). -/
def listMean (l : List ℚ) : ℚ := l.sum / l.length

/-- `e_hat = np.clip(e_hat, eps, 1 - eps)` (`aipw_ate` line 263). -/
def aipw_e_hat (cfg : AIPWConfig) (e_hat_raw : List ℚ) : List ℚ :=
  e_hat_raw.map (fun x => npClip x cfg.clip_eps (1 - cfg.clip_eps))

/-- `mu = np.clip(mu, 0, 1)` for binary outcomes (`aipw_ate` lines
265–267). -/
def aipw_mu_hat (kind : String) (mu_raw : List ℚ) : List ℚ :=
  if kind = "binary" then mu_raw.map (fun x => npClip x 0 1) else mu_raw

/-- The `used` mask: trim when both bounds are set, else keep all rows
(`aipw_ate` lines 271–274). -/
def aipw_used (cfg : AIPWConfig) (n : ℕ) (e_hat : List ℚ) : List Bool :=
  match cfg.trim_low, cfg.trim_high with
  | some lo, some hi => e_hat.map (fun e => decide (lo ≤ e ∧ e ≤ hi))
  | _, _ => List.replicate n true

/-- `n_used = int(used.sum())`. -/
def aipw_n_used (used : List Bool) : ℕ := used.countP (fun u => u)

/-- `n_treated_used = int(T[used].sum())`. -/
def aipw_n_treated_used (T : List Bool) (used : List Bool) : ℕ :=
  (T.zip used).countP (fun p => p.1 && p.2)

/-- `y1 = mu1_hat + T * (y - mu1_hat) / e_hat` (`aipw_ate` line 304),
over the zipped rows `(T, y, e_hat, mu1_hat, mu0_hat)`. -/
def aipw_y1 (rows : List (Bool × ℚ × ℚ × ℚ × ℚ)) : List ℚ :=
  rows.map (fun r => r.2.2.2.1 + t01 r.1 * (r.2.1 - r.2.2.2.1) / r.2.2.1)

/-- `y0 = mu0_hat + (1 - T) * (y - mu0_hat) / (1 - e_hat)` (line 305). -/
def aipw_y0 (rows : List (Bool × ℚ × ℚ × ℚ × ℚ)) : List ℚ :=
  rows.map (fun r => r.2.2.2.2 + (1 - t01 r.1) * (r.2.1 - r.2.2.2.2) / (1 - r.2.2.1))

/-- `phi = (mu1_hat - mu0_hat) + T(y - mu1_hat)/e_hat -
(1 - T)(y - mu0_hat)/(1 - e_hat)` (line 306). -/
def aipw_phi (rows : List (Bool × ℚ × ℚ × ℚ × ℚ)) : List ℚ :=
  rows.map (fun r =>
    (r.2.2.2.1 - r.2.2.2.2) + t01 r.1 * (r.2.1 - r.2.2.2.1) / r.2.2.1
      - (1 - t01 r.1) * (r.2.1 - r.2.2.2.2) / (1 - r.2.2.1))

/-- `aipw_ate` from `causal.py`, from the propensity-clipping guardrail
(line 262) to the returned estimate. The cross-fitted predictions
`e_hat_raw` (propensity before clipping), `mu1_raw` and `mu0_raw` are
inputs: the K-fold loop that produces them fits external sklearn
learners. Raises (`Except.error`) the `OverlapError` diagnostics
exactly as the source does; `n_treated`/`n_control` are the full-sample
counts computed at the head of `aipw_ate`. -/
def aipw_ate_tail (T : List Bool) (y e_hat_raw mu1_raw mu0_raw : List ℚ)
    (kind : String) (cfg : AIPWConfig) : Except OverlapDiag AIPWCore :=
  let n : ℕ := y.length
  let n_treated : ℕ := T.countP (fun t => t)
  let n_control : ℕ := n - n_treated
  let e_hat : List ℚ := aipw_e_hat cfg e_hat_raw
  let mu1_hat : List ℚ := aipw_mu_hat kind mu1_raw
  let mu0_hat : List ℚ := aipw_mu_hat kind mu0_raw
  let e_p01 := npQuantile e_hat (1 / 100)
  let e_p50 := npQuantile e_hat (1 / 2)
  let e_p99 := npQuantile e_hat (99 / 100)
  let used : List Bool := aipw_used cfg n e_hat
  let n_used : ℕ := aipw_n_used used
  let n_treated_used : ℕ := aipw_n_treated_used T used
  let n_control_used : ℕ := n_used - n_treated_used
  let min_used : ℕ := max 200 (n / 20)
  if n_used < min_used ∨ n_treated_used < 50 ∨ n_control_used < 50 then
    .error
      { n := n, n_used := n_used, n_treated_used := n_treated_used,
        n_control_used := n_control_used, trim_low := cfg.trim_low,
        trim_high := cfg.trim_high, e_min := listMin e_hat,
        e_p01 := e_p01, e_p50 := e_p50, e_p99 := e_p99,
        e_max := listMax e_hat,
        frac_trimmed := 1 - (n_used : ℚ) / (n : ℚ) }
  else
    let rows := zip5 T y e_hat mu1_hat mu0_hat
    let y1 : List ℚ := aipw_y1 rows
    let y0 : List ℚ := aipw_y0 rows
    let phi : List ℚ := aipw_phi rows
    let diffs : List ℚ := (y1.zip y0).map (fun p => p.1 - p.2)
    let tau : ℚ := listMean (maskRows diffs used)
    let phiUsed := maskRows phi used
    let phiMean := listMean phiUsed
    let phi_var : ℚ :=
      (phiUsed.map (fun x => (x - phiMean) ^ 2)).sum / ((n_used : ℚ) - 1)
    .ok
      { tau := tau, phi_var := phi_var,
        y1 := listMean (maskRows y1 used), y0 := listMean (maskRows y0 used),
        n := n, n_treated := n_treated, n_control := n_control,
        n_used := n_used, e_min := listMin e_hat, e_p01 := e_p01,
        e_p50 := e_p50, e_p99 := e_p99, e_max := listMax e_hat,
        frac_trimmed := 1 - (n_used : ℚ) / (n : ℚ) }

/-- `se = phi[used].std(ddof=1) / sqrt(n_used)` over the rational core:
the standard deviation is `√phi_var`. -/
noncomputable def aipw_se (core : AIPWCore) : ℝ :=
  Real.sqrt (core.phi_var : ℝ) / Real.sqrt (core.n_used : ℝ)

/-- `ci_low = tau - 1.96 * se`. -/
noncomputable def aipw_ci95_low (core : AIPWCore) : ℝ :=
  (core.tau : ℝ) - 1.96 * aipw_se core

/-- `ci_high = tau + 1.96 * se`. -/
noncomputable def aipw_ci95_high (core : AIPWCore) : ℝ :=
  (core.tau : ℝ) + 1.96 * aipw_se core

/-! Spec-side quantities for claim C2, written from the claim's words:
propensities clipped to `[clip_eps, 1 − clip_eps]`, used rows those with
`trim_low ≤ e ≤ trim_high`, and the per-row potential-outcome /
influence-function formulas. -/

/-- Used-row predicate of the claim: `trim_low ≤ e ≤ trim_high`. -/
def inTrim (lo hi x : ℚ) : Bool := decide (lo ≤ x ∧ x ≤ hi)

/-- The clipped propensities `clip(e, eps, 1 − eps)`. -/
def clipped (eps : ℚ) (e : List ℚ) : List ℚ :=
  e.map (fun x => npClip x eps (1 - eps))

/-- `n_used` as the claim words it. -/
def spec_n_used (lo hi eps : ℚ) (e : List ℚ) : ℕ :=
  (clipped eps e).countP (inTrim lo hi)

/-- `n_treated_used` as the claim words it. -/
def spec_n_treated_used (lo hi eps : ℚ) (T : List Bool) (e : List ℚ) : ℕ :=
  ((T.zip (clipped eps e)).filter (fun p => p.1 && inTrim lo hi p.2)).length

/-- `n_control_used` as the claim words it. -/
def spec_n_control_used (lo hi eps : ℚ) (T : List Bool) (e : List ℚ) : ℕ :=
  ((T.zip (clipped eps e)).filter (fun p => !p.1 && inTrim lo hi p.2)).length

/-- The identifiability gate with the floor the code takes
(`int(0.05 * n)`). -/
def spec_gate_floor (n n_used n_treated_used n_control_used : ℕ) : Prop :=
  n_used < max 200 (n / 20) ∨ n_treated_used < 50 ∨ n_control_used < 50

/-- The identifiability gate exactly as the claim states it, with the
real-valued threshold `max(200, 0.05·n)`. -/
def claim_gate_real (n n_used n_treated_used n_control_used : ℕ) : Prop :=
  (n_used : ℚ) < max 200 (5 / 100 * (n : ℚ)) ∨
    n_treated_used < 50 ∨ n_control_used < 50

/-- `y₁ = μ₁ + T(y − μ₁)/e` (claim formula). -/
def spec_y1_row (t : Bool) (yv e m1 : ℚ) : ℚ := m1 + t01 t * (yv - m1) / e

/-- `y₀ = μ₀ + (1 − T)(y − μ₀)/(1 − e)` (claim formula). -/
def spec_y0_row (t : Bool) (yv e m0 : ℚ) : ℚ :=
  m0 + (1 - t01 t) * (yv - m0) / (1 - e)

/-- `φ = (μ₁ − μ₀) + T(y − μ₁)/e − (1 − T)(y − μ₀)/(1 − e)` (claim
formula). -/
def spec_phi_row (t : Bool) (yv e m1 m0 : ℚ) : ℚ :=
  (m1 - m0) + t01 t * (yv - m1) / e - (1 - t01 t) * (yv - m0) / (1 - e)

/-- ddof-1 variance: `Σ (x − mean)² / (len − 1)`. -/
def spec_var1 (l : List ℚ) : ℚ :=
  (l.map (fun x => (x - listMean l) ^ 2)).sum / ((l.length : ℚ) - 1)

end Causal

namespace Engine

/-! ## `engine.py` — engine state and bitmap query operations

A pyroaring `BitMap` is modelled as a list of naturals; a bitmap a
query returns or an engine stores is canonical (sorted, duplicate-free),
which `SnapshotWF`/`EngineWF` record where a claim needs it. The
intermediate union accumulator of `filter_bitmap` keeps its elements'
set semantics (only membership in it is ever used). -/

/-- `TokenStats` from `engine.py` (`placement_sum` is an `int64` on
disk, `count` an `int32`). -/
structure TokenStats where
  bitmap : List ℕ
  placement_sum : ℤ
  count : ℤ
deriving DecidableEq

/-- `TokenStats.avg_placement`. -/
def TokenStats.avg_placement (s : TokenStats) : ℚ :=
  if s.count > 0 then (s.placement_sum : ℚ) / (s.count : ℚ) else 9 / 2

/-- The engine's state: the fields of `GraphEngine.__slots__`.
`token_to_id` is not a field: the source keeps it in sync with
`id_to_token` (build creates both together, load rebuilds it from the
token list), so it is the derived lookup `Engine.token_to_id`. `labels`
is the total function `token_id ↦ labels.get(token_id, "")` as a
parallel list. The eight float32 necessity arrays hold raw 32-bit
patterns (NaN included); a Python `None` array is modelled as a list of
the wrong length (`save` substitutes defaults for both). -/
structure EngineState where
  placements : List ℤ
  item_count : List ℤ
  component_count : List ℤ
  completed_item_count : List ℤ
  unit_count : List ℤ
  two_star_count : List ℤ
  three_star_count : List ℤ
  unit_gold_value : List ℤ
  total_matches : ℕ
  all_players : List ℕ
  id_to_token : List String
  labels : List String
  tokens : List (Option TokenStats)
  necessity_top4_tau : List ℕ
  necessity_top4_ci95_low : List ℕ
  necessity_top4_ci95_high : List ℕ
  necessity_top4_se : List ℕ
  necessity_top4_raw_tau : List ℕ
  necessity_top4_frac_trimmed : List ℕ
  necessity_top4_e_p01 : List ℕ
  necessity_top4_e_p99 : List ℕ
  necessity_top4_n_treated : List ℤ
  necessity_top4_n_control : List ℤ
  necessity_top4_n_used : List ℤ
  necessity_top4_scope_min_star : List ℕ
  necessity_top4_ready : Bool
deriving DecidableEq

/-- `self.token_to_id.get(token_str)`: the id of a token string. -/
def token_to_id (E : EngineState) (t : String) : Option ℕ :=
  List.indexOf? t E.id_to_token

/-- `token_id = token_to_id.get(t); stats = tokens.get(token_id)`: the
combined lookup both query paths perform. -/
def get_token_stats (E : EngineState) (t : String) : Option TokenStats :=
  match token_to_id E t with
  | none => none
  | some i => E.tokens.getD i none

/-- Roaring `a & b` on the list model. -/
def bmInter (a b : List ℕ) : List ℕ := a.filter (fun x => decide (x ∈ b))

/-- Roaring `a | b` on the list model (members of `a`, then the new
members of `b`). -/
def bmUnion (a b : List ℕ) : List ℕ := a ++ b.filter (fun x => decide (x ∉ a))

/-- Roaring `a - b` on the list model. -/
def bmDiff (a b : List ℕ) : List ℕ := a.filter (fun x => decide (x ∉ b))

/-- `GraphEngine.intersect` (engine.py lines 681–703): empty input
returns a copy of `all_players`; an unknown token yields the empty
bitmap; otherwise the bitmaps are intersected left to right. -/
def intersect (E : EngineState) (token_strs : List String) : List ℕ :=
  if token_strs.isEmpty then E.all_players
  else
    match token_strs.mapM (fun t => get_token_stats E t) with
    | none => []
    | some stats =>
      match stats.map (fun s => s.bitmap) with
      | [] => []
      | b :: bs => bs.foldl bmInter b

/-- `GraphEngine.filter_bitmap` (engine.py lines 705–733). -/
def filter_bitmap (E : EngineState) (include_tokens : List String)
    (exclude_tokens : List String) : List ℕ :=
  let base := intersect E include_tokens
  if base.isEmpty then base
  else if exclude_tokens.isEmpty then base
  else
    let exclude_bm := exclude_tokens.foldl (fun acc t =>
      match get_token_stats E t with
      | none => acc
      | some stats => bmUnion acc stats.bitmap) []
    if exclude_bm.isEmpty then base else bmDiff base exclude_bm

/-- `GraphEngine.avg_placement_for_bitmap` (engine.py lines 735–745):
4.5 on the empty bitmap, else the mean of `placements[id]` over it. -/
def avg_placement_for_bitmap (E : EngineState) (bitmap : List ℕ) : ℚ :=
  if bitmap.isEmpty then 9 / 2
  else (bitmap.map (fun i => ((E.placements.getD i 0 : ℤ) : ℚ))).sum /
    (bitmap.length : ℚ)

/-- What build/load guarantee about a snapshot's bitmaps: `all_players`
is a set, and every stored token bitmap is a set of valid pm-ids. -/
def SnapshotWF (E : EngineState) : Prop :=
  E.all_players.Nodup ∧
  ∀ s : TokenStats, some s ∈ E.tokens →
    s.bitmap.Nodup ∧ s.bitmap ⊆ E.all_players

end Engine

/-- A four-player snapshot (the spec's scenario S-1): placements
1, 8, 4, 4 for pm-ids 1..4, `U:A = {1, 2}` and `U:B = {2, 3, 4}`. -/
def sampleEngine : Engine.EngineState where
  placements := [0, 1, 8, 4, 4]
  item_count := [0, 0, 0, 0, 0]
  component_count := [0, 0, 0, 0, 0]
  completed_item_count := [0, 0, 0, 0, 0]
  unit_count := [0, 0, 0, 0, 0]
  two_star_count := [0, 0, 0, 0, 0]
  three_star_count := [0, 0, 0, 0, 0]
  unit_gold_value := [0, 0, 0, 0, 0]
  total_matches := 4
  all_players := [1, 2, 3, 4]
  id_to_token := ["U:A", "U:B"]
  labels := ["A", "B"]
  tokens := [some ⟨[1, 2], 9, 2⟩, some ⟨[2, 3, 4], 16, 3⟩]
  necessity_top4_tau := []
  necessity_top4_ci95_low := []
  necessity_top4_ci95_high := []
  necessity_top4_se := []
  necessity_top4_raw_tau := []
  necessity_top4_frac_trimmed := []
  necessity_top4_e_p01 := []
  necessity_top4_e_p99 := []
  necessity_top4_n_treated := []
  necessity_top4_n_control := []
  necessity_top4_n_used := []
  necessity_top4_scope_min_star := []
  necessity_top4_ready := false

namespace Build

/-! ## `engine.py` — `GraphEngine.build_from_db` (lines 373–663)

The SQL stream (one row per player-match × unit, ordered by `pm.id`) is
modelled as a list of `PMRow` groups: each group carries the
player-match id, its placement, its unit rows (empty when the LEFT JOIN
produced a NULL unit) and the parsed `traits` JSON of the second query
(`none` for a NULL / empty `traits` column).  The token bookkeeping
(`token_to_id` / `id_to_token` / `labels` / `token_data`) is one
accumulator `TokAcc`; `_get_or_create_token_id` followed by the label
store and the `token_data` append — the code block the source repeats
for every token kind — is `touch`.  Python `dict`/`set` iteration is
modelled with insertion-ordered association lists; the only place the
source iterates a `set` whose order is unspecified (`board_items` in
`flush_board`) is iterated in first-insertion order, which fixes the
token-id numbering but none of the per-token data any claim is about. -/

/-- Decimal digits of `n`, least significant first, with explicit fuel
(`decDigitsAux n n` renders `n` completely). -/
def decDigitsAux : ℕ → ℕ → List ℕ
  | 0, _ => []
  | f + 1, n => if n = 0 then [] else n % 10 :: decDigitsAux f (n / 10)

/-- Python `str(n)` for a natural number. -/
def decStr (n : ℕ) : String :=
  if n = 0 then "0"
  else String.mk (((decDigitsAux n n).reverse).map (fun d => Char.ofNat (48 + d)))

/-- Python `str(t)` for an `int` (f-string interpolation of tiers). -/
def decStrInt (t : ℤ) : String :=
  if t < 0 then "-" ++ decStr (-t).toNat else decStr t.toNat

/-- `GraphEngine._clean_unit_name`. -/
def clean_unit_name (name : String) : String :=
  pyReplace (pyReplace name "TFT16_" "") "TFT_" ""

/-- `GraphEngine._clean_item_name`. -/
def clean_item_name (item_id : String) : String :=
  pyReplace (pyReplace item_id "TFT_Item_" "") "TFT16_Item_" ""

/-- `GraphEngine._clean_trait_name`. -/
def clean_trait_name (name : String) : String :=
  pyReplace (pyReplace (pyReplace name "TFT16_" "") "TFT_" "") "Set16_" ""

/-- `f"U:{unit_name}"`. -/
def tokU (u : String) : String := "U:" ++ u

/-- `f"U:{unit_name}:{unit_tier}"`. -/
def tokUs (u : String) (t : ℤ) : String := "U:" ++ u ++ ":" ++ decStrInt t

/-- `f"I:{item_name}"`. -/
def tokI (i : String) : String := "I:" ++ i

/-- `f"E:{unit_name}|{item_name}"`. -/
def tokE (u i : String) : String := "E:" ++ u ++ "|" ++ i

/-- `f"E:{unit_name}|{item_name}:2"`. -/
def tokE2 (u i : String) : String := "E:" ++ u ++ "|" ++ i ++ ":2"

/-- `f"E:{unit_name}|{item_name}:3"`. -/
def tokE3 (u i : String) : String := "E:" ++ u ++ "|" ++ i ++ ":3"

/-- `f"T:{trait_name}"`. -/
def tokT (t : String) : String := "T:" ++ t

/-- `f"T:{trait_name}:{t_level}"` (also the rewrite loop's
`f"T:{trait_name}:{tier}"`, whose tier is an arbitrary `int`). -/
def tokTk (t : String) (k : ℤ) : String := "T:" ++ t ++ ":" ++ decStrInt k

/-- One unit row of the JOIN stream.  `tier`/`rarity` are `none` when
the column is NULL or not an `int` (the source checks
`isinstance(..., int)`); `items` is the parsed items JSON (`[]` for a
NULL/empty column). -/
structure UnitRow where
  name : String
  tier : Option ℤ
  rarity : Option ℤ
  items : List String
deriving DecidableEq

/-- One entry of a parsed `traits` JSON array.  `tier` is `none` when
the key is absent or `None`; `num_units` is `none` when absent or not
an `int`. -/
structure TraitRow where
  name : String
  tier : Option ℤ
  num_units : Option ℤ
deriving DecidableEq

/-- One player-match group of the stream (all JOIN rows sharing
`pm.id`), together with its `traits` column from the second query. -/
structure PMRow where
  pm_id : ℕ
  placement : ℤ
  units : List UnitRow
  traits : Option (List TraitRow)
deriving DecidableEq

/-- The token bookkeeping `build_from_db` threads along:
`id_to_token`, the label map, and `token_data` split into its
id-list and placement-sum components (all parallel lists indexed by
token id; `token_to_id` is the derived `List.indexOf?`). -/
structure TokAcc where
  id_to_token : List String
  labels : List String
  acc_ids : List (List ℕ)
  acc_psum : List ℤ
deriving DecidableEq

/-- `_get_or_create_token_id(tok)`, then `labels[token_id] = lbl`, then
the `token_data` append of `(pm, plc)` — the block the source repeats
for every emitted token. -/
def touch (a : TokAcc) (tok lbl : String) (pm : ℕ) (plc : ℤ) : TokAcc :=
  match List.indexOf? tok a.id_to_token with
  | some i =>
    { a with
      labels := a.labels.set i lbl,
      acc_ids := a.acc_ids.set i (a.acc_ids.getD i [] ++ [pm]),
      acc_psum := a.acc_psum.set i (a.acc_psum.getD i 0 + plc) }
  | none =>
    { id_to_token := a.id_to_token ++ [tok],
      labels := a.labels ++ [lbl],
      acc_ids := a.acc_ids ++ [[pm]],
      acc_psum := a.acc_psum ++ [plc] }

/-- Emit a list of `(token, label)` pairs for the current player match. -/
def touchMany (a : TokAcc) (pm : ℕ) (plc : ℤ) (toks : List (String × String)) : TokAcc :=
  toks.foldl (fun a tl => touch a tl.1 tl.2 pm plc) a

/-- The id list `token_data` holds for a token string (`[]` when the
token was never created). -/
def idsOf (a : TokAcc) (v : String) : List ℕ :=
  match List.indexOf? v a.id_to_token with
  | none => []
  | some i => a.acc_ids.getD i []

/-- `item_counts[item_name] = item_counts.get(item_name, 0) + 1` on an
insertion-ordered association list. -/
def bumpCount : List (String × ℕ) → String → List (String × ℕ)
  | [], k => [(k, 1)]
  | (a, n) :: rest, k =>
    if a = k then (a, n + 1) :: rest else (a, n) :: bumpCount rest k

/-- The per-unit `item_counts` dict (engine.py lines 538–549): cleaned
item names with multiplicity, `EmptyBag` placeholders skipped. -/
def itemCounts (items : List String) : List (String × ℕ) :=
  items.foldl (fun acc it =>
    let item_name := clean_item_name it
    if item_name = "EmptyBag" then acc else bumpCount acc item_name) []

/-- The `(token, label)` pairs one unit row emits, in source order:
the presence token, the star-level token when the tier is an `int`
`>= 1`, then per distinct equipped item the base `E:` token and the
`:2`/`:3` copy tokens when the copy count reaches them. -/
def unitTouches (u : UnitRow) : List (String × String) :=
  let uname := clean_unit_name u.name
  [(tokU uname, uname)] ++
  (match u.tier with
   | some t =>
     if 1 ≤ t then [(tokUs uname t, uname ++ " " ++ decStrInt t)] else []
   | none => []) ++
  (itemCounts u.items).flatMap (fun ci =>
    [(tokE uname ci.1, uname ++ " + " ++ ci.1)] ++
    (if 2 ≤ ci.2 then [(tokE2 uname ci.1, uname ++ " + " ++ ci.1 ++ " x2")] else []) ++
    (if 3 ≤ ci.2 then [(tokE3 uname ci.1, uname ++ " + " ++ ci.1 ++ " x3")] else []))

/-- `board_items.add(item_name)` over one unit's items (set modelled as
an insertion-ordered duplicate-free list). -/
def addBoardItems (acc : List String) (u : UnitRow) : List String :=
  u.items.foldl (fun acc it =>
    let item_name := clean_item_name it
    if item_name = "EmptyBag" then acc
    else if item_name ∈ acc then acc else acc ++ [item_name]) acc

/-- The `board_items` set accumulated over a player match's units. -/
def boardItems (units : List UnitRow) : List String :=
  units.foldl addBoardItems []

/-- All `(token, label)` pairs of one player-match group of the unit
stream: each unit's tokens in row order, then — at `flush_board` — one
`I:` token per distinct board item. -/
def pmTouches (pm : PMRow) : List (String × String) :=
  pm.units.flatMap unitTouches ++
  (boardItems pm.units).map (fun it => (tokI it, it))

/-- A unit's cleaned items with the `EmptyBag` placeholders removed
(what the board-strength counters count). -/
def cleanItems (u : UnitRow) : List String :=
  (u.items.map clean_item_name).filter (fun n => decide (n ≠ "EmptyBag"))

/-- `board_unit_count`. -/
def bUnitCount (units : List UnitRow) : ℤ := (units.length : ℤ)

/-- `board_two_star`: units whose tier is an `int >= 2`. -/
def bTwoStar (units : List UnitRow) : ℤ :=
  (units.countP (fun u =>
    match u.tier with | some t => decide (2 ≤ t) | none => false) : ℤ)

/-- `board_three_star`. -/
def bThreeStar (units : List UnitRow) : ℤ :=
  (units.countP (fun u =>
    match u.tier with | some t => decide (3 ≤ t) | none => false) : ℤ)

/-- `board_unit_gold`: `(rarity + 1) * 3 ** (tier - 1)` for units with
`rarity >= 0` and `tier >= 1`. -/
def bGold (units : List UnitRow) : ℤ :=
  (units.map (fun u =>
    match u.rarity, u.tier with
    | some r, some t =>
      if 0 ≤ r ∧ 1 ≤ t then (r + 1) * 3 ^ (t - 1).toNat else 0
    | _, _ => 0)).sum

/-- `board_item_count`. -/
def bItemCount (units : List UnitRow) : ℤ :=
  ((units.map (fun u => (cleanItems u).length)).sum : ℤ)

/-- `board_component_count`. -/
def bComponentCount (units : List UnitRow) : ℤ :=
  ((units.map (fun u =>
    ((cleanItems u).filter
      (fun n => decide (Items.get_item_type n = "component"))).length)).sum : ℤ)

/-- `board_completed_count`. -/
def bCompletedCount (units : List UnitRow) : ℤ :=
  ((units.map (fun u =>
    ((cleanItems u).filter
      (fun n => decide (Items.get_item_type n ≠ "component"))).length)).sum : ℤ)

/-- Two's-complement wrap of a numpy signed store of width `w`
(`int8` placements, `int16`/`int32` proxies). -/
def wrapS (w : ℕ) (v : ℤ) : ℤ := (v + 2 ^ (w - 1)) % 2 ^ w - 2 ^ (w - 1)

/-- The mutable state of the build loop: the numpy arrays, the
`all_players` bitmap and the token accumulator. -/
structure BuildState where
  placements : List ℤ
  item_count : List ℤ
  component_count : List ℤ
  completed_item_count : List ℤ
  unit_count : List ℤ
  two_star_count : List ℤ
  three_star_count : List ℤ
  unit_gold_value : List ℤ
  all_players : List ℕ
  tok : TokAcc
deriving DecidableEq

/-- One player-match group of the main loop: store the placement and
`all_players` membership (at group start), the board-strength proxies
(at `flush_board`), and emit the group's tokens. -/
def procPM (st : BuildState) (pm : PMRow) : BuildState :=
  { placements := st.placements.set pm.pm_id (wrapS 8 pm.placement),
    item_count := st.item_count.set pm.pm_id (wrapS 16 (bItemCount pm.units)),
    component_count :=
      st.component_count.set pm.pm_id (wrapS 16 (bComponentCount pm.units)),
    completed_item_count :=
      st.completed_item_count.set pm.pm_id (wrapS 16 (bCompletedCount pm.units)),
    unit_count := st.unit_count.set pm.pm_id (wrapS 16 (bUnitCount pm.units)),
    two_star_count :=
      st.two_star_count.set pm.pm_id (wrapS 16 (bTwoStar pm.units)),
    three_star_count :=
      st.three_star_count.set pm.pm_id (wrapS 16 (bThreeStar pm.units)),
    unit_gold_value :=
      st.unit_gold_value.set pm.pm_id (wrapS 32 (bGold pm.units)),
    all_players :=
      if pm.pm_id ∈ st.all_players then st.all_players
      else st.all_players ++ [pm.pm_id],
    tok := touchMany st.tok pm.pm_id pm.placement (pmTouches pm) }

/-- `int(trait.get("tier", 1) or 1)`: absent or `None` or `0` becomes
`1`. -/
def effTier (t : Option ℤ) : ℤ :=
  match t with
  | none => 1
  | some v => if v = 0 then 1 else v

/-- The `(token, label)` pairs one `traits` array emits: per entry the
base trait token, then `T:name:2 .. T:name:tier` when `tier >= 2`. -/
def traitTouches (ts : List TraitRow) : List (String × String) :=
  ts.flatMap (fun tr =>
    let tname := clean_trait_name tr.name
    let tier := effTier tr.tier
    [(tokT tname, tname)] ++
    (if 2 ≤ tier then
      (List.range' 2 (tier - 1).toNat).map (fun (lvl : ℕ) =>
        (tokTk tname (lvl : ℤ), tname ++ " " ++ decStrInt (lvl : ℤ)))
     else []))

/-- The trait pass's touches for one player match (`none`: NULL/empty
`traits` column, skipped). -/
def pmTraitTouches (pm : PMRow) : List (String × String) :=
  match pm.traits with
  | none => []
  | some ts => traitTouches ts

/-- One player match of the trait pass. -/
def traitStep (st : BuildState) (pm : PMRow) : BuildState :=
  { st with tok := touchMany st.tok pm.pm_id pm.placement (pmTraitTouches pm) }

/-- Association-list lookup (`dict.get`). -/
def lookupA : List (String × List ℤ) → String → Option (List ℤ)
  | [], _ => none
  | (a, s) :: rest, k => if a = k then some s else lookupA rest k

/-- `trait_tiers_seen.setdefault(name, set()).add(tier)` (the set as a
duplicate-free list; only its size is ever read). -/
def seenAdd (seen : List (String × List ℤ)) (k : String) (v : ℤ) :
    List (String × List ℤ) :=
  match seen with
  | [] => [(k, [v])]
  | (a, s) :: rest =>
    if a = k then (a, if v ∈ s then s else s ++ [v]) :: rest
    else (a, s) :: seenAdd rest k v

/-- The `trait_min_units` min-update for key `(name, tier)`. -/
def muAdd (mu : List ((String × ℤ) × ℤ)) (k : String × ℤ) (v : ℤ) :
    List ((String × ℤ) × ℤ) :=
  match mu with
  | [] => [(k, v)]
  | (a, m) :: rest =>
    if a = k then (a, if v < m then v else m) :: rest
    else (a, m) :: muAdd rest k v

/-- One trait entry's effect on `(trait_min_units, trait_tiers_seen)`
(engine.py lines 602–610). -/
def traitAccumStep (acc : List ((String × ℤ) × ℤ) × List (String × List ℤ))
    (tr : TraitRow) :
    List ((String × ℤ) × ℤ) × List (String × List ℤ) :=
  let tname := clean_trait_name tr.name
  let tier := effTier tr.tier
  let seen := seenAdd acc.2 tname tier
  let mu :=
    match tr.num_units with
    | some v => if 0 < v then muAdd acc.1 (tname, tier) v else acc.1
    | none => acc.1
  (mu, seen)

/-- `(trait_min_units, trait_tiers_seen)` after the trait pass. -/
def traitAccums (pms : List PMRow) :
    List ((String × ℤ) × ℤ) × List (String × List ℤ) :=
  pms.foldl (fun acc pm =>
    match pm.traits with
    | none => acc
    | some ts => ts.foldl traitAccumStep acc) ([], [])

/-- The breakpoint label rewrite (engine.py lines 638–649): for every
`(trait_name, tier)` key of `trait_min_units`, relabel the trait token
with the minimum observed unit count (or the bare name when only one
tier was ever seen).  Only labels change. -/
def relabel (a : TokAcc) (mu : List ((String × ℤ) × ℤ))
    (seen : List (String × List ℤ)) : TokAcc :=
  mu.foldl (fun a km =>
    let tname := km.1.1
    let tier : ℤ := km.1.2
    let token := if tier = 1 then tokT tname else tokTk tname tier
    match List.indexOf? token a.id_to_token with
    | none => a
    | some i =>
      let tiers := (lookupA seen tname).getD []
      if tiers.length ≤ 1 then { a with labels := a.labels.set i tname }
      else
        { a with
          labels := a.labels.set i (tname ++ " " ++ decStrInt km.2) }) a

/-- The `TokenStats` conversion (engine.py lines 654–663): deduplicate
the accumulated ids into a canonical (sorted) bitmap, recompute the
placement sum over the deduplicated ids from the stored placements
(an exact `int64` sum of `int8` values), and take the count from the
deduplicated length. -/
def mkStats (placements : List ℤ) (ids : List ℕ) : Engine.TokenStats :=
  let uniq := insertionSort (fun x y => decide (x ≤ y)) ids.dedup
  { bitmap := uniq,
    placement_sum := (uniq.map (fun i => placements.getD i 0)).sum,
    count := (uniq.length : ℤ) }

/-- `MAX(pm.id)` over the stream (`row[0] or 0`). -/
def maxPmId (pms : List PMRow) : ℕ :=
  pms.foldl (fun m r => max m r.pm_id) 0

/-- The freshly allocated arrays and empty accumulators the build
starts from (`np.zeros(max_id + 1, ...)`). -/
def initState (max_id : ℕ) : BuildState :=
  { placements := List.replicate (max_id + 1) 0,
    item_count := List.replicate (max_id + 1) 0,
    component_count := List.replicate (max_id + 1) 0,
    completed_item_count := List.replicate (max_id + 1) 0,
    unit_count := List.replicate (max_id + 1) 0,
    two_star_count := List.replicate (max_id + 1) 0,
    three_star_count := List.replicate (max_id + 1) 0,
    unit_gold_value := List.replicate (max_id + 1) 0,
    all_players := [],
    tok := ⟨[], [], [], []⟩ }

/-- The build state after the unit pass and the trait pass. -/
def buildAcc (pms : List PMRow) : BuildState :=
  pms.foldl traitStep (pms.foldl procPM (initState (maxPmId pms)))

/-- `GraphEngine.build_from_db` end to end: both passes, the breakpoint
relabel, and the `token_data` → `TokenStats` conversion.  The necessity
cache stays unset (`build_from_db` does not touch it) and
`total_matches` is the stream's group count. -/
def build_from_db (pms : List PMRow) : Engine.EngineState :=
  let st := buildAcc pms
  let accs := traitAccums pms
  let a := relabel st.tok accs.1 accs.2
  { placements := st.placements,
    item_count := st.item_count,
    component_count := st.component_count,
    completed_item_count := st.completed_item_count,
    unit_count := st.unit_count,
    two_star_count := st.two_star_count,
    three_star_count := st.three_star_count,
    unit_gold_value := st.unit_gold_value,
    total_matches := pms.length,
    all_players := st.all_players,
    id_to_token := a.id_to_token,
    labels := a.labels,
    tokens := a.acc_ids.map (fun ids => some (mkStats st.placements ids)),
    necessity_top4_tau := [],
    necessity_top4_ci95_low := [],
    necessity_top4_ci95_high := [],
    necessity_top4_se := [],
    necessity_top4_raw_tau := [],
    necessity_top4_frac_trimmed := [],
    necessity_top4_e_p01 := [],
    necessity_top4_e_p99 := [],
    necessity_top4_n_treated := [],
    necessity_top4_n_control := [],
    necessity_top4_n_used := [],
    necessity_top4_scope_min_star := [],
    necessity_top4_ready := false }

/-- The member list of a token's stored bitmap (`[]` for a token the
index does not hold). -/
def membersOf (E : Engine.EngineState) (t : String) : List ℕ :=
  match Engine.get_token_stats E t with
  | none => []
  | some s => s.bitmap

/-- A name free of the token separators `:` and `|`. -/
def sepFree (s : String) : Bool :=
  decide (':' ∉ s.data) && decide ('|' ∉ s.data)

/-- All cleaned unit, item and trait names of a player-match group are
separator-free (real Riot identifiers are). -/
def cleanPM (pm : PMRow) : Bool :=
  pm.units.all (fun u =>
    sepFree (clean_unit_name u.name) &&
    u.items.all (fun it => sepFree (clean_item_name it))) &&
  (match pm.traits with
   | none => true
   | some ts => ts.all (fun tr => sepFree (clean_trait_name tr.name)))

/-- The token accumulator's id lists stay parallel to its token list
(trivially true of the empty accumulator). -/
def AccWF (a : TokAcc) : Prop :=
  a.acc_ids.length = a.id_to_token.length

/-- Every accumulated id list is nonempty (a token is only created by
an emission, which appends an id). -/
def AccNE (a : TokAcc) : Prop :=
  ∀ ids ∈ a.acc_ids, ids ≠ []

/-- How many of the emitted `(token, label)` pairs carry token `v`. -/
def countTok (L : List (String × String)) (v : String) : ℕ :=
  L.countP (fun tl => decide (tl.1 = v))

/-- How often the unit pass emits token `v` for player match `pm`. -/
def occUnit (pm : PMRow) (v : String) : ℕ := countTok (pmTouches pm) v

/-- How often the trait pass emits token `v` for player match `pm`. -/
def occTrait (pm : PMRow) (v : String) : ℕ := countTok (pmTraitTouches pm) v

/-- Value of a least-significant-first digit list (the decoder that
proves the decimal rendering injective). -/
def ofRev : List ℕ → ℕ
  | [] => 0
  | d :: ds => d + 10 * ofRev ds

end Build

/-- C3 (counterexample input): one player match holding a single
three-star Ashe.  The build emits `U:Ashe` and `U:Ashe:3` but no
`U:Ashe:2` — star-level tokens mark the exact star level. -/
def C3pms : List Build.PMRow :=
  [{ pm_id := 1, placement := 4,
     units := [{ name := "TFT16_Ashe", tier := some 3, rarity := some 1,
                 items := [] }],
     traits := none }]

/-- C7 (witness input): one board with a two-star Jinx holding an
Infinity Edge and a Sniper trait at tier 2. -/
def C7pms : List Build.PMRow :=
  [{ pm_id := 2, placement := 3,
     units := [{ name := "TFT16_Jinx", tier := some 2, rarity := some 4,
                 items := ["TFT_Item_InfinityEdge"] }],
     traits := some [{ name := "Set16_Sniper", tier := some 2,
                       num_units := some 2 }] }]

/-- The stats the build stores for `U:Jinx` on the witness input. -/
def C7stats : Engine.TokenStats := ⟨[2], 3, 1⟩

namespace Clustering

/-! ## `clustering.py` — `compute_clusters` after the KMeans fit
(lines 359–447)

The embedding starts where the claim does: at the fitted `labels`
array.  `labels` is the per-base-row cluster assignment
(`kmeans.fit_predict(X)`, one entry per base row, so `n_base` is
`labels.length`) and `plc` the engine placement of each base row
(`engine.placements[base_ids]`, parallel to `labels`).  Per cluster id
`c` below `n_clusters` the loop skips clusters with
`size < min_cluster_size` and otherwise records the row the claim
reads: the size (`np.bincount` entry, the count of rows labelled `c`),
and the placement mean rounded to four decimals (Python `round`,
half-to-even, idealized over ℚ).  The final
`clusters.sort(key=(avg_placement, -size))` is a sort by that
lexicographic order. -/

/-- The fields of a cluster record that the skip guard and the sort
key read. -/
structure ClusterRow where
  cluster_id : ℕ
  size : ℕ
  avg_placement : ℚ
deriving DecidableEq

/-- `cluster_sizes[c] = np.bincount(labels, minlength=n_clusters)[c]`. -/
def clusterSize (labels : List ℕ) (c : ℕ) : ℕ :=
  labels.countP (fun l => decide (l = c))

/-- `engine.placements[base_ids[np.flatnonzero(labels == c)]]`. -/
def clusterPlacements (labels : List ℕ) (plc : List ℤ) (c : ℕ) : List ℤ :=
  (labels.zip plc).filterMap (fun lp => if lp.1 = c then some lp.2 else none)

/-- `float(placements.mean()) if placements.size else 4.5`. -/
def avgRaw (labels : List ℕ) (plc : List ℤ) (c : ℕ) : ℚ :=
  let ps := clusterPlacements labels plc c
  if ps.isEmpty then 9 / 2
  else (ps.map (fun v : ℤ => (v : ℚ))).sum / (ps.length : ℚ)

/-- Round to the nearest integer, ties to even (Python `round`). -/
def roundHalfEven (x : ℚ) : ℤ :=
  let f := Int.floor x
  let d := x - (f : ℚ)
  if d < 1 / 2 then f
  else if (1 : ℚ) / 2 < d then f + 1
  else if f % 2 = 0 then f else f + 1

/-- `round(x, 4)`. -/
def pyRound4 (x : ℚ) : ℚ := (roundHalfEven (x * 10000) : ℚ) / 10000

/-- The sort key `(c["avg_placement"], -c["size"])` as a boolean
order. -/
def clusterLE (a b : ClusterRow) : Bool :=
  decide (a.avg_placement < b.avg_placement ∨
    (a.avg_placement = b.avg_placement ∧ b.size ≤ a.size))

/-- The record the loop appends for a kept cluster (the fields the
claim reads). -/
def mkClusterRow (labels : List ℕ) (plc : List ℤ) (c : ℕ) : ClusterRow :=
  { cluster_id := c, size := clusterSize labels c,
    avg_placement := pyRound4 (avgRaw labels plc c) }

/-- One iteration of the cluster loop: skip when
`size < min_cluster_size`, else keep the record. -/
def keepCluster (labels : List ℕ) (plc : List ℤ) (min_cluster_size : ℕ)
    (c : ℕ) : Option ClusterRow :=
  if clusterSize labels c < min_cluster_size then none
  else some (mkClusterRow labels plc c)

/-- The cluster loop and final sort of `compute_clusters` (lines
369–447): skip clusters below `min_cluster_size`, record size and the
rounded placement mean, sort by `(avg_placement, -size)`. -/
def compute_clusters_core (labels : List ℕ) (plc : List ℤ)
    (n_clusters min_cluster_size : ℕ) : List ClusterRow :=
  insertionSort clusterLE
    ((List.range n_clusters).filterMap (keepCluster labels plc min_cluster_size))

end Clustering

namespace Codec

/-! ## `engine.py` — the v3 snapshot codec (`save` lines 950–1057,
`load` lines 1059–1145)

A file is a byte list (each entry `< 256`).  `struct.pack` little-
endian fields become explicit byte splits; numpy `tobytes` of an
`int8`/`int16`/`int32` array is the concatenation of the elements'
two's-complement bytes; `str.encode("utf-8")` is the standard UTF-8
encoding.  The opaque pyroaring wire format is abstracted as a
self-delimiting list encoding (a `u32` cardinality followed by the
`u32` elements); it keeps the two properties the engine relies on:
`serialize` is injective with a computable length, and the serialized
form of any bitmap is nonempty (so a stored token always has
`bitmap_len > 0`).  `f.read` that comes up short makes the
corresponding `struct.unpack`/decode raise in Python; the reader
models every such failure as `none`/`.error`. -/

/-- `struct.pack("<H", v)` for `v < 2^16`. -/
def u16le (v : ℕ) : List ℕ := [v % 256, v / 256 % 256]

/-- `struct.pack("<I", v)` for `v < 2^32`. -/
def u32le (v : ℕ) : List ℕ :=
  [v % 256, v / 2 ^ 8 % 256, v / 2 ^ 16 % 256, v / 2 ^ 24 % 256]

/-- `struct.pack("<Q", v)` for `v < 2^64`. -/
def u64le (v : ℕ) : List ℕ :=
  [v % 256, v / 2 ^ 8 % 256, v / 2 ^ 16 % 256, v / 2 ^ 24 % 256,
   v / 2 ^ 32 % 256, v / 2 ^ 40 % 256, v / 2 ^ 48 % 256, v / 2 ^ 56 % 256]

/-- One `int8` element of `placements.tobytes()`. -/
def i8b (v : ℤ) : List ℕ := [(v % 256).toNat]

/-- One `int16` element (little endian). -/
def i16le (v : ℤ) : List ℕ := u16le (v % 2 ^ 16).toNat

/-- One `int32` element (little endian); also `struct.pack("<i", v)`. -/
def i32le (v : ℤ) : List ℕ := u32le (v % 2 ^ 32).toNat

/-- `struct.pack("<q", v)`. -/
def i64le (v : ℤ) : List ℕ := u64le (v % 2 ^ 64).toNat

/-- Two's-complement reinterpretation of a `w`-bit unsigned value. -/
def asI (w : ℕ) (v : ℕ) : ℤ :=
  if v < 2 ^ (w - 1) then (v : ℤ) else (v : ℤ) - 2 ^ w

/-- Read one byte. -/
def rdU8 : List ℕ → Option (ℕ × List ℕ)
  | b0 :: rest => some (b0, rest)
  | _ => none

/-- `struct.unpack("<H", f.read(2))`. -/
def rdU16 : List ℕ → Option (ℕ × List ℕ)
  | b0 :: b1 :: rest => some (b0 + 2 ^ 8 * b1, rest)
  | _ => none

/-- `struct.unpack("<I", f.read(4))`. -/
def rdU32 : List ℕ → Option (ℕ × List ℕ)
  | b0 :: b1 :: b2 :: b3 :: rest =>
    some (b0 + 2 ^ 8 * b1 + 2 ^ 16 * b2 + 2 ^ 24 * b3, rest)
  | _ => none

/-- `struct.unpack("<Q", f.read(8))`. -/
def rdU64 : List ℕ → Option (ℕ × List ℕ)
  | b0 :: b1 :: b2 :: b3 :: b4 :: b5 :: b6 :: b7 :: rest =>
    some (b0 + 2 ^ 8 * b1 + 2 ^ 16 * b2 + 2 ^ 24 * b3 + 2 ^ 32 * b4 +
      2 ^ 40 * b5 + 2 ^ 48 * b6 + 2 ^ 56 * b7, rest)
  | _ => none

/-- Read one `int8` element. -/
def rdI8 (b : List ℕ) : Option (ℤ × List ℕ) :=
  (rdU8 b).map (fun vr => (asI 8 vr.1, vr.2))

/-- Read one `int16` element. -/
def rdI16 (b : List ℕ) : Option (ℤ × List ℕ) :=
  (rdU16 b).map (fun vr => (asI 16 vr.1, vr.2))

/-- Read one `int32` element. -/
def rdI32 (b : List ℕ) : Option (ℤ × List ℕ) :=
  (rdU32 b).map (fun vr => (asI 32 vr.1, vr.2))

/-- `struct.unpack("<q", f.read(8))`. -/
def rdI64 (b : List ℕ) : Option (ℤ × List ℕ) :=
  (rdU64 b).map (fun vr => (asI 64 vr.1, vr.2))

/-- Read a fixed number of elements with a given element reader
(`np.frombuffer(f.read(n * k), ...)` and the per-token loops). -/
def rdLoop (rd : List ℕ → Option (α × List ℕ)) :
    ℕ → List ℕ → Option (List α × List ℕ)
  | 0, b => some ([], b)
  | n + 1, b =>
    match rd b with
    | none => none
    | some (x, rest) =>
      match rdLoop rd n rest with
      | none => none
      | some (xs, rest2) => some (x :: xs, rest2)

/-- `f.read(n)` when the stream still holds `n` bytes. -/
def rdBytes (n : ℕ) (b : List ℕ) : Option (List ℕ × List ℕ) :=
  if n ≤ b.length then some (b.take n, b.drop n) else none

/-- UTF-8 bytes of one code point (`str.encode("utf-8")`). -/
def utf8Char (c : Char) : List ℕ :=
  let n := c.toNat
  if n < 0x80 then [n]
  else if n < 0x800 then [0xC0 + n / 64, 0x80 + n % 64]
  else if n < 0x10000 then
    [0xE0 + n / 4096, 0x80 + n / 64 % 64, 0x80 + n % 64]
  else
    [0xF0 + n / 0x40000, 0x80 + n / 4096 % 64, 0x80 + n / 64 % 64,
     0x80 + n % 64]

/-- `s.encode("utf-8")`. -/
def utf8Str (s : String) : List ℕ := s.data.flatMap utf8Char

/-- Strict UTF-8 decoding of a whole buffer (`bytes.decode("utf-8")`),
with fuel (one unit per decoded code point). -/
def utf8Dec : ℕ → List ℕ → Option (List Char)
  | _, [] => some []
  | 0, _ :: _ => none
  | f + 1, b :: bs =>
    if b < 0x80 then (utf8Dec f bs).map (fun cs => Char.ofNat b :: cs)
    else if b < 0xC0 then none
    else if b < 0xE0 then
      match bs with
      | b1 :: bs2 =>
        if 0x80 ≤ b1 ∧ b1 < 0xC0 then
          let n := (b - 0xC0) * 64 + (b1 - 0x80)
          if 0x80 ≤ n then (utf8Dec f bs2).map (fun cs => Char.ofNat n :: cs)
          else none
        else none
      | _ => none
    else if b < 0xF0 then
      match bs with
      | b1 :: b2 :: bs2 =>
        if 0x80 ≤ b1 ∧ b1 < 0xC0 ∧ 0x80 ≤ b2 ∧ b2 < 0xC0 then
          let n := (b - 0xE0) * 4096 + (b1 - 0x80) * 64 + (b2 - 0x80)
          if 0x800 ≤ n ∧ ¬ (0xD800 ≤ n ∧ n < 0xE000) then
            (utf8Dec f bs2).map (fun cs => Char.ofNat n :: cs)
          else none
        else none
      | _ => none
    else if b < 0xF8 then
      match bs with
      | b1 :: b2 :: b3 :: bs2 =>
        if 0x80 ≤ b1 ∧ b1 < 0xC0 ∧ 0x80 ≤ b2 ∧ b2 < 0xC0 ∧
            0x80 ≤ b3 ∧ b3 < 0xC0 then
          let n := (b - 0xF0) * 0x40000 + (b1 - 0x80) * 4096 +
            (b2 - 0x80) * 64 + (b3 - 0x80)
          if 0x10000 ≤ n ∧ n < 0x110000 then
            (utf8Dec f bs2).map (fun cs => Char.ofNat n :: cs)
          else none
        else none
      | _ => none
    else none

/-- Length-prefixed string section entry (`pack("<H", len) + bytes`). -/
def encStr (s : String) : List ℕ := u16le (utf8Str s).length ++ utf8Str s

/-- Read one length-prefixed string (`unpack("<H", ...)`, `f.read`,
`.decode("utf-8")`). -/
def rdStr (b : List ℕ) : Option (String × List ℕ) :=
  match rdU16 b with
  | none => none
  | some (len, rest) =>
    match rdBytes len rest with
    | none => none
    | some (sb, rest2) =>
      match utf8Dec len sb with
      | none => none
      | some cs => some (String.mk cs, rest2)

/-- The abstracted pyroaring `BitMap.serialize`. -/
def serBM (bm : List ℕ) : List ℕ := u32le bm.length ++ bm.flatMap u32le

/-- `len(bitmap.serialize())`: always positive. -/
def serBMLen (bm : List ℕ) : ℕ := 4 + 4 * bm.length

/-- The abstracted `BitMap.deserialize`. -/
def deserBM (b : List ℕ) : Option (List ℕ) :=
  match rdU32 b with
  | none => none
  | some (n, rest) =>
    match rdLoop rdU32 n rest with
    | none => none
    | some (xs, _) => some xs

/-- One entry of the token-stats section: a stored token writes its
serialized bitmap (always a positive `bitmap_len`) and `pack("<qi",
placement_sum, count)`; a missing token id writes `bitmap_len = 0` and
12 filler bytes. -/
def encStats : Option Engine.TokenStats → List ℕ
  | some s => u32le (serBMLen s.bitmap) ++ serBM s.bitmap ++
      i64le s.placement_sum ++ i32le s.count
  | none => u32le 0 ++ List.replicate 12 0

/-- Read one token-stats entry (`bitmap_len > 0` keeps the token,
otherwise the 12 stats bytes are skipped). -/
def rdStats (b : List ℕ) : Option (Option Engine.TokenStats × List ℕ) :=
  match rdU32 b with
  | none => none
  | some (blen, rest) =>
    if 0 < blen then
      match rdBytes blen rest with
      | none => none
      | some (bmb, rest2) =>
        match deserBM bmb with
        | none => none
        | some bm =>
          match rdI64 rest2 with
          | none => none
          | some (psum, rest3) =>
            match rdI32 rest3 with
            | none => none
            | some (cnt, rest4) => some (some ⟨bm, psum, cnt⟩, rest4)
    else
      match rdBytes 12 rest with
      | none => none
      | some (_, rest3) => some (none, rest3)

/-- `_arr_or_zeros` (save lines 981–985). -/
def arrOrZeros (n : ℕ) (l : List ℤ) : List ℤ :=
  if l.length = n then l else List.replicate n 0

/-- `_float_arr`: a missing or misshaped array becomes `np.nan`
(float32 pattern `0x7FC00000`). -/
def floatArrOr (n : ℕ) (l : List ℕ) : List ℕ :=
  if l.length = n then l else List.replicate n 0x7FC00000

/-- `_int_arr`. -/
def intArrOr (n : ℕ) (l : List ℤ) : List ℤ :=
  if l.length = n then l else List.replicate n 0

/-- `_u8_arr`. -/
def u8ArrOr (n : ℕ) (l : List ℕ) : List ℕ :=
  if l.length = n then l else List.replicate n 0

/-- `np.isfinite(arr).any()` on raw float32 patterns: finite iff the
exponent bits are not all ones. -/
def anyFinite (l : List ℕ) : Bool :=
  l.any (fun w => decide (w / 2 ^ 23 % 2 ^ 8 ≠ 255))

/-- `b"SMEE"`. -/
def magic : List ℕ := [83, 77, 69, 69]

/-- `GraphEngine.save` as the byte string it writes. -/
def save (E : Engine.EngineState) : List ℕ :=
  let n := E.placements.length
  let nt := E.id_to_token.length
  magic ++ u32le 3 ++
  u64le n ++ u64le nt ++ u64le E.total_matches ++
  E.placements.flatMap i8b ++
  (arrOrZeros n E.item_count).flatMap i16le ++
  (arrOrZeros n E.component_count).flatMap i16le ++
  (arrOrZeros n E.completed_item_count).flatMap i16le ++
  (arrOrZeros n E.unit_count).flatMap i16le ++
  (arrOrZeros n E.two_star_count).flatMap i16le ++
  (arrOrZeros n E.three_star_count).flatMap i16le ++
  (arrOrZeros n E.unit_gold_value).flatMap i32le ++
  u32le (serBMLen E.all_players) ++ serBM E.all_players ++
  E.id_to_token.flatMap encStr ++
  (List.range nt).flatMap (fun i => encStr (E.labels.getD i "")) ++
  (List.range nt).flatMap (fun i => encStats (E.tokens.getD i none)) ++
  (floatArrOr nt E.necessity_top4_tau).flatMap u32le ++
  (floatArrOr nt E.necessity_top4_ci95_low).flatMap u32le ++
  (floatArrOr nt E.necessity_top4_ci95_high).flatMap u32le ++
  (floatArrOr nt E.necessity_top4_se).flatMap u32le ++
  (floatArrOr nt E.necessity_top4_raw_tau).flatMap u32le ++
  (floatArrOr nt E.necessity_top4_frac_trimmed).flatMap u32le ++
  (floatArrOr nt E.necessity_top4_e_p01).flatMap u32le ++
  (floatArrOr nt E.necessity_top4_e_p99).flatMap u32le ++
  (intArrOr nt E.necessity_top4_n_treated).flatMap i32le ++
  (intArrOr nt E.necessity_top4_n_control).flatMap i32le ++
  (intArrOr nt E.necessity_top4_n_used).flatMap i32le ++
  (u8ArrOr nt E.necessity_top4_scope_min_star).flatMap (fun v => [v % 256])

/-- `GraphEngine.load`.  The magic check compares the first four bytes
(a short read fails it too); the version gate rejects everything but 3
with the source's message; every later short read raises in Python and
is `.error "unexpected end of file"` here. -/
def load (b : List ℕ) : Except String Engine.EngineState :=
  if b.take 4 ≠ magic then .error "Invalid engine file: bad magic"
  else
    match rdU32 (b.drop 4) with
    | none => .error "unexpected end of file"
    | some (version, r1) =>
      if version ≠ 3 then
        .error ("Unsupported engine version: " ++ Build.decStr version ++
          " (expected 3). Rebuild engine.bin with smeecher-build.")
      else
      match rdU64 r1 with
      | none => .error "unexpected end of file"
      | some (placements_len, r2) =>
      match rdU64 r2 with
      | none => .error "unexpected end of file"
      | some (num_tokens, r3) =>
      match rdU64 r3 with
      | none => .error "unexpected end of file"
      | some (total_matches, r4) =>
      match rdLoop rdI8 placements_len r4 with
      | none => .error "unexpected end of file"
      | some (placements, r5) =>
      match rdLoop rdI16 placements_len r5 with
      | none => .error "unexpected end of file"
      | some (item_count, r6) =>
      match rdLoop rdI16 placements_len r6 with
      | none => .error "unexpected end of file"
      | some (component_count, r7) =>
      match rdLoop rdI16 placements_len r7 with
      | none => .error "unexpected end of file"
      | some (completed_item_count, r8) =>
      match rdLoop rdI16 placements_len r8 with
      | none => .error "unexpected end of file"
      | some (unit_count, r9) =>
      match rdLoop rdI16 placements_len r9 with
      | none => .error "unexpected end of file"
      | some (two_star_count, r10) =>
      match rdLoop rdI16 placements_len r10 with
      | none => .error "unexpected end of file"
      | some (three_star_count, r11) =>
      match rdLoop rdI32 placements_len r11 with
      | none => .error "unexpected end of file"
      | some (unit_gold_value, r12) =>
      match rdU32 r12 with
      | none => .error "unexpected end of file"
      | some (ap_len, r13) =>
      match rdBytes ap_len r13 with
      | none => .error "unexpected end of file"
      | some (apb, r14) =>
      match deserBM apb with
      | none => .error "invalid bitmap"
      | some all_players =>
      match rdLoop rdStr num_tokens r14 with
      | none => .error "unexpected end of file"
      | some (id_to_token, r15) =>
      match rdLoop rdStr num_tokens r15 with
      | none => .error "unexpected end of file"
      | some (labels, r16) =>
      match rdLoop rdStats num_tokens r16 with
      | none => .error "unexpected end of file"
      | some (tokens, r17) =>
      match rdLoop rdU32 num_tokens r17 with
      | none => .error "unexpected end of file"
      | some (tau, r18) =>
      match rdLoop rdU32 num_tokens r18 with
      | none => .error "unexpected end of file"
      | some (ci95_low, r19) =>
      match rdLoop rdU32 num_tokens r19 with
      | none => .error "unexpected end of file"
      | some (ci95_high, r20) =>
      match rdLoop rdU32 num_tokens r20 with
      | none => .error "unexpected end of file"
      | some (se, r21) =>
      match rdLoop rdU32 num_tokens r21 with
      | none => .error "unexpected end of file"
      | some (raw_tau, r22) =>
      match rdLoop rdU32 num_tokens r22 with
      | none => .error "unexpected end of file"
      | some (frac_trimmed, r23) =>
      match rdLoop rdU32 num_tokens r23 with
      | none => .error "unexpected end of file"
      | some (e_p01, r24) =>
      match rdLoop rdU32 num_tokens r24 with
      | none => .error "unexpected end of file"
      | some (e_p99, r25) =>
      match rdLoop rdI32 num_tokens r25 with
      | none => .error "unexpected end of file"
      | some (n_treated, r26) =>
      match rdLoop rdI32 num_tokens r26 with
      | none => .error "unexpected end of file"
      | some (n_control, r27) =>
      match rdLoop rdI32 num_tokens r27 with
      | none => .error "unexpected end of file"
      | some (n_used, r28) =>
      match rdLoop rdU8 num_tokens r28 with
      | none => .error "unexpected end of file"
      | some (scope_min_star, _) =>
      .ok
        { placements := placements,
          item_count := item_count,
          component_count := component_count,
          completed_item_count := completed_item_count,
          unit_count := unit_count,
          two_star_count := two_star_count,
          three_star_count := three_star_count,
          unit_gold_value := unit_gold_value,
          total_matches := total_matches,
          all_players := all_players,
          id_to_token := id_to_token,
          labels := labels,
          tokens := tokens,
          necessity_top4_tau := tau,
          necessity_top4_ci95_low := ci95_low,
          necessity_top4_ci95_high := ci95_high,
          necessity_top4_se := se,
          necessity_top4_raw_tau := raw_tau,
          necessity_top4_frac_trimmed := frac_trimmed,
          necessity_top4_e_p01 := e_p01,
          necessity_top4_e_p99 := e_p99,
          necessity_top4_n_treated := n_treated,
          necessity_top4_n_control := n_control,
          necessity_top4_n_used := n_used,
          necessity_top4_scope_min_star := scope_min_star,
          necessity_top4_ready := anyFinite tau }

/-- Per-token well-formedness of a stored `TokenStats` (what int32/int64
packing and the `u32` bitmap length require). -/
def tokWF (o : Option Engine.TokenStats) : Bool :=
  match o with
  | none => true
  | some s =>
    s.bitmap.all (fun x => decide (x < 2 ^ 32)) &&
    decide (serBMLen s.bitmap < 2 ^ 32) &&
    decide (-(2 ^ 63) ≤ s.placement_sum) && decide (s.placement_sum < 2 ^ 63) &&
    decide (-(2 ^ 31) ≤ s.count) && decide (s.count < 2 ^ 31)

/-- int16 value range of a numpy `int16` array. -/
def i16Range (l : List ℤ) : Bool :=
  l.all (fun v => decide (-(2 ^ 15) ≤ v) && decide (v < 2 ^ 15))

/-- int32 value range. -/
def i32Range (l : List ℤ) : Bool :=
  l.all (fun v => decide (-(2 ^ 31) ≤ v) && decide (v < 2 ^ 31))

/-- Raw 32-bit patterns. -/
def u32Range (l : List ℕ) : Bool := l.all (fun v => decide (v < 2 ^ 32))

/-- A token/label string a `<H` length prefix can frame. -/
def strWF (s : String) : Bool := decide ((utf8Str s).length < 2 ^ 16)

/-- What a state produced by `build_from_db` + the necessity-cache
initialization (or by a previous `load`) satisfies: parallel array
lengths, machine-representable values, and the `ready` flag derived
from the stored `tau` patterns. -/
def engineWF (E : Engine.EngineState) : Prop :=
  E.item_count.length = E.placements.length ∧
  E.component_count.length = E.placements.length ∧
  E.completed_item_count.length = E.placements.length ∧
  E.unit_count.length = E.placements.length ∧
  E.two_star_count.length = E.placements.length ∧
  E.three_star_count.length = E.placements.length ∧
  E.unit_gold_value.length = E.placements.length ∧
  E.placements.length < 2 ^ 64 ∧
  E.id_to_token.length < 2 ^ 64 ∧
  E.total_matches < 2 ^ 64 ∧
  (∀ v ∈ E.placements, -128 ≤ v ∧ v < 128) ∧
  i16Range E.item_count = true ∧
  i16Range E.component_count = true ∧
  i16Range E.completed_item_count = true ∧
  i16Range E.unit_count = true ∧
  i16Range E.two_star_count = true ∧
  i16Range E.three_star_count = true ∧
  i32Range E.unit_gold_value = true ∧
  u32Range E.all_players = true ∧
  serBMLen E.all_players < 2 ^ 32 ∧
  E.labels.length = E.id_to_token.length ∧
  E.tokens.length = E.id_to_token.length ∧
  (∀ s ∈ E.id_to_token, strWF s = true) ∧
  (∀ s ∈ E.labels, strWF s = true) ∧
  E.tokens.all tokWF = true ∧
  E.necessity_top4_tau.length = E.id_to_token.length ∧
  E.necessity_top4_ci95_low.length = E.id_to_token.length ∧
  E.necessity_top4_ci95_high.length = E.id_to_token.length ∧
  E.necessity_top4_se.length = E.id_to_token.length ∧
  E.necessity_top4_raw_tau.length = E.id_to_token.length ∧
  E.necessity_top4_frac_trimmed.length = E.id_to_token.length ∧
  E.necessity_top4_e_p01.length = E.id_to_token.length ∧
  E.necessity_top4_e_p99.length = E.id_to_token.length ∧
  u32Range E.necessity_top4_tau = true ∧
  u32Range E.necessity_top4_ci95_low = true ∧
  u32Range E.necessity_top4_ci95_high = true ∧
  u32Range E.necessity_top4_se = true ∧
  u32Range E.necessity_top4_raw_tau = true ∧
  u32Range E.necessity_top4_frac_trimmed = true ∧
  u32Range E.necessity_top4_e_p01 = true ∧
  u32Range E.necessity_top4_e_p99 = true ∧
  E.necessity_top4_n_treated.length = E.id_to_token.length ∧
  E.necessity_top4_n_control.length = E.id_to_token.length ∧
  E.necessity_top4_n_used.length = E.id_to_token.length ∧
  i32Range E.necessity_top4_n_treated = true ∧
  i32Range E.necessity_top4_n_control = true ∧
  i32Range E.necessity_top4_n_used = true ∧
  E.necessity_top4_scope_min_star.length = E.id_to_token.length ∧
  (∀ v ∈ E.necessity_top4_scope_min_star, v < 256) ∧
  E.necessity_top4_ready = anyFinite E.necessity_top4_tau

end Codec

/-- C1 (witness input): a one-match, one-token engine with a non-ASCII
label, a stored bitmap, and an all-NaN necessity cache. -/
def C1engine : Engine.EngineState where
  placements := [3]
  item_count := [2]
  component_count := [1]
  completed_item_count := [1]
  unit_count := [5]
  two_star_count := [2]
  three_star_count := [0]
  unit_gold_value := [17]
  total_matches := 1
  all_players := [0]
  id_to_token := ["U:Ähri"]
  labels := ["Ähri"]
  tokens := [some ⟨[0], 3, 1⟩]
  necessity_top4_tau := [0x7FC00000]
  necessity_top4_ci95_low := [0]
  necessity_top4_ci95_high := [0]
  necessity_top4_se := [0]
  necessity_top4_raw_tau := [0]
  necessity_top4_frac_trimmed := [0]
  necessity_top4_e_p01 := [0]
  necessity_top4_e_p99 := [0]
  necessity_top4_n_treated := [0]
  necessity_top4_n_control := [0]
  necessity_top4_n_used := [0]
  necessity_top4_scope_min_star := [0]
  necessity_top4_ready := false

theorem perm_insertSorted (le : α → α → Bool) (a : α) (l : List α) :
    (insertSorted le a l).Perm (a :: l) := by
  induction l with
  | nil => simp [insertSorted]
  | cons b bs ih =>
    by_cases h : le a b
    · simp [insertSorted, h]
    · simp only [insertSorted, h, if_false, Bool.false_eq_true]
      exact ((ih.cons b).trans (List.Perm.swap a b bs))

theorem perm_insertionSort (le : α → α → Bool) (l : List α) :
    (insertionSort le l).Perm l := by
  induction l with
  | nil => simp [insertionSort]
  | cons a as ih =>
    exact (perm_insertSorted le a (insertionSort le as)).trans (ih.cons a)

theorem mem_insertionSort (le : α → α → Bool) (l : List α) (a : α) :
    a ∈ insertionSort le l ↔ a ∈ l :=
  (perm_insertionSort le l).mem_iff

theorem length_insertionSort (le : α → α → Bool) (l : List α) :
    (insertionSort le l).length = l.length :=
  (perm_insertionSort le l).length_eq

theorem pairwise_insertSorted (le : α → α → Bool)
    (htrans : ∀ a b c, le a b = true → le b c = true → le a c = true)
    (htot : ∀ a b, le a b = true ∨ le b a = true) (a : α) (l : List α)
    (hl : l.Pairwise (fun x y => le x y = true)) :
    (insertSorted le a l).Pairwise (fun x y => le x y = true) := by
  induction l with
  | nil => simp [insertSorted]
  | cons b bs ih =>
    rcases hl with _ | ⟨hb, hbs⟩
    by_cases h : le a b = true
    all_goals simp only [insertSorted, h, if_true, if_false, Bool.false_eq_true]
    · refine List.Pairwise.cons ?_ (List.Pairwise.cons hb hbs)
      intro x hx
      rcases List.mem_cons.mp hx with rfl | hx
      · exact h
      · exact htrans a b x h (hb x hx)
    · refine List.Pairwise.cons ?_ (ih hbs)
      intro x hx
      rcases List.mem_cons.mp ((perm_insertSorted le a bs).mem_iff.mp hx) with rfl | hx
      · rcases htot x b with hxb | hbx
        · exact absurd hxb h
        · exact hbx
      · exact hb x hx

theorem pairwise_insertionSort (le : α → α → Bool)
    (htrans : ∀ a b c, le a b = true → le b c = true → le a c = true)
    (htot : ∀ a b, le a b = true ∨ le b a = true) (l : List α) :
    (insertionSort le l).Pairwise (fun x y => le x y = true) := by
  induction l with
  | nil => simp [insertionSort]
  | cons a as ih => exact pairwise_insertSorted le htrans htot a _ ih

theorem nodup_insertionSort (le : α → α → Bool) (l : List α) (h : l.Nodup) :
    (insertionSort le l).Nodup :=
  (perm_insertionSort le l).nodup_iff.mpr h

/-! ### Claim C4 -/
/-- C4 (counterexample): `get_item_type` does not follow the spec's
priority order. On `"Artifact_SilvermereDawnRadiant"` the code tests the
`Radiant` suffix before the `Artifact_` prefix and returns `"radiant"`,
while the claim's order (artifact before radiant) yields `"artifact"`. -/
theorem C4_item_type_counterexample :
    Items.get_item_type "Artifact_SilvermereDawnRadiant" = "radiant" ∧
    Items.get_item_type_spec_order "Artifact_SilvermereDawnRadiant" = "artifact" := by
  decide

/-- C4 (amended): for every item name, `get_item_type` returns the
category determined by this priority order: component if the name is in
`COMPONENT_ITEMS`; else artifact if it begins `"TFT"` or `"Set"` and
contains `"_"`; else radiant if it ends `"Radiant"`; else artifact if it
begins `"Artifact_"` or contains `"Item_Ornn"`; else emblem if it ends
`"EmblemItem"` or begins `"TFT_Item_Emblem_"`; else full. Stated as an
iff-characterization of each of the five categories. -/
theorem C4_item_type_amended (name : String) :
    (Items.get_item_type name = "component" ↔
      name ∈ Items.COMPONENT_ITEMS) ∧
    (Items.get_item_type name = "artifact" ↔ name ∉ Items.COMPONENT_ITEMS ∧
      (((pyStartsWith name "TFT" || pyStartsWith name "Set") && pyContains name "_") = true ∨
        (pyEndsWith name "Radiant" = false ∧
          (pyStartsWith name "Artifact_" || pyContains name "Item_Ornn") = true))) ∧
    (Items.get_item_type name = "radiant" ↔ name ∉ Items.COMPONENT_ITEMS ∧
      ((pyStartsWith name "TFT" || pyStartsWith name "Set") && pyContains name "_") = false ∧
      pyEndsWith name "Radiant" = true) ∧
    (Items.get_item_type name = "emblem" ↔ name ∉ Items.COMPONENT_ITEMS ∧
      ((pyStartsWith name "TFT" || pyStartsWith name "Set") && pyContains name "_") = false ∧
      pyEndsWith name "Radiant" = false ∧
      (pyStartsWith name "Artifact_" || pyContains name "Item_Ornn") = false ∧
      (pyEndsWith name "EmblemItem" || pyStartsWith name "TFT_Item_Emblem_") = true) ∧
    (Items.get_item_type name = "full" ↔ name ∉ Items.COMPONENT_ITEMS ∧
      ((pyStartsWith name "TFT" || pyStartsWith name "Set") && pyContains name "_") = false ∧
      pyEndsWith name "Radiant" = false ∧
      (pyStartsWith name "Artifact_" || pyContains name "Item_Ornn") = false ∧
      (pyEndsWith name "EmblemItem" || pyStartsWith name "TFT_Item_Emblem_") = false) := by
  unfold Items.get_item_type
  by_cases h1 : name ∈ Items.COMPONENT_ITEMS <;>
    by_cases h2 : ((pyStartsWith name "TFT" || pyStartsWith name "Set") && pyContains name "_") = true <;>
      by_cases h3 : pyEndsWith name "Radiant" = true <;>
        by_cases h4 : (pyStartsWith name "Artifact_" || pyContains name "Item_Ornn") = true <;>
          by_cases h5 : (pyEndsWith name "EmblemItem" || pyStartsWith name "TFT_Item_Emblem_") = true <;>
            simp only [Bool.not_eq_true] at h2 h3 h4 h5 <;>
              simp [h1, h2, h3, h4, h5]

/-! ### Counting lemmas for claim C2 -/
theorem countP_zip_snd (T : List α) (u : List β) (pred : β → Bool)
    (h : T.length = u.length) :
    (T.zip u).countP (fun p => pred p.2) = u.countP pred := by
  induction T generalizing u with
  | nil =>
    cases u with
    | nil => rfl
    | cons b bs => simp at h
  | cons a as ih =>
    cases u with
    | nil => simp at h
    | cons b bs =>
      simp only [List.zip_cons_cons, List.countP_cons]
      rw [ih bs (by simpa using h)]

theorem countP_split_mask (zs : List (Bool × ℚ)) (pred : ℚ → Bool) :
    zs.countP (fun p => pred p.2) =
      zs.countP (fun p => p.1 && pred p.2) +
        zs.countP (fun p => !p.1 && pred p.2) := by
  induction zs with
  | nil => rfl
  | cons z rest ih =>
    obtain ⟨t, x⟩ := z
    cases t <;> by_cases hx : pred x <;>
      simp [List.countP_cons, hx, ih] <;> omega

theorem length_maskRows (a : List ℚ) (u : List Bool) (h : a.length = u.length) :
    (Causal.maskRows a u).length = Causal.aipw_n_used u := by
  unfold Causal.maskRows Causal.aipw_n_used
  induction a generalizing u with
  | nil =>
    cases u with
    | nil => rfl
    | cons b bs => simp at h
  | cons x xs ih =>
    cases u with
    | nil => simp at h
    | cons b bs =>
      cases b <;>
        simp [List.zip_cons_cons, List.countP_cons, ih bs (by simpa using h)]

theorem aipw_used_trim (cfg : Causal.AIPWConfig) (lo hi : ℚ)
    (hlo : cfg.trim_low = some lo) (hhi : cfg.trim_high = some hi)
    (n : ℕ) (e_hat : List ℚ) :
    Causal.aipw_used cfg n e_hat = e_hat.map (Causal.inTrim lo hi) := by
  unfold Causal.aipw_used
  rw [hlo, hhi]
  rfl

theorem aipw_e_hat_eq_clipped (cfg : Causal.AIPWConfig) (e : List ℚ) :
    Causal.aipw_e_hat cfg e = Causal.clipped cfg.clip_eps e := rfl

theorem aipw_n_used_eq_spec (cfg : Causal.AIPWConfig) (lo hi : ℚ)
    (hlo : cfg.trim_low = some lo) (hhi : cfg.trim_high = some hi)
    (n : ℕ) (e : List ℚ) :
    Causal.aipw_n_used (Causal.aipw_used cfg n (Causal.aipw_e_hat cfg e)) =
      Causal.spec_n_used lo hi cfg.clip_eps e := by
  rw [aipw_used_trim cfg lo hi hlo hhi, aipw_e_hat_eq_clipped]
  unfold Causal.aipw_n_used Causal.spec_n_used
  rw [List.countP_map]
  rfl

theorem aipw_n_treated_used_eq_spec (cfg : Causal.AIPWConfig) (lo hi : ℚ)
    (hlo : cfg.trim_low = some lo) (hhi : cfg.trim_high = some hi)
    (n : ℕ) (T : List Bool) (e : List ℚ) :
    Causal.aipw_n_treated_used T (Causal.aipw_used cfg n (Causal.aipw_e_hat cfg e)) =
      Causal.spec_n_treated_used lo hi cfg.clip_eps T e := by
  rw [aipw_used_trim cfg lo hi hlo hhi, aipw_e_hat_eq_clipped]
  unfold Causal.aipw_n_treated_used Causal.spec_n_treated_used
  rw [List.zip_map_right, List.countP_map, ← List.countP_eq_length_filter]
  rfl

theorem aipw_n_control_used_eq_spec (cfg : Causal.AIPWConfig) (lo hi : ℚ)
    (hlo : cfg.trim_low = some lo) (hhi : cfg.trim_high = some hi)
    (n : ℕ) (T : List Bool) (e : List ℚ) (hT : T.length = e.length) :
    Causal.aipw_n_used (Causal.aipw_used cfg n (Causal.aipw_e_hat cfg e)) -
        Causal.aipw_n_treated_used T (Causal.aipw_used cfg n (Causal.aipw_e_hat cfg e)) =
      Causal.spec_n_control_used lo hi cfg.clip_eps T e := by
  rw [aipw_n_used_eq_spec cfg lo hi hlo hhi n e,
    aipw_n_treated_used_eq_spec cfg lo hi hlo hhi n T e]
  have hlen : T.length = (Causal.clipped cfg.clip_eps e).length := by
    unfold Causal.clipped
    simpa using hT
  have hsplit := countP_split_mask (T.zip (Causal.clipped cfg.clip_eps e))
    (Causal.inTrim lo hi)
  have hU : Causal.spec_n_used lo hi cfg.clip_eps e =
      (T.zip (Causal.clipped cfg.clip_eps e)).countP
        (fun p => Causal.inTrim lo hi p.2) := by
    unfold Causal.spec_n_used
    rw [countP_zip_snd T _ _ hlen]
  have hTr : Causal.spec_n_treated_used lo hi cfg.clip_eps T e =
      (T.zip (Causal.clipped cfg.clip_eps e)).countP
        (fun p => p.1 && Causal.inTrim lo hi p.2) := by
    unfold Causal.spec_n_treated_used
    rw [← List.countP_eq_length_filter]
  have hCtl : Causal.spec_n_control_used lo hi cfg.clip_eps T e =
      (T.zip (Causal.clipped cfg.clip_eps e)).countP
        (fun p => !p.1 && Causal.inTrim lo hi p.2) := by
    unfold Causal.spec_n_control_used
    rw [← List.countP_eq_length_filter]
  rw [hU, hTr, hCtl]
  omega

theorem aipw_diffs_eq_spec (rows : List (Bool × ℚ × ℚ × ℚ × ℚ)) :
    ((Causal.aipw_y1 rows).zip (Causal.aipw_y0 rows)).map (fun p => p.1 - p.2) =
      rows.map (fun r =>
        Causal.spec_y1_row r.1 r.2.1 r.2.2.1 r.2.2.2.1 -
          Causal.spec_y0_row r.1 r.2.1 r.2.2.1 r.2.2.2.2) := by
  unfold Causal.aipw_y1 Causal.aipw_y0
  rw [List.zip_map', List.map_map]
  rfl

theorem aipw_phi_eq_spec (rows : List (Bool × ℚ × ℚ × ℚ × ℚ)) :
    Causal.aipw_phi rows =
      rows.map (fun r =>
        Causal.spec_phi_row r.1 r.2.1 r.2.2.1 r.2.2.2.1 r.2.2.2.2) := rfl

theorem zip5_length (a : List α) (b : List β) (c : List γ) (d : List δ)
    (e : List ε) (hb : b.length = a.length) (hc : c.length = a.length)
    (hd : d.length = a.length) (he : e.length = a.length) :
    (Causal.zip5 a b c d e).length = a.length := by
  induction a generalizing b c d e with
  | nil =>
    cases b <;> cases c <;> cases d <;> cases e <;> rfl
  | cons x xs ih =>
    cases b with
    | nil => simp at hb
    | cons y ys =>
      cases c with
      | nil => simp at hc
      | cons z zs =>
        cases d with
        | nil => simp at hd
        | cons w ws =>
          cases e with
          | nil => simp at he
          | cons v vs =>
            simp only [Causal.zip5, List.length_cons]
            rw [ih ys zs ws vs (by simpa using hb) (by simpa using hc)
              (by simpa using hd) (by simpa using he)]

theorem aipw_tail_error_iff_code (T : List Bool) (y e mu1 mu0 : List ℚ)
    (kind : String) (cfg : Causal.AIPWConfig) :
    (∃ d, Causal.aipw_ate_tail T y e mu1 mu0 kind cfg = .error d) ↔
      (Causal.aipw_n_used (Causal.aipw_used cfg y.length (Causal.aipw_e_hat cfg e))
          < max 200 (y.length / 20) ∨
        Causal.aipw_n_treated_used T
          (Causal.aipw_used cfg y.length (Causal.aipw_e_hat cfg e)) < 50 ∨
        Causal.aipw_n_used (Causal.aipw_used cfg y.length (Causal.aipw_e_hat cfg e)) -
          Causal.aipw_n_treated_used T
            (Causal.aipw_used cfg y.length (Causal.aipw_e_hat cfg e)) < 50) := by
  simp only [Causal.aipw_ate_tail]
  by_cases hc :
      Causal.aipw_n_used (Causal.aipw_used cfg y.length (Causal.aipw_e_hat cfg e))
          < max 200 (y.length / 20) ∨
        Causal.aipw_n_treated_used T
          (Causal.aipw_used cfg y.length (Causal.aipw_e_hat cfg e)) < 50 ∨
        Causal.aipw_n_used (Causal.aipw_used cfg y.length (Causal.aipw_e_hat cfg e)) -
          Causal.aipw_n_treated_used T
            (Causal.aipw_used cfg y.length (Causal.aipw_e_hat cfg e)) < 50
  · rw [if_pos hc]
    simp only [Except.error.injEq, exists_eq', true_iff]
    exact hc
  · rw [if_neg hc]
    simp only [reduceCtorEq, exists_false, false_iff]
    exact hc

theorem aipw_tail_error_payload (T : List Bool) (y e mu1 mu0 : List ℚ)
    (kind : String) (cfg : Causal.AIPWConfig) (d : Causal.OverlapDiag)
    (hd : Causal.aipw_ate_tail T y e mu1 mu0 kind cfg = .error d) :
    d.n = y.length ∧
    d.n_used = Causal.aipw_n_used
      (Causal.aipw_used cfg y.length (Causal.aipw_e_hat cfg e)) ∧
    d.n_treated_used = Causal.aipw_n_treated_used T
      (Causal.aipw_used cfg y.length (Causal.aipw_e_hat cfg e)) ∧
    d.n_control_used =
      Causal.aipw_n_used (Causal.aipw_used cfg y.length (Causal.aipw_e_hat cfg e)) -
        Causal.aipw_n_treated_used T
          (Causal.aipw_used cfg y.length (Causal.aipw_e_hat cfg e)) ∧
    d.trim_low = cfg.trim_low ∧ d.trim_high = cfg.trim_high ∧
    d.e_min = Causal.listMin (Causal.aipw_e_hat cfg e) ∧
    d.e_p01 = Causal.npQuantile (Causal.aipw_e_hat cfg e) (1 / 100) ∧
    d.e_p50 = Causal.npQuantile (Causal.aipw_e_hat cfg e) (1 / 2) ∧
    d.e_p99 = Causal.npQuantile (Causal.aipw_e_hat cfg e) (99 / 100) ∧
    d.e_max = Causal.listMax (Causal.aipw_e_hat cfg e) ∧
    d.frac_trimmed = 1 -
      (Causal.aipw_n_used (Causal.aipw_used cfg y.length (Causal.aipw_e_hat cfg e)) : ℚ) /
        (y.length : ℚ) := by
  simp only [Causal.aipw_ate_tail] at hd
  split at hd
  · obtain rfl := (Except.error.inj hd).symm
    exact ⟨rfl, rfl, rfl, rfl, rfl, rfl, rfl, rfl, rfl, rfl, rfl, rfl⟩
  · simp at hd

theorem aipw_tail_ok_payload (T : List Bool) (y e mu1 mu0 : List ℚ)
    (kind : String) (cfg : Causal.AIPWConfig) (est : Causal.AIPWCore)
    (hok : Causal.aipw_ate_tail T y e mu1 mu0 kind cfg = .ok est) :
    est.tau = Causal.listMean (Causal.maskRows
      (((Causal.aipw_y1 (Causal.zip5 T y (Causal.aipw_e_hat cfg e)
          (Causal.aipw_mu_hat kind mu1) (Causal.aipw_mu_hat kind mu0))).zip
        (Causal.aipw_y0 (Causal.zip5 T y (Causal.aipw_e_hat cfg e)
          (Causal.aipw_mu_hat kind mu1) (Causal.aipw_mu_hat kind mu0)))).map
        (fun p => p.1 - p.2))
      (Causal.aipw_used cfg y.length (Causal.aipw_e_hat cfg e))) ∧
    est.phi_var =
      ((Causal.maskRows (Causal.aipw_phi (Causal.zip5 T y (Causal.aipw_e_hat cfg e)
          (Causal.aipw_mu_hat kind mu1) (Causal.aipw_mu_hat kind mu0)))
        (Causal.aipw_used cfg y.length (Causal.aipw_e_hat cfg e))).map
        (fun x => (x - Causal.listMean (Causal.maskRows
          (Causal.aipw_phi (Causal.zip5 T y (Causal.aipw_e_hat cfg e)
            (Causal.aipw_mu_hat kind mu1) (Causal.aipw_mu_hat kind mu0)))
          (Causal.aipw_used cfg y.length (Causal.aipw_e_hat cfg e)))) ^ 2)).sum /
      ((Causal.aipw_n_used (Causal.aipw_used cfg y.length (Causal.aipw_e_hat cfg e)) : ℚ) - 1) ∧
    est.n_used = Causal.aipw_n_used
      (Causal.aipw_used cfg y.length (Causal.aipw_e_hat cfg e)) := by
  simp only [Causal.aipw_ate_tail] at hok
  split at hok
  · simp at hok
  · obtain rfl := (Except.ok.inj hok).symm
    exact ⟨rfl, rfl, rfl⟩

theorem aipw_mu_hat_length (kind : String) (mu : List ℚ) :
    (Causal.aipw_mu_hat kind mu).length = mu.length := by
  unfold Causal.aipw_mu_hat
  split <;> simp

/-! ### Claim C2 -/
/-- C2 (counterexample): the claim's identifiability gate uses the
real-valued threshold `max(200, 0.05·n)`, the code `max(200, int(0.05·n))`.
At `n = 4001` with exactly 200 used rows (100 treated, 100 control used)
the claim demands an overlap failure (`200 < max(200, 200.05)`), but
`aipw_ate` returns an estimate (`200 ≥ max(200, 200)`). The input: the
first 200 propensities are 0.5 (kept by trimming), the other 3801 are 1
(clipped to 0.999 and trimmed); outcomes and outcome-model predictions
are all 0. -/
theorem C2_aipw_gate_counterexample :
    (Causal.aipw_ate_tail
        (List.replicate 100 true ++ (List.replicate 100 false ++ List.replicate 3801 false))
        (List.replicate 4001 (0 : ℚ))
        (List.replicate 100 ((1 : ℚ)/2) ++ (List.replicate 100 ((1 : ℚ)/2) ++ List.replicate 3801 (1 : ℚ)))
        (List.replicate 4001 (0 : ℚ)) (List.replicate 4001 (0 : ℚ))
        "binary" {}).isOk = true ∧
    Causal.spec_n_used (1/20) (19/20) (1/1000)
      (List.replicate 100 ((1 : ℚ)/2) ++ (List.replicate 100 ((1 : ℚ)/2) ++ List.replicate 3801 (1 : ℚ))) = 200 ∧
    Causal.spec_n_treated_used (1/20) (19/20) (1/1000)
      (List.replicate 100 true ++ (List.replicate 100 false ++ List.replicate 3801 false))
      (List.replicate 100 ((1 : ℚ)/2) ++ (List.replicate 100 ((1 : ℚ)/2) ++ List.replicate 3801 (1 : ℚ))) = 100 ∧
    Causal.spec_n_control_used (1/20) (19/20) (1/1000)
      (List.replicate 100 true ++ (List.replicate 100 false ++ List.replicate 3801 false))
      (List.replicate 100 ((1 : ℚ)/2) ++ (List.replicate 100 ((1 : ℚ)/2) ++ List.replicate 3801 (1 : ℚ))) = 100 ∧
    Causal.claim_gate_real 4001 200 100 100 := by
  have hclip1 : Causal.npClip ((1 : ℚ)/2) (1/1000) (1 - 1/1000) = 1/2 := by
    unfold Causal.npClip
    rw [max_eq_left (by norm_num), min_eq_left (by norm_num)]
  have hclip2 : Causal.npClip (1 : ℚ) (1/1000) (1 - 1/1000) = 1 - 1/1000 := by
    unfold Causal.npClip
    rw [max_eq_left (by norm_num), min_eq_right (by norm_num)]
  have htrim1 : Causal.inTrim (1/20) (19/20) ((1 : ℚ)/2) = true := by
    unfold Causal.inTrim
    rw [decide_eq_true_eq]
    norm_num
  have htrim2 : Causal.inTrim (1/20) (19/20) (1 - (1 : ℚ)/1000) = false := by
    unfold Causal.inTrim
    rw [decide_eq_false_iff_not]
    norm_num
  have hecl : Causal.clipped (1/1000)
      (List.replicate 100 ((1 : ℚ)/2) ++ (List.replicate 100 ((1 : ℚ)/2) ++ List.replicate 3801 (1 : ℚ))) =
      List.replicate 100 ((1 : ℚ)/2) ++ (List.replicate 100 ((1 : ℚ)/2) ++ List.replicate 3801 (1 - (1 : ℚ)/1000)) := by
    unfold Causal.clipped
    simp only [List.map_append, List.map_replicate, hclip1, hclip2]
  have hmask : (Causal.clipped (1/1000)
      (List.replicate 100 ((1 : ℚ)/2) ++ (List.replicate 100 ((1 : ℚ)/2) ++ List.replicate 3801 (1 : ℚ)))).map
        (Causal.inTrim (1/20) (19/20)) =
      List.replicate 100 true ++ (List.replicate 100 true ++ List.replicate 3801 false) := by
    rw [hecl]
    simp only [List.map_append, List.map_replicate, htrim1, htrim2]
  have hzip : ((List.replicate 100 true ++ (List.replicate 100 false ++ List.replicate 3801 false)).zip
      (Causal.clipped (1/1000)
        (List.replicate 100 ((1 : ℚ)/2) ++ (List.replicate 100 ((1 : ℚ)/2) ++ List.replicate 3801 (1 : ℚ))))) =
      List.replicate 100 (true, (1 : ℚ)/2) ++
        (List.replicate 100 (false, (1 : ℚ)/2) ++ List.replicate 3801 (false, 1 - (1 : ℚ)/1000)) := by
    rw [hecl, List.zip_append (by simp), List.zip_append (by simp)]
    simp only [List.zip_replicate, Nat.min_self]
  have hnU : Causal.spec_n_used (1/20) (19/20) (1/1000)
      (List.replicate 100 ((1 : ℚ)/2) ++ (List.replicate 100 ((1 : ℚ)/2) ++ List.replicate 3801 (1 : ℚ))) = 200 := by
    unfold Causal.spec_n_used
    rw [hecl]
    simp only [List.countP_append, List.countP_replicate, htrim1, htrim2]
    norm_num
  have hnTr : Causal.spec_n_treated_used (1/20) (19/20) (1/1000)
      (List.replicate 100 true ++ (List.replicate 100 false ++ List.replicate 3801 false))
      (List.replicate 100 ((1 : ℚ)/2) ++ (List.replicate 100 ((1 : ℚ)/2) ++ List.replicate 3801 (1 : ℚ))) = 100 := by
    unfold Causal.spec_n_treated_used
    rw [← List.countP_eq_length_filter, hzip]
    simp only [List.countP_append, List.countP_replicate, htrim1, htrim2]
    norm_num
  have hnCtl : Causal.spec_n_control_used (1/20) (19/20) (1/1000)
      (List.replicate 100 true ++ (List.replicate 100 false ++ List.replicate 3801 false))
      (List.replicate 100 ((1 : ℚ)/2) ++ (List.replicate 100 ((1 : ℚ)/2) ++ List.replicate 3801 (1 : ℚ))) = 100 := by
    unfold Causal.spec_n_control_used
    rw [← List.countP_eq_length_filter, hzip]
    simp only [List.countP_append, List.countP_replicate, htrim1, htrim2]
    norm_num
  refine ⟨?_, hnU, hnTr, hnCtl, ?_⟩
  · have hcU : Causal.aipw_n_used (Causal.aipw_used {} 4001
        (Causal.aipw_e_hat {}
          (List.replicate 100 ((1 : ℚ)/2) ++ (List.replicate 100 ((1 : ℚ)/2) ++ List.replicate 3801 (1 : ℚ))))) = 200 := by
      rw [aipw_used_trim {} (1/20) (19/20) rfl rfl, aipw_e_hat_eq_clipped]
      show ((Causal.clipped (1/1000) _).map (Causal.inTrim (1/20) (19/20))).countP _ = 200
      rw [hmask]
      simp only [List.countP_append, List.countP_replicate]
      norm_num
    have hcTr : Causal.aipw_n_treated_used
        (List.replicate 100 true ++ (List.replicate 100 false ++ List.replicate 3801 false))
        (Causal.aipw_used {} 4001
          (Causal.aipw_e_hat {}
            (List.replicate 100 ((1 : ℚ)/2) ++ (List.replicate 100 ((1 : ℚ)/2) ++ List.replicate 3801 (1 : ℚ))))) = 100 := by
      rw [aipw_used_trim {} (1/20) (19/20) rfl rfl, aipw_e_hat_eq_clipped]
      unfold Causal.aipw_n_treated_used
      rw [show ((Causal.clipped (1/1000) _).map (Causal.inTrim (1/20) (19/20))) =
        List.replicate 100 true ++ (List.replicate 100 true ++ List.replicate 3801 false) from hmask]
      rw [List.zip_append (by simp), List.zip_append (by simp)]
      simp only [List.zip_replicate, Nat.min_self, List.countP_append,
        List.countP_replicate]
      norm_num
    simp only [Causal.aipw_ate_tail]
    rw [if_neg]
    · rfl
    · rw [List.length_replicate, hcU, hcTr]
      omega
  · unfold Causal.claim_gate_real
    left
    rw [max_eq_right (by norm_num)]
    norm_num

/-- C2 (amended, the gate threshold floored as `int(0.05*n)` does): for
cross-fitted predictions `e`, `mu1`, `mu0` over outcomes `y` and a
treatment vector `T`, with both trim bounds set, `aipw_ate` raises
`OverlapError` — carrying `n`, `n_used`, `n_treated_used`,
`n_control_used`, the trim bounds, the propensity percentiles and
`frac_trimmed`, and no point estimate — exactly when, after clipping
propensities to `[clip_eps, 1−clip_eps]` and taking used = rows with
`trim_low ≤ e ≤ trim_high`, `n_used < max(200, ⌊0.05·n⌋)` or
`n_treated_used < 50` or `n_control_used < 50`; otherwise it returns
`τ̂` = the mean over used rows of `y₁ − y₀`, `SE = stdev(φ_used, ddof=1)
/ √n_used` and `CI95 = τ̂ ± 1.96·SE`, with `y₁`, `y₀`, `φ` the claim's
formulas. -/
theorem C2_aipw_overlap_amended
    (T : List Bool) (y e mu1 mu0 : List ℚ) (kind : String)
    (cfg : Causal.AIPWConfig) (lo hi : ℚ)
    (hlo : cfg.trim_low = some lo) (hhi : cfg.trim_high = some hi)
    (hT : T.length = y.length) (he : e.length = y.length)
    (hm1 : mu1.length = y.length) (hm0 : mu0.length = y.length) :
    ((∃ d, Causal.aipw_ate_tail T y e mu1 mu0 kind cfg = .error d) ↔
      Causal.spec_gate_floor y.length
        (Causal.spec_n_used lo hi cfg.clip_eps e)
        (Causal.spec_n_treated_used lo hi cfg.clip_eps T e)
        (Causal.spec_n_control_used lo hi cfg.clip_eps T e)) ∧
    (∀ d, Causal.aipw_ate_tail T y e mu1 mu0 kind cfg = .error d →
      d.n = y.length ∧
      d.n_used = Causal.spec_n_used lo hi cfg.clip_eps e ∧
      d.n_treated_used = Causal.spec_n_treated_used lo hi cfg.clip_eps T e ∧
      d.n_control_used = Causal.spec_n_control_used lo hi cfg.clip_eps T e ∧
      d.trim_low = some lo ∧ d.trim_high = some hi ∧
      d.e_min = Causal.listMin (Causal.clipped cfg.clip_eps e) ∧
      d.e_p01 = Causal.npQuantile (Causal.clipped cfg.clip_eps e) (1 / 100) ∧
      d.e_p50 = Causal.npQuantile (Causal.clipped cfg.clip_eps e) (1 / 2) ∧
      d.e_p99 = Causal.npQuantile (Causal.clipped cfg.clip_eps e) (99 / 100) ∧
      d.e_max = Causal.listMax (Causal.clipped cfg.clip_eps e) ∧
      d.frac_trimmed =
        1 - (Causal.spec_n_used lo hi cfg.clip_eps e : ℚ) / (y.length : ℚ)) ∧
    (∀ est, Causal.aipw_ate_tail T y e mu1 mu0 kind cfg = .ok est →
      est.n_used = Causal.spec_n_used lo hi cfg.clip_eps e ∧
      est.tau = Causal.listMean (Causal.maskRows
        ((Causal.zip5 T y (Causal.clipped cfg.clip_eps e)
            (Causal.aipw_mu_hat kind mu1) (Causal.aipw_mu_hat kind mu0)).map
          (fun r => Causal.spec_y1_row r.1 r.2.1 r.2.2.1 r.2.2.2.1 -
            Causal.spec_y0_row r.1 r.2.1 r.2.2.1 r.2.2.2.2))
        ((Causal.clipped cfg.clip_eps e).map (Causal.inTrim lo hi))) ∧
      est.phi_var = Causal.spec_var1 (Causal.maskRows
        ((Causal.zip5 T y (Causal.clipped cfg.clip_eps e)
            (Causal.aipw_mu_hat kind mu1) (Causal.aipw_mu_hat kind mu0)).map
          (fun r => Causal.spec_phi_row r.1 r.2.1 r.2.2.1 r.2.2.2.1 r.2.2.2.2))
        ((Causal.clipped cfg.clip_eps e).map (Causal.inTrim lo hi))) ∧
      Causal.aipw_se est =
        Real.sqrt (Causal.spec_var1 (Causal.maskRows
          ((Causal.zip5 T y (Causal.clipped cfg.clip_eps e)
              (Causal.aipw_mu_hat kind mu1) (Causal.aipw_mu_hat kind mu0)).map
            (fun r => Causal.spec_phi_row r.1 r.2.1 r.2.2.1 r.2.2.2.1 r.2.2.2.2))
          ((Causal.clipped cfg.clip_eps e).map (Causal.inTrim lo hi))) : ℝ) /
          Real.sqrt ((Causal.spec_n_used lo hi cfg.clip_eps e : ℚ) : ℝ) ∧
      Causal.aipw_ci95_low est = (est.tau : ℝ) - 1.96 * Causal.aipw_se est ∧
      Causal.aipw_ci95_high est = (est.tau : ℝ) + 1.96 * Causal.aipw_se est) := by
  have hTe : T.length = e.length := by rw [hT, he]
  have hnu := aipw_n_used_eq_spec cfg lo hi hlo hhi y.length e
  have hntr := aipw_n_treated_used_eq_spec cfg lo hi hlo hhi y.length T e
  have hnctl := aipw_n_control_used_eq_spec cfg lo hi hlo hhi y.length T e hTe
  refine ⟨?_, ?_, ?_⟩
  · rw [aipw_tail_error_iff_code, hnctl, hnu, hntr]
    exact Iff.rfl
  · intro d hd
    obtain ⟨h1, h2, h3, h4, h5, h6, h7, h8, h9, h10, h11, h12⟩ :=
      aipw_tail_error_payload T y e mu1 mu0 kind cfg d hd
    rw [aipw_e_hat_eq_clipped] at h7 h8 h9 h10 h11
    rw [hnu] at h2 h12
    rw [hntr] at h3
    rw [hnctl] at h4
    rw [hlo] at h5
    rw [hhi] at h6
    exact ⟨h1, h2, h3, h4, h5, h6, h7, h8, h9, h10, h11, h12⟩
  · intro est hok
    obtain ⟨htau, hvar, hnuest⟩ := aipw_tail_ok_payload T y e mu1 mu0 kind cfg est hok
    have hused : Causal.aipw_used cfg y.length (Causal.aipw_e_hat cfg e) =
        (Causal.clipped cfg.clip_eps e).map (Causal.inTrim lo hi) := by
      rw [aipw_used_trim cfg lo hi hlo hhi, aipw_e_hat_eq_clipped]
    have hrows : Causal.zip5 T y (Causal.aipw_e_hat cfg e)
        (Causal.aipw_mu_hat kind mu1) (Causal.aipw_mu_hat kind mu0) =
        Causal.zip5 T y (Causal.clipped cfg.clip_eps e)
          (Causal.aipw_mu_hat kind mu1) (Causal.aipw_mu_hat kind mu0) := rfl
    have hlen5 : (Causal.zip5 T y (Causal.aipw_e_hat cfg e)
        (Causal.aipw_mu_hat kind mu1) (Causal.aipw_mu_hat kind mu0)).length =
        T.length :=
      zip5_length T y _ _ _ hT.symm
        (by unfold Causal.aipw_e_hat; simp [he, hT])
        (by rw [aipw_mu_hat_length, hm1, ← hT])
        (by rw [aipw_mu_hat_length, hm0, ← hT])
    have hphilen : (Causal.aipw_phi (Causal.zip5 T y (Causal.aipw_e_hat cfg e)
        (Causal.aipw_mu_hat kind mu1) (Causal.aipw_mu_hat kind mu0))).length =
        ((Causal.clipped cfg.clip_eps e).map (Causal.inTrim lo hi)).length := by
      unfold Causal.aipw_phi
      rw [List.length_map, hlen5]
      simp only [List.length_map, Causal.clipped]
      omega
    have hvarlen : (Causal.maskRows (Causal.aipw_phi (Causal.zip5 T y
        (Causal.aipw_e_hat cfg e) (Causal.aipw_mu_hat kind mu1)
        (Causal.aipw_mu_hat kind mu0)))
        ((Causal.clipped cfg.clip_eps e).map (Causal.inTrim lo hi))).length =
        Causal.aipw_n_used ((Causal.clipped cfg.clip_eps e).map (Causal.inTrim lo hi)) :=
      length_maskRows _ _ hphilen
    refine ⟨?_, ?_, ?_, ?_, rfl, rfl⟩
    · rw [hnuest, hnu]
    · rw [htau, hused, hrows, aipw_diffs_eq_spec]
    · rw [hvar, hused, hrows, aipw_phi_eq_spec]
      unfold Causal.spec_var1
      rw [← aipw_phi_eq_spec, ← hrows, hvarlen]
    · show Real.sqrt (est.phi_var : ℝ) / Real.sqrt ((est.n_used : ℚ) : ℝ) = _
      rw [hvar, hused, hrows, aipw_phi_eq_spec, hnuest, hnu]
      unfold Causal.spec_var1
      rw [← aipw_phi_eq_spec, ← hrows, hvarlen]

/-! ### Query-operation lemmas for claims C5 and C6 -/
theorem getD_eq_some_mem (l : List (Option α)) (i : ℕ) (s : α)
    (h : l.getD i none = some s) : some s ∈ l := by
  by_cases hi : i < l.length
  · rw [List.getD_eq_getElem l none hi] at h
    rw [← h]
    exact List.getElem_mem hi
  · rw [List.getD_eq_default l none (by omega)] at h
    exact absurd h (by simp)

theorem get_token_stats_mem (E : Engine.EngineState) (t : String)
    (s : Engine.TokenStats) (h : Engine.get_token_stats E t = some s) :
    some s ∈ E.tokens := by
  unfold Engine.get_token_stats at h
  cases ht : Engine.token_to_id E t with
  | none => rw [ht] at h; exact absurd h (by simp)
  | some i => rw [ht] at h; exact getD_eq_some_mem E.tokens i s h

theorem filter_bitmap_nil_exclude (E : Engine.EngineState) (T : List String) :
    Engine.filter_bitmap E T [] = Engine.intersect E T := by
  unfold Engine.filter_bitmap
  by_cases h : (Engine.intersect E T).isEmpty <;> simp [h]

theorem mapM_stats_none (E : Engine.EngineState) (l : List String) (t : String)
    (ht : t ∈ l) (hnone : Engine.get_token_stats E t = none) :
    l.mapM (fun t => Engine.get_token_stats E t) = none := by
  induction l with
  | nil => simp at ht
  | cons a as ih =>
    rw [List.mapM_cons]
    rcases List.mem_cons.mp ht with rfl | hmem
    · rw [hnone]
      rfl
    · cases ha : Engine.get_token_stats E a with
      | none => rfl
      | some s =>
        rw [ih hmem]
        rfl

theorem mapM_stats_ne_nil (E : Engine.EngineState) (l : List String)
    (sl : List Engine.TokenStats) (hl : l ≠ [])
    (hm : l.mapM (fun t => Engine.get_token_stats E t) = some sl) : sl ≠ [] := by
  cases l with
  | nil => exact absurd rfl hl
  | cons a as =>
    rw [List.mapM_cons] at hm
    cases ha : Engine.get_token_stats E a with
    | none => rw [ha] at hm; exact absurd hm (by simp [Option.bind])
    | some s =>
      rw [ha] at hm
      cases has : as.mapM (fun t => Engine.get_token_stats E t) with
      | none => rw [has] at hm; exact absurd hm (by simp [Option.bind])
      | some rest =>
        rw [has] at hm
        intro he
        rw [he] at hm
        simp at hm

theorem intersect_unknown (E : Engine.EngineState) (T : List String) (t : String)
    (ht : t ∈ T) (hnone : Engine.get_token_stats E t = none) :
    Engine.intersect E T = [] := by
  unfold Engine.intersect
  rw [if_neg (by simp [List.isEmpty_iff]; rintro rfl; simp at ht)]
  rw [mapM_stats_none E T t ht hnone]

theorem intersect_single (E : Engine.EngineState) (x : String)
    (sx : Engine.TokenStats) (hx : Engine.get_token_stats E x = some sx) :
    Engine.intersect E [x] = sx.bitmap := by
  unfold Engine.intersect
  rw [if_neg (by simp)]
  rw [show [x].mapM (fun t => Engine.get_token_stats E t) = some [sx] by
    rw [List.mapM_cons, hx]; rfl]
  rfl

theorem bmInter_nil_left (b : List ℕ) : Engine.bmInter [] b = [] := rfl

theorem bmInter_nil_right (a : List ℕ) : Engine.bmInter a [] = [] := by
  unfold Engine.bmInter
  simp

theorem bmUnion_nil_left (b : List ℕ) : Engine.bmUnion [] b = b := by
  unfold Engine.bmUnion
  simp

theorem intersect_append_known (E : Engine.EngineState) (T : List String)
    (x : String) (sx : Engine.TokenStats) (hT : T ≠ [])
    (hx : Engine.get_token_stats E x = some sx) :
    Engine.intersect E (T ++ [x]) =
      Engine.bmInter (Engine.intersect E T) sx.bitmap := by
  unfold Engine.intersect
  rw [if_neg (by simp), if_neg (by simp [List.isEmpty_iff, hT])]
  rw [List.mapM_append]
  cases hm : T.mapM (fun t => Engine.get_token_stats E t) with
  | none => simp [Option.bind, bmInter_nil_left]
  | some sl =>
    rw [show [x].mapM (fun t => Engine.get_token_stats E t) = some [sx] by
      rw [List.mapM_cons, hx]; rfl]
    cases sl with
    | nil => exact absurd rfl (mapM_stats_ne_nil E T [] hT hm)
    | cons s rest =>
      show List.foldl Engine.bmInter s.bitmap
        (List.map (fun s => s.bitmap) (rest ++ [sx])) = _
      rw [List.map_append, List.foldl_append]
      rfl

/-! ### Claim C5 -/
/-- C5: the filter edge contract. For every snapshot: filtering with
empty include and exclude lists returns the `AllPlayers` bitmap; an
include list containing a token unknown to the index yields the empty
bitmap; and exclude tokens unknown to the index are silently ignored —
the result equals the filter with those tokens removed from the exclude
list. -/
theorem C5_filter_edge_contract (E : Engine.EngineState) :
    (Engine.filter_bitmap E [] [] = E.all_players) ∧
    (∀ (inc exc : List String) (t : String), t ∈ inc →
      Engine.get_token_stats E t = none → Engine.filter_bitmap E inc exc = []) ∧
    (∀ inc exc : List String, Engine.filter_bitmap E inc exc =
      Engine.filter_bitmap E inc
        (exc.filter (fun t => (Engine.get_token_stats E t).isSome))) := by
  refine ⟨?_, ?_, ?_⟩
  · rw [filter_bitmap_nil_exclude]
    rfl
  · intro inc exc t ht hn
    have hbase : Engine.intersect E inc = [] := intersect_unknown E inc t ht hn
    unfold Engine.filter_bitmap
    rw [hbase]
    rfl
  · intro inc exc
    have hfold : ∀ acc : List ℕ,
        exc.foldl (fun acc t =>
          match Engine.get_token_stats E t with
          | none => acc
          | some stats => Engine.bmUnion acc stats.bitmap) acc =
        (exc.filter (fun t => (Engine.get_token_stats E t).isSome)).foldl
          (fun acc t =>
            match Engine.get_token_stats E t with
            | none => acc
            | some stats => Engine.bmUnion acc stats.bitmap) acc := by
      induction exc with
      | nil => intro acc; rfl
      | cons a as ih =>
        intro acc
        cases ha : Engine.get_token_stats E a with
        | none => simp [List.foldl_cons, List.filter_cons, ha, ih]
        | some s => simp [List.foldl_cons, List.filter_cons, ha, ih]
    unfold Engine.filter_bitmap
    by_cases hb : (Engine.intersect E inc).isEmpty
    · simp [hb]
    · simp only [hb, Bool.false_eq_true, if_false]
      by_cases hexc : exc.isEmpty
      · have : exc = [] := List.isEmpty_iff.mp hexc
        subst this
        simp
      · simp only [hexc, Bool.false_eq_true, if_false]
        by_cases hfexc : (exc.filter (fun t => (Engine.get_token_stats E t).isSome)).isEmpty
        · have hnilf : (exc.filter (fun t => (Engine.get_token_stats E t).isSome)) = [] :=
            List.isEmpty_iff.mp hfexc
          rw [hfold, hnilf]
          simp
        · rw [hfold]
          simp [hfexc]

/-! ### Claim C6 -/
theorem length_filter_mem_of_subset (a b : List ℕ) (ha : a.Nodup)
    (hb : b.Nodup) (hsub : b ⊆ a) :
    (a.filter (fun x => decide (x ∈ b))).length = b.length := by
  apply List.Perm.length_eq
  rw [List.perm_ext_iff_of_nodup (ha.filter _) hb]
  intro y
  simp only [List.mem_filter, decide_eq_true_eq]
  constructor
  · rintro ⟨-, hy⟩
    exact hy
  · intro hy
    exact ⟨hsub hy, hy⟩

theorem length_bmDiff (a b : List ℕ) :
    a.length = (Engine.bmInter a b).length + (Engine.bmDiff a b).length := by
  unfold Engine.bmInter Engine.bmDiff
  have hq : (fun x => decide (x ∉ b)) = (fun x : ℕ => !decide (x ∈ b)) := by
    funext x
    simp
  rw [hq]
  exact List.length_eq_length_filter_add (fun x => decide (x ∈ b))

/-- C6: exclude duality. For every snapshot (whose stored bitmaps are
sets of valid pm-ids), every include token list `T` and every token `x`
— known or unknown — the cardinality of `filter(T, [x])` equals the
cardinality of `filter(T, [])` minus the cardinality of
`filter(T ++ [x], [])`. -/
theorem C6_exclude_duality (E : Engine.EngineState)
    (hwf : Engine.SnapshotWF E) (T : List String) (x : String) :
    ((Engine.filter_bitmap E T [x]).length : ℤ) =
      ((Engine.filter_bitmap E T []).length : ℤ) -
        ((Engine.filter_bitmap E (T ++ [x]) []).length : ℤ) := by
  rw [filter_bitmap_nil_exclude, filter_bitmap_nil_exclude]
  by_cases hbe : (Engine.intersect E T).isEmpty
  · have hbase : Engine.intersect E T = [] := List.isEmpty_iff.mp hbe
    have hL : Engine.filter_bitmap E T [x] = [] := by
      unfold Engine.filter_bitmap
      rw [hbase]
      rfl
    have hR : Engine.intersect E (T ++ [x]) = [] := by
      cases hx : Engine.get_token_stats E x with
      | none => exact intersect_unknown E (T ++ [x]) x (by simp) hx
      | some sx =>
        cases hT : T with
        | nil =>
          have hAP : E.all_players = [] := by
            have : Engine.intersect E [] = E.all_players := rfl
            rw [hT] at hbase
            rw [← this, hbase]
          rw [List.nil_append]
          rw [intersect_single E x sx hx]
          have hsub := (hwf.2 sx (get_token_stats_mem E x sx hx)).2
          rw [hAP] at hsub
          exact List.subset_nil.mp hsub
        | cons t ts =>
          rw [← hT, intersect_append_known E T x sx (by rw [hT]; simp) hx,
            hbase, bmInter_nil_left]
    rw [hbase, hL, hR]
    simp
  · have hbne : Engine.intersect E T ≠ [] := by
      simpa [List.isEmpty_iff] using hbe
    cases hx : Engine.get_token_stats E x with
    | none =>
      have hL : Engine.filter_bitmap E T [x] = Engine.intersect E T := by
        unfold Engine.filter_bitmap
        simp only [hbe, Bool.false_eq_true, if_false, List.isEmpty_cons, if_false]
        rw [List.foldl_cons, hx]
        rfl
      have hR : Engine.intersect E (T ++ [x]) = [] :=
        intersect_unknown E (T ++ [x]) x (by simp) hx
      rw [hL, hR]
      simp
    | some sx =>
      have hwfx := hwf.2 sx (get_token_stats_mem E x sx hx)
      have hebm : [x].foldl (fun acc t =>
          match Engine.get_token_stats E t with
          | none => acc
          | some stats => Engine.bmUnion acc stats.bitmap) ([] : List ℕ) =
          sx.bitmap := by
        rw [List.foldl_cons, hx]
        show [].foldl _ (Engine.bmUnion [] sx.bitmap) = _
        rw [List.foldl_nil, bmUnion_nil_left]
      by_cases hBe : sx.bitmap.isEmpty
      · have hB : sx.bitmap = [] := List.isEmpty_iff.mp hBe
        have hL : Engine.filter_bitmap E T [x] = Engine.intersect E T := by
          unfold Engine.filter_bitmap
          simp only [hbe, Bool.false_eq_true, if_false, List.isEmpty_cons, if_false]
          rw [hebm, hB]
          rfl
        have hR : Engine.intersect E (T ++ [x]) = [] := by
          cases hT : T with
          | nil =>
            rw [List.nil_append, intersect_single E x sx hx, hB]
          | cons t ts =>
            rw [← hT, intersect_append_known E T x sx (by rw [hT]; simp) hx,
              hB, bmInter_nil_right]
        rw [hL, hR]
        simp
      · have hL : Engine.filter_bitmap E T [x] =
            Engine.bmDiff (Engine.intersect E T) sx.bitmap := by
          unfold Engine.filter_bitmap
          simp only [hbe, Bool.false_eq_true, if_false, List.isEmpty_cons, if_false]
          rw [hebm]
          simp [hBe]
        rw [hL]
        cases hT : T with
        | nil =>
          have h1 : Engine.intersect E ([] ++ [x]) = sx.bitmap := by
            rw [List.nil_append]
            exact intersect_single E x sx hx
          have h2 : Engine.intersect E ([] : List String) = E.all_players := rfl
          have h3 : (Engine.bmInter E.all_players sx.bitmap).length =
              sx.bitmap.length := by
            unfold Engine.bmInter
            exact length_filter_mem_of_subset _ _ hwf.1 hwfx.1 hwfx.2
          have h4 := length_bmDiff E.all_players sx.bitmap
          rw [h1, h2]
          omega
        | cons t ts =>
          rw [← hT, intersect_append_known E T x sx (by rw [hT]; simp) hx]
          have := length_bmDiff (Engine.intersect E T) sx.bitmap
          omega

theorem sampleEngine_wf : Engine.SnapshotWF sampleEngine := by
  constructor
  · decide
  · intro s hs
    simp only [sampleEngine, List.mem_cons, List.not_mem_nil, or_false,
      Option.some.injEq] at hs
    rcases hs with h | h <;> subst h <;> exact ⟨by decide, by decide⟩

/-- C6 (witness): exclude duality on the scenario-S-1 snapshot,
excluding `U:A` from `U:B`. -/
theorem C6_exclude_duality_witness :
    Engine.SnapshotWF sampleEngine ∧
    ((Engine.filter_bitmap sampleEngine ["U:B"] ["U:A"]).length : ℤ) =
      ((Engine.filter_bitmap sampleEngine ["U:B"] []).length : ℤ) -
        ((Engine.filter_bitmap sampleEngine (["U:B"] ++ ["U:A"]) []).length : ℤ) :=
  ⟨sampleEngine_wf, C6_exclude_duality sampleEngine sampleEngine_wf ["U:B"] "U:A"⟩

/-- C2 (witness): the amended theorem applied at a one-row input with
the default configuration. -/
theorem C2_aipw_overlap_amended_witness :
    (({} : Causal.AIPWConfig).trim_low = some (1/20) ∧
      ({} : Causal.AIPWConfig).trim_high = some (19/20)) ∧
    ((∃ d, Causal.aipw_ate_tail [true] [(0 : ℚ)] [(1 : ℚ)/2] [(0 : ℚ)] [(0 : ℚ)]
        "binary" {} = .error d) ↔
      Causal.spec_gate_floor 1
        (Causal.spec_n_used (1/20) (19/20) (({} : Causal.AIPWConfig).clip_eps) [(1 : ℚ)/2])
        (Causal.spec_n_treated_used (1/20) (19/20) (({} : Causal.AIPWConfig).clip_eps) [true] [(1 : ℚ)/2])
        (Causal.spec_n_control_used (1/20) (19/20) (({} : Causal.AIPWConfig).clip_eps) [true] [(1 : ℚ)/2])) :=
  ⟨⟨rfl, rfl⟩,
    (C2_aipw_overlap_amended [true] [(0 : ℚ)] [(1 : ℚ)/2] [(0 : ℚ)] [(0 : ℚ)]
      "binary" {} (1/20) (19/20) rfl rfl rfl rfl rfl rfl).1⟩

/-! ### Normalization lemmas for claim C10 -/
theorem toNat_charOfNat (n : ℕ) (h : n.isValidChar) :
    (Char.ofNat n).toNat = n := by
  simp [Char.ofNat, Char.toNat, h, Char.ofNatAux, UInt32.toNat]

theorem toNat_pyCharLower_of_upper (c : Char)
    (h : 65 ≤ c.toNat ∧ c.toNat ≤ 90) :
    (pyCharLower c).toNat = c.toNat + 32 := by
  rw [pyCharLower, if_pos h]
  exact toNat_charOfNat _ (Or.inl (by omega))

theorem pyCharLower_eq_of_not_upper (c : Char)
    (h : ¬(65 ≤ c.toNat ∧ c.toNat ≤ 90)) : pyCharLower c = c := by
  rw [pyCharLower, if_neg h]

theorem pyCharLower_idem (c : Char) :
    pyCharLower (pyCharLower c) = pyCharLower c := by
  by_cases h : 65 ≤ c.toNat ∧ c.toNat ≤ 90
  · have ht : (pyCharLower c).toNat = c.toNat + 32 := toNat_pyCharLower_of_upper c h
    exact pyCharLower_eq_of_not_upper _ (by omega)
  · rw [pyCharLower_eq_of_not_upper c h, pyCharLower_eq_of_not_upper c h]

theorem char_eq_of_toNat_eq {a b : Char} (h : a.toNat = b.toNat) : a = b := by
  apply Char.ext
  exact UInt32.ext h

theorem pyIsSpace_iff_toNat (c : Char) :
    pyIsSpace c = true ↔
      c.toNat = 32 ∨ c.toNat = 9 ∨ c.toNat = 10 ∨ c.toNat = 13 ∨
        c.toNat = 11 ∨ c.toNat = 12 := by
  constructor
  · intro h
    simp only [pyIsSpace, decide_eq_true_eq] at h
    rcases h with rfl | rfl | rfl | rfl | rfl | rfl <;> decide
  · intro h
    simp only [pyIsSpace, decide_eq_true_eq]
    rcases h with h | h | h | h | h | h
    · exact Or.inl (char_eq_of_toNat_eq (by rw [h]; decide))
    · exact Or.inr (Or.inl (char_eq_of_toNat_eq (by rw [h]; decide)))
    · exact Or.inr (Or.inr (Or.inl (char_eq_of_toNat_eq (by rw [h]; decide))))
    · exact Or.inr (Or.inr (Or.inr (Or.inl (char_eq_of_toNat_eq (by rw [h]; decide)))))
    · exact Or.inr (Or.inr (Or.inr (Or.inr (Or.inl (char_eq_of_toNat_eq (by rw [h]; decide))))))
    · exact Or.inr (Or.inr (Or.inr (Or.inr (Or.inr (char_eq_of_toNat_eq (by rw [h]; decide))))))

theorem pyIsSpace_pyCharLower (c : Char) :
    pyIsSpace (pyCharLower c) = pyIsSpace c := by
  by_cases h : 65 ≤ c.toNat ∧ c.toNat ≤ 90
  · have ht : (pyCharLower c).toNat = c.toNat + 32 := toNat_pyCharLower_of_upper c h
    have h1 : pyIsSpace (pyCharLower c) = false := by
      rw [Bool.eq_false_iff]
      intro hs
      rcases (pyIsSpace_iff_toNat _).mp hs with hn | hn | hn | hn | hn | hn <;> omega
    have h2 : pyIsSpace c = false := by
      rw [Bool.eq_false_iff]
      intro hs
      rcases (pyIsSpace_iff_toNat _).mp hs with hn | hn | hn | hn | hn | hn <;> omega
    rw [h1, h2]
  · rw [pyCharLower_eq_of_not_upper c h]

theorem dropWhile_dropWhile (p : α → Bool) (l : List α) :
    List.dropWhile p (List.dropWhile p l) = List.dropWhile p l := by
  induction l with
  | nil => rfl
  | cons c t ih =>
    by_cases h : p c
    · simp [List.dropWhile_cons, h, ih]
    · simp [List.dropWhile_cons, h]

theorem dropWhile_cons_false (p : α → Bool) (l : List α) (c : α) (t : List α)
    (h : List.dropWhile p l = c :: t) : p c = false := by
  induction l with
  | nil => simp at h
  | cons x xs ih =>
    rw [List.dropWhile_cons] at h
    by_cases hx : p x
    · rw [if_pos hx] at h
      exact ih h
    · rw [if_neg hx] at h
      obtain ⟨rfl, -⟩ := List.cons.inj h
      exact Bool.eq_false_iff.mpr hx

theorem stripChars_cons_false (l : List Char) (c : Char) (t : List Char)
    (h : stripChars l = c :: t) : pyIsSpace c = false := by
  unfold stripChars at h
  set m := l.dropWhile pyIsSpace with hm
  have hpre : (m.reverse.dropWhile pyIsSpace).reverse <+: m := by
    simpa using List.reverse_prefix.mpr (List.dropWhile_suffix pyIsSpace (l := m.reverse))
  obtain ⟨t2, ht2⟩ := hpre
  rw [h] at ht2
  have hm2 : List.dropWhile pyIsSpace l = c :: (t ++ t2) := by
    rw [← hm]
    rw [← ht2]
    simp
  exact dropWhile_cons_false pyIsSpace l c (t ++ t2) hm2

theorem dropWhile_stripChars (l : List Char) :
    (stripChars l).dropWhile pyIsSpace = stripChars l := by
  cases hs : stripChars l with
  | nil => rfl
  | cons c t =>
    rw [List.dropWhile_cons, stripChars_cons_false l c t hs]
    simp

theorem stripChars_idem (l : List Char) :
    stripChars (stripChars l) = stripChars l := by
  conv_lhs => rw [stripChars, dropWhile_stripChars]
  rw [stripChars, List.reverse_reverse, dropWhile_dropWhile]

theorem stripChars_map_lower (l : List Char) :
    stripChars (l.map pyCharLower) = (stripChars l).map pyCharLower := by
  have hp : (pyIsSpace ∘ pyCharLower) = pyIsSpace := by
    funext c
    exact pyIsSpace_pyCharLower c
  unfold stripChars
  rw [List.dropWhile_map, hp, ← List.map_reverse, List.dropWhile_map, hp,
    ← List.map_reverse]

theorem pyLower_idem (s : String) : pyLower (pyLower s) = pyLower s := by
  apply congrArg String.mk
  show (s.data.map pyCharLower).map pyCharLower = s.data.map pyCharLower
  rw [List.map_map]
  apply List.map_congr_left
  intro c _
  exact pyCharLower_idem c

theorem pyStrip_pyLower (s : String) :
    pyStrip (pyLower s) = pyLower (pyStrip s) := by
  apply congrArg String.mk
  exact stripChars_map_lower s.data

theorem pyStrip_idem (s : String) : pyStrip (pyStrip s) = pyStrip s := by
  apply congrArg String.mk
  exact stripChars_idem s.data

theorem normalizeOutcome_idem (o : Option String) :
    Causal.normalizeOutcome (some (Causal.normalizeOutcome o)) =
      Causal.normalizeOutcome o := by
  unfold Causal.normalizeOutcome
  simp only [Option.getD_some]
  rw [pyStrip_pyLower, pyStrip_idem, pyLower_idem]

/-! ### Claim C10 -/
/-- C10: `placements_to_outcome` never rejects an outcome name. The
matching depends only on the whitespace-stripped, lowercased form of the
outcome string (so it is case-insensitive and ignores surrounding
whitespace), and any outcome — `None` and `""` included — whose
normalized form is outside the recognized aliases for top4, win, and
rank_score silently falls back to the raw placements as a continuous
outcome. -/
theorem C10_outcome_fallback :
    (∀ (p : List ℤ) (o : Option String),
      Causal.placements_to_outcome p o =
        Causal.placements_to_outcome p (some (Causal.normalizeOutcome o))) ∧
    (∀ (p : List ℤ) (o : Option String),
      Causal.normalizeOutcome o ∉ Causal.outcomeAliases →
        Causal.placements_to_outcome p o =
          (p.map (fun x => (x : ℚ)), "continuous")) ∧
    (∀ p : List ℤ,
      Causal.placements_to_outcome p none =
        (p.map (fun x => (x : ℚ)), "continuous") ∧
      Causal.placements_to_outcome p (some "") =
        (p.map (fun x => (x : ℚ)), "continuous")) := by
  refine ⟨?_, ?_, ?_⟩
  · intro p o
    unfold Causal.placements_to_outcome
    rw [normalizeOutcome_idem]
  · intro p o h
    unfold Causal.placements_to_outcome
    simp only [Causal.outcomeAliases, List.mem_cons, List.not_mem_nil,
      or_false, not_or] at h
    obtain ⟨h1, h2, h3, h4, h5, h6, h7, h8, h9⟩ := h
    rw [if_neg (by tauto), if_neg (by tauto), if_neg (by tauto)]
  · intro p
    constructor <;> rfl

/-- C10 (witness): a concrete non-alias outcome string with surrounding
whitespace and upper case falls through to the placement transform. -/
theorem C10_outcome_fallback_witness :
    Causal.normalizeOutcome (some "  PLACEMENT  ") ∉ Causal.outcomeAliases ∧
    Causal.placements_to_outcome [1, 8] (some "  PLACEMENT  ") =
      ([(1 : ℚ), 8], "continuous") :=
  ⟨by decide, C10_outcome_fallback.2.1 [1, 8] (some "  PLACEMENT  ") (by decide)⟩

/-! ### `token_to_id` lookup lemmas (`List.indexOf?`) -/
theorem idx_cons (v b : String) (l : List String) :
    List.indexOf? v (b :: l) =
      if b = v then some 0 else (List.indexOf? v l).map (· + 1) := by
  simp [List.indexOf?, List.findIdx?_cons, List.findIdx?_succ, beq_iff_eq]

theorem idx_none_iff (v : String) (l : List String) :
    List.indexOf? v l = none ↔ v ∉ l := by
  rw [List.indexOf?_eq_none_iff]
  constructor
  · intro h hv
    exact h v hv (by simp)
  · intro h x hx he
    exact h ((beq_iff_eq.mp he) ▸ hx)

theorem idx_lt (v : String) (l : List String) (i : ℕ)
    (h : List.indexOf? v l = some i) : i < l.length := by
  induction l generalizing i with
  | nil => cases (show (none : Option ℕ) = some i from h)
  | cons b t ih =>
    rw [idx_cons] at h
    by_cases hb : b = v
    · rw [if_pos hb] at h
      cases h
      simp
    · rw [if_neg hb] at h
      cases ht : List.indexOf? v t with
      | none => rw [ht] at h; simp at h
      | some j =>
        rw [ht] at h
        simp only [Option.map_some', Option.some.injEq] at h
        subst h
        have := ih j ht
        simp
        omega

theorem idx_getD (v : String) (l : List String) (i : ℕ) (d : String)
    (h : List.indexOf? v l = some i) : l.getD i d = v := by
  induction l generalizing i with
  | nil => cases (show (none : Option ℕ) = some i from h)
  | cons b t ih =>
    rw [idx_cons] at h
    by_cases hb : b = v
    · rw [if_pos hb] at h
      cases h
      simpa using hb
    · rw [if_neg hb] at h
      cases ht : List.indexOf? v t with
      | none => rw [ht] at h; simp at h
      | some j =>
        rw [ht] at h
        simp only [Option.map_some', Option.some.injEq] at h
        subst h
        simpa using ih j ht

theorem idx_append_one (v w : String) (l : List String) :
    List.indexOf? v (l ++ [w]) =
      (List.indexOf? v l).or (if w = v then some l.length else none) := by
  induction l with
  | nil =>
    simp only [List.nil_append, idx_cons, List.length_nil]
    cases hw : decide (w = v) <;> simp_all
  | cons b t ih =>
    rw [List.cons_append, idx_cons, idx_cons, ih]
    by_cases hb : b = v
    · simp [hb]
    · simp only [if_neg hb, List.length_cons]
      cases h1 : List.indexOf? v t <;> by_cases h2 : w = v <;> simp [h2]

/-! ### `touch` and `touchMany` characterization -/
theorem getD_append_length (xs : List α) (y d : α) :
    (xs ++ [y]).getD xs.length d = y := by
  simp [List.getD_eq_getElem?_getD, List.getElem?_append]

theorem getD_set_self (l : List α) (i : ℕ) (x d : α) (h : i < l.length) :
    (l.set i x).getD i d = x := by
  simp [List.getD_eq_getElem?_getD, List.getElem?_set, h]

theorem getD_set_ne (l : List α) (i j : ℕ) (x d : α) (h : i ≠ j) :
    (l.set i x).getD j d = l.getD j d := by
  simp [List.getD_eq_getElem?_getD, List.getElem?_set, h]

theorem touch_none (a : Build.TokAcc) (tok lbl : String) (pm : ℕ) (plc : ℤ)
    (h : List.indexOf? tok a.id_to_token = none) :
    Build.touch a tok lbl pm plc =
      ⟨a.id_to_token ++ [tok], a.labels ++ [lbl],
       a.acc_ids ++ [[pm]], a.acc_psum ++ [plc]⟩ := by
  unfold Build.touch
  rw [h]

theorem touch_some (a : Build.TokAcc) (tok lbl : String) (pm : ℕ) (plc : ℤ)
    (i : ℕ) (h : List.indexOf? tok a.id_to_token = some i) :
    Build.touch a tok lbl pm plc =
      { a with
        labels := a.labels.set i lbl,
        acc_ids := a.acc_ids.set i (a.acc_ids.getD i [] ++ [pm]),
        acc_psum := a.acc_psum.set i (a.acc_psum.getD i 0 + plc) } := by
  unfold Build.touch
  rw [h]

theorem idsOf_eq_of_none (a : Build.TokAcc) (v : String)
    (h : List.indexOf? v a.id_to_token = none) : Build.idsOf a v = [] := by
  unfold Build.idsOf
  rw [h]

theorem idsOf_eq_of_some (a : Build.TokAcc) (v : String) (i : ℕ)
    (h : List.indexOf? v a.id_to_token = some i) :
    Build.idsOf a v = a.acc_ids.getD i [] := by
  unfold Build.idsOf
  rw [h]

theorem touch_wf (a : Build.TokAcc) (tok lbl : String) (pm : ℕ) (plc : ℤ)
    (h : Build.AccWF a) : Build.AccWF (Build.touch a tok lbl pm plc) := by
  unfold Build.AccWF at h ⊢
  cases hw : List.indexOf? tok a.id_to_token with
  | none => rw [touch_none a tok lbl pm plc hw]; simp [h]
  | some i => rw [touch_some a tok lbl pm plc i hw]; simp [h]

theorem idsOf_touch (a : Build.TokAcc) (h : Build.AccWF a)
    (w lbl : String) (pm : ℕ) (plc : ℤ) (v : String) :
    Build.idsOf (Build.touch a w lbl pm plc) v =
      Build.idsOf a v ++ (if v = w then [pm] else []) := by
  cases hw : List.indexOf? w a.id_to_token with
  | none =>
    rw [touch_none a w lbl pm plc hw]
    by_cases hv : v = w
    · subst hv
      rw [idsOf_eq_of_none a v hw, if_pos rfl, List.nil_append]
      rw [idsOf_eq_of_some _ v a.id_to_token.length
        (by show List.indexOf? v (a.id_to_token ++ [v]) = _
            rw [idx_append_one, hw, if_pos rfl, Option.none_or])]
      show (a.acc_ids ++ [[pm]]).getD a.id_to_token.length [] = [pm]
      rw [← h]
      exact getD_append_length a.acc_ids [pm] []
    · rw [if_neg hv]
      have hidx : List.indexOf? v (a.id_to_token ++ [w]) = List.indexOf? v a.id_to_token := by
        rw [idx_append_one, if_neg (fun he => hv he.symm), Option.or_none]
      cases hv2 : List.indexOf? v a.id_to_token with
      | none =>
        rw [idsOf_eq_of_none a v hv2, idsOf_eq_of_none _ v (by rw [hidx]; exact hv2)]
        rfl
      | some j =>
        rw [idsOf_eq_of_some a v j hv2, idsOf_eq_of_some _ v j (by rw [hidx]; exact hv2)]
        show (a.acc_ids ++ [[pm]]).getD j [] = a.acc_ids.getD j [] ++ []
        rw [List.append_nil, List.getD_append]
        rw [h]
        exact idx_lt v _ j hv2
  | some i =>
    rw [touch_some a w lbl pm plc i hw]
    by_cases hv : v = w
    · subst hv
      rw [idsOf_eq_of_some a v i hw, if_pos rfl]
      rw [idsOf_eq_of_some _ v i (by exact hw)]
      show (a.acc_ids.set i (a.acc_ids.getD i [] ++ [pm])).getD i [] = _
      rw [getD_set_self]
      rw [h]
      exact idx_lt v _ i hw
    · rw [if_neg hv, List.append_nil]
      cases hv2 : List.indexOf? v a.id_to_token with
      | none =>
        rw [idsOf_eq_of_none a v hv2, idsOf_eq_of_none _ v (by exact hv2)]
      | some j =>
        have hji : i ≠ j := by
          intro he
          apply hv
          have h1 := idx_getD v a.id_to_token j "" hv2
          have h2 := idx_getD w a.id_to_token i "" hw
          rw [← he] at h1
          rw [h1] at h2
          exact h2
        rw [idsOf_eq_of_some a v j hv2, idsOf_eq_of_some _ v j (by exact hv2)]
        show (a.acc_ids.set i _).getD j [] = a.acc_ids.getD j []
        exact getD_set_ne a.acc_ids i j _ [] hji

theorem touch_ne (a : Build.TokAcc) (tok lbl : String) (pm : ℕ) (plc : ℤ)
    (h : Build.AccNE a) : Build.AccNE (Build.touch a tok lbl pm plc) := by
  cases hw : List.indexOf? tok a.id_to_token with
  | none =>
    rw [touch_none a tok lbl pm plc hw]
    intro ids hids
    rcases List.mem_append.mp hids with h1 | h1
    · exact h ids h1
    · simp only [List.mem_singleton] at h1
      subst h1
      simp
  | some i =>
    rw [touch_some a tok lbl pm plc i hw]
    intro ids hids
    rcases List.mem_or_eq_of_mem_set hids with h1 | h1
    · exact h ids h1
    · subst h1
      simp

theorem touchMany_wf (L : List (String × String)) (a : Build.TokAcc)
    (pm : ℕ) (plc : ℤ) (h : Build.AccWF a) :
    Build.AccWF (Build.touchMany a pm plc L) := by
  induction L generalizing a with
  | nil => exact h
  | cons x L ih => exact ih _ (touch_wf a x.1 x.2 pm plc h)

theorem touchMany_ne (L : List (String × String)) (a : Build.TokAcc)
    (pm : ℕ) (plc : ℤ) (h : Build.AccNE a) :
    Build.AccNE (Build.touchMany a pm plc L) := by
  induction L generalizing a with
  | nil => exact h
  | cons x L ih => exact ih _ (touch_ne a x.1 x.2 pm plc h)

theorem idsOf_touchMany (L : List (String × String)) (a : Build.TokAcc)
    (pm : ℕ) (plc : ℤ) (v : String) (h : Build.AccWF a) :
    Build.idsOf (Build.touchMany a pm plc L) v =
      Build.idsOf a v ++ List.replicate (Build.countTok L v) pm := by
  induction L generalizing a with
  | nil => simp [Build.touchMany, Build.countTok]
  | cons x L ih =>
    show Build.idsOf (Build.touchMany (Build.touch a x.1 x.2 pm plc) pm plc L) v = _
    rw [ih _ (touch_wf a x.1 x.2 pm plc h), idsOf_touch a h x.1 x.2 pm plc v,
      List.append_assoc]
    congr 1
    by_cases hv : v = x.1
    · have : Build.countTok (x :: L) v = Build.countTok L v + 1 := by
        have hx : x.1 = v := hv.symm
        simp [Build.countTok, List.countP_cons, hx]
      rw [this, if_pos hv, List.replicate_succ]
      rfl
    · have : Build.countTok (x :: L) v = Build.countTok L v := by
        have hx : ¬ x.1 = v := fun he => hv he.symm
        simp [Build.countTok, List.countP_cons, hx]
      rw [this, if_neg hv, List.nil_append]

/-! ### The two build passes as flat emission streams -/
theorem idsOf_foldl_proc (pms : List Build.PMRow) (st : Build.BuildState)
    (v : String) (h : Build.AccWF st.tok) :
    Build.idsOf (pms.foldl Build.procPM st).tok v =
      Build.idsOf st.tok v ++
        pms.flatMap (fun pm =>
          List.replicate (Build.occUnit pm v) pm.pm_id) := by
  induction pms generalizing st with
  | nil => simp
  | cons pm pms ih =>
    rw [List.foldl_cons, ih (Build.procPM st pm) (touchMany_wf _ _ _ _ h)]
    have hp : (Build.procPM st pm).tok =
        Build.touchMany st.tok pm.pm_id pm.placement (Build.pmTouches pm) := rfl
    rw [hp, idsOf_touchMany _ _ _ _ v h, List.flatMap_cons, List.append_assoc]
    rfl

theorem foldl_proc_wf (pms : List Build.PMRow) (st : Build.BuildState)
    (h : Build.AccWF st.tok) : Build.AccWF (pms.foldl Build.procPM st).tok := by
  induction pms generalizing st with
  | nil => exact h
  | cons pm pms ih => exact ih _ (touchMany_wf _ _ _ _ h)

theorem foldl_proc_ne (pms : List Build.PMRow) (st : Build.BuildState)
    (h : Build.AccNE st.tok) : Build.AccNE (pms.foldl Build.procPM st).tok := by
  induction pms generalizing st with
  | nil => exact h
  | cons pm pms ih => exact ih _ (touchMany_ne _ _ _ _ h)

theorem idsOf_foldl_trait (pms : List Build.PMRow) (st : Build.BuildState)
    (v : String) (h : Build.AccWF st.tok) :
    Build.idsOf (pms.foldl Build.traitStep st).tok v =
      Build.idsOf st.tok v ++
        pms.flatMap (fun pm =>
          List.replicate (Build.occTrait pm v) pm.pm_id) := by
  induction pms generalizing st with
  | nil => simp
  | cons pm pms ih =>
    rw [List.foldl_cons, ih (Build.traitStep st pm) (touchMany_wf _ _ _ _ h)]
    have hp : (Build.traitStep st pm).tok =
        Build.touchMany st.tok pm.pm_id pm.placement (Build.pmTraitTouches pm) := rfl
    rw [hp, idsOf_touchMany _ _ _ _ v h, List.flatMap_cons, List.append_assoc]
    rfl

theorem foldl_trait_wf (pms : List Build.PMRow) (st : Build.BuildState)
    (h : Build.AccWF st.tok) :
    Build.AccWF (pms.foldl Build.traitStep st).tok := by
  induction pms generalizing st with
  | nil => exact h
  | cons pm pms ih => exact ih _ (touchMany_wf _ _ _ _ h)

theorem foldl_trait_ne (pms : List Build.PMRow) (st : Build.BuildState)
    (h : Build.AccNE st.tok) :
    Build.AccNE (pms.foldl Build.traitStep st).tok := by
  induction pms generalizing st with
  | nil => exact h
  | cons pm pms ih => exact ih _ (touchMany_ne _ _ _ _ h)

theorem buildAcc_wf (pms : List Build.PMRow) :
    Build.AccWF (Build.buildAcc pms).tok := by
  unfold Build.buildAcc
  exact foldl_trait_wf pms _ (foldl_proc_wf pms _ (by unfold Build.AccWF; rfl))

theorem buildAcc_ne (pms : List Build.PMRow) :
    Build.AccNE (Build.buildAcc pms).tok := by
  unfold Build.buildAcc
  exact foldl_trait_ne pms _ (foldl_proc_ne pms _ (by intro ids h; cases h))

theorem idsOf_buildAcc (pms : List Build.PMRow) (v : String) :
    Build.idsOf (Build.buildAcc pms).tok v =
      pms.flatMap (fun pm => List.replicate (Build.occUnit pm v) pm.pm_id) ++
      pms.flatMap (fun pm => List.replicate (Build.occTrait pm v) pm.pm_id) := by
  unfold Build.buildAcc
  rw [idsOf_foldl_trait pms _ v
      (foldl_proc_wf pms (Build.initState (Build.maxPmId pms))
        (by unfold Build.AccWF; rfl)),
    idsOf_foldl_proc pms (Build.initState (Build.maxPmId pms)) v
      (by unfold Build.AccWF; rfl)]
  have : Build.idsOf (Build.initState (Build.maxPmId pms)).tok v = [] := rfl
  rw [this, List.nil_append]

theorem mem_idsOf_buildAcc (pms : List Build.PMRow) (v : String) (x : ℕ) :
    x ∈ Build.idsOf (Build.buildAcc pms).tok v ↔
      ∃ pm ∈ pms, x = pm.pm_id ∧
        (0 < Build.occUnit pm v ∨ 0 < Build.occTrait pm v) := by
  rw [idsOf_buildAcc]
  simp only [List.mem_append, List.mem_flatMap, List.mem_replicate]
  constructor
  · rintro (⟨pm, hpm, hne, he⟩ | ⟨pm, hpm, hne, he⟩)
    · exact ⟨pm, hpm, he, Or.inl (by omega)⟩
    · exact ⟨pm, hpm, he, Or.inr (by omega)⟩
  · rintro ⟨pm, hpm, he, h1 | h2⟩
    · exact Or.inl ⟨pm, hpm, by omega, he⟩
    · exact Or.inr ⟨pm, hpm, by omega, he⟩

/-! ### The breakpoint relabel only rewrites labels -/
theorem relabel_id_to_token (mu : List ((String × ℤ) × ℤ))
    (seen : List (String × List ℤ)) (a : Build.TokAcc) :
    (Build.relabel a mu seen).id_to_token = a.id_to_token := by
  induction mu generalizing a with
  | nil => rfl
  | cons km mu ih =>
    show (Build.relabel _ (km :: mu) seen).id_to_token = _
    unfold Build.relabel
    rw [List.foldl_cons]
    have h1 := ih
    unfold Build.relabel at h1
    rw [h1]
    cases hw : List.indexOf?
        (if km.1.2 = 1 then Build.tokT km.1.1 else Build.tokTk km.1.1 km.1.2)
        a.id_to_token with
    | none => simp [hw]
    | some i =>
      simp only [hw]
      split <;> rfl

theorem relabel_acc_ids (mu : List ((String × ℤ) × ℤ))
    (seen : List (String × List ℤ)) (a : Build.TokAcc) :
    (Build.relabel a mu seen).acc_ids = a.acc_ids := by
  induction mu generalizing a with
  | nil => rfl
  | cons km mu ih =>
    show (Build.relabel _ (km :: mu) seen).acc_ids = _
    unfold Build.relabel
    rw [List.foldl_cons]
    have h1 := ih
    unfold Build.relabel at h1
    rw [h1]
    cases hw : List.indexOf?
        (if km.1.2 = 1 then Build.tokT km.1.1 else Build.tokTk km.1.1 km.1.2)
        a.id_to_token with
    | none => simp [hw]
    | some i =>
      simp only [hw]
      split <;> rfl

/-! ### Token lookup on the built engine -/
theorem build_stats_of_not_mem (pms : List Build.PMRow) (t : String)
    (h : t ∉ (Build.buildAcc pms).tok.id_to_token) :
    Engine.get_token_stats (Build.build_from_db pms) t = none := by
  unfold Engine.get_token_stats Engine.token_to_id
  have he : (Build.build_from_db pms).id_to_token =
      (Build.buildAcc pms).tok.id_to_token := by
    show (Build.relabel _ _ _).id_to_token = _
    exact relabel_id_to_token _ _ _
  rw [he, (idx_none_iff t _).mpr h]

theorem build_stats_of_mem (pms : List Build.PMRow) (t : String)
    (h : t ∈ (Build.buildAcc pms).tok.id_to_token) :
    Engine.get_token_stats (Build.build_from_db pms) t =
      some (Build.mkStats (Build.buildAcc pms).placements
        (Build.idsOf (Build.buildAcc pms).tok t)) := by
  unfold Engine.get_token_stats Engine.token_to_id
  have he : (Build.build_from_db pms).id_to_token =
      (Build.buildAcc pms).tok.id_to_token := by
    show (Build.relabel _ _ _).id_to_token = _
    exact relabel_id_to_token _ _ _
  have ht : (Build.build_from_db pms).tokens =
      (Build.buildAcc pms).tok.acc_ids.map
        (fun ids => some (Build.mkStats (Build.buildAcc pms).placements ids)) := by
    show (Build.relabel _ _ _).acc_ids.map _ = _
    rw [relabel_acc_ids]
  rw [he]
  cases hw : List.indexOf? t (Build.buildAcc pms).tok.id_to_token with
  | none => exact absurd h ((idx_none_iff t _).mp hw)
  | some i =>
    have hi : i < (Build.buildAcc pms).tok.acc_ids.length := by
      rw [buildAcc_wf pms]
      exact idx_lt t _ i hw
    show (Build.build_from_db pms).tokens.getD i none = _
    rw [ht, List.getD_eq_getElem?_getD, List.getElem?_map,
      List.getElem?_eq_getElem hi]
    rw [idsOf_eq_of_some _ t i hw, List.getD_eq_getElem _ _ hi]
    rfl

/-! ### Token-string algebra: normal forms, separator splits, decimal
rendering -/
theorem tokU_data (u : String) :
    (Build.tokU u).data = 'U' :: ':' :: u.data := by
  show ("U:" ++ u).data = _
  rw [String.data_append]
  rfl

theorem tokUs_data (u : String) (t : ℤ) :
    (Build.tokUs u t).data =
      'U' :: ':' :: (u.data ++ ':' :: (Build.decStrInt t).data) := by
  show ("U:" ++ u ++ ":" ++ Build.decStrInt t).data = _
  rw [String.data_append, String.data_append, String.data_append]
  simp

theorem tokI_data (i : String) :
    (Build.tokI i).data = 'I' :: ':' :: i.data := by
  show ("I:" ++ i).data = _
  rw [String.data_append]
  rfl

theorem tokE_data (u i : String) :
    (Build.tokE u i).data = 'E' :: ':' :: (u.data ++ '|' :: i.data) := by
  show ("E:" ++ u ++ "|" ++ i).data = _
  rw [String.data_append, String.data_append, String.data_append]
  simp

theorem tokE2_data (u i : String) :
    (Build.tokE2 u i).data =
      'E' :: ':' :: (u.data ++ '|' :: (i.data ++ [':', '2'])) := by
  show ("E:" ++ u ++ "|" ++ i ++ ":2").data = _
  rw [String.data_append, String.data_append, String.data_append,
    String.data_append]
  simp

theorem tokE3_data (u i : String) :
    (Build.tokE3 u i).data =
      'E' :: ':' :: (u.data ++ '|' :: (i.data ++ [':', '3'])) := by
  show ("E:" ++ u ++ "|" ++ i ++ ":3").data = _
  rw [String.data_append, String.data_append, String.data_append,
    String.data_append]
  simp

theorem tokT_data (t : String) :
    (Build.tokT t).data = 'T' :: ':' :: t.data := by
  show ("T:" ++ t).data = _
  rw [String.data_append]
  rfl

theorem tokTk_data (t : String) (k : ℤ) :
    (Build.tokTk t k).data =
      'T' :: ':' :: (t.data ++ ':' :: (Build.decStrInt k).data) := by
  show ("T:" ++ t ++ ":" ++ Build.decStrInt k).data = _
  rw [String.data_append, String.data_append, String.data_append]
  simp

/-- Splitting two equal lists at a marker neither prefix contains. -/
theorem append_sep_inj (c : Char) (a : List Char) :
    ∀ (b r s : List Char), c ∉ a → c ∉ b →
      a ++ c :: r = b ++ c :: s → a = b ∧ r = s := by
  induction a with
  | nil =>
    intro b r s _ hb h
    cases b with
    | nil => simpa using h
    | cons y ys =>
      simp only [List.nil_append, List.cons_append, List.cons.injEq] at h
      exact absurd (h.1 ▸ List.mem_cons_self y ys) hb
  | cons x xs ih =>
    intro b r s ha hb h
    cases b with
    | nil =>
      simp only [List.cons_append, List.nil_append, List.cons.injEq] at h
      exact absurd (h.1 ▸ List.mem_cons_self x xs) ha
    | cons y ys =>
      simp only [List.cons_append, List.cons.injEq] at h
      have ha2 : c ∉ xs := fun hm => ha (List.mem_cons_of_mem x hm)
      have hb2 : c ∉ ys := fun hm => hb (List.mem_cons_of_mem y hm)
      obtain ⟨he, hr⟩ := ih ys r s ha2 hb2 h.2
      exact ⟨by rw [h.1, he], hr⟩

theorem decDigitsAux_lt10 : ∀ (f n : ℕ), ∀ d ∈ Build.decDigitsAux f n, d < 10 := by
  intro f
  induction f with
  | zero =>
    intro n d h
    cases h
  | succ f ih =>
    intro n d h
    unfold Build.decDigitsAux at h
    by_cases hn : n = 0
    · rw [if_pos hn] at h
      cases h
    · rw [if_neg hn] at h
      rcases List.mem_cons.mp h with h1 | h1
      · subst h1
        exact Nat.mod_lt n (by norm_num)
      · exact ih (n / 10) d h1

theorem ofRev_decDigitsAux : ∀ (f n : ℕ), n ≤ f →
    Build.ofRev (Build.decDigitsAux f n) = n := by
  intro f
  induction f with
  | zero =>
    intro n h
    interval_cases n
    rfl
  | succ f ih =>
    intro n h
    unfold Build.decDigitsAux
    by_cases hn : n = 0
    · rw [if_pos hn, hn]
      rfl
    · rw [if_neg hn]
      show n % 10 + 10 * Build.ofRev (Build.decDigitsAux f (n / 10)) = n
      rw [ih (n / 10) (by omega)]
      exact Nat.mod_add_div n 10

theorem digitChar_toNat (d : ℕ) (hd : d < 10) :
    (Char.ofNat (48 + d)).toNat = 48 + d :=
  toNat_charOfNat (48 + d) (Or.inl (by omega))

theorem map_digitChar_inj : ∀ (ds es : List ℕ),
    (∀ d ∈ ds, d < 10) → (∀ e ∈ es, e < 10) →
    ds.map (fun d => Char.ofNat (48 + d)) = es.map (fun d => Char.ofNat (48 + d)) →
    ds = es := by
  intro ds
  induction ds with
  | nil =>
    intro es _ _ h
    cases es with
    | nil => rfl
    | cons e es => simp at h
  | cons d ds ih =>
    intro es hd he h
    cases es with
    | nil => simp at h
    | cons e es =>
      simp only [List.map_cons, List.cons.injEq] at h
      have h1 : d = e := by
        have := congrArg Char.toNat h.1
        rw [digitChar_toNat d (hd d (List.mem_cons_self d ds)),
          digitChar_toNat e (he e (List.mem_cons_self e es))] at this
        omega
      have h2 := ih es (fun x hx => hd x (List.mem_cons_of_mem d hx))
        (fun x hx => he x (List.mem_cons_of_mem e hx)) h.2
      rw [h1, h2]

theorem decStr_inj (m n : ℕ) (h : Build.decStr m = Build.decStr n) : m = n := by
  have hd := congrArg String.data h
  unfold Build.decStr at hd
  by_cases hm : m = 0 <;> by_cases hn : n = 0
  · omega
  · rw [if_pos hm, if_neg hn] at hd
    cases hl : (Build.decDigitsAux n n).reverse with
    | nil => rw [hl] at hd; simp at hd
    | cons d ds =>
      rw [hl] at hd
      simp only [List.map_cons, List.cons.injEq] at hd
      have hds : ds = [] := by
        have := hd.2
        cases ds with
        | nil => rfl
        | cons x xs => simp at this
      have hd10 : d < 10 := by
        apply decDigitsAux_lt10 n n
        rw [← List.mem_reverse, hl]
        exact List.mem_cons_self d ds
      have hd0 : d = 0 := by
        have := congrArg Char.toNat hd.1
        rw [digitChar_toNat d hd10] at this
        have hz : ('0' : Char).toNat = 48 := rfl
        omega
      have haux : Build.decDigitsAux n n = [0] := by
        have := congrArg List.reverse hl
        rw [List.reverse_reverse] at this
        rw [this, hds, hd0]
        rfl
      have := ofRev_decDigitsAux n n (le_refl n)
      rw [haux] at this
      simp [Build.ofRev] at this
      omega
  · rw [if_neg hm, if_pos hn] at hd
    cases hl : (Build.decDigitsAux m m).reverse with
    | nil => rw [hl] at hd; simp at hd
    | cons d ds =>
      rw [hl] at hd
      simp only [List.map_cons, List.cons.injEq] at hd
      have hds : ds = [] := by
        have := hd.2
        cases ds with
        | nil => rfl
        | cons x xs => simp at this
      have hd10 : d < 10 := by
        apply decDigitsAux_lt10 m m
        rw [← List.mem_reverse, hl]
        exact List.mem_cons_self d ds
      have hd0 : d = 0 := by
        have := congrArg Char.toNat hd.1
        rw [digitChar_toNat d hd10] at this
        have hz : ('0' : Char).toNat = 48 := rfl
        omega
      have haux : Build.decDigitsAux m m = [0] := by
        have := congrArg List.reverse hl
        rw [List.reverse_reverse] at this
        rw [this, hds, hd0]
        rfl
      have := ofRev_decDigitsAux m m (le_refl m)
      rw [haux] at this
      simp [Build.ofRev] at this
      omega
  · rw [if_neg hm, if_neg hn] at hd
    have hrev := map_digitChar_inj _ _
      (fun d h => decDigitsAux_lt10 m m d (List.mem_reverse.mp h))
      (fun d h => decDigitsAux_lt10 n n d (List.mem_reverse.mp h)) hd
    have haux : Build.decDigitsAux m m = Build.decDigitsAux n n := by
      have := congrArg List.reverse hrev
      rwa [List.reverse_reverse, List.reverse_reverse] at this
    have h1 := ofRev_decDigitsAux m m (le_refl m)
    have h2 := ofRev_decDigitsAux n n (le_refl n)
    rw [haux, h2] at h1
    omega

theorem decStr_chars (n : ℕ) :
    ∀ c ∈ (Build.decStr n).data, 48 ≤ c.toNat ∧ c.toNat ≤ 57 := by
  intro c hc
  unfold Build.decStr at hc
  by_cases hn : n = 0
  · rw [if_pos hn] at hc
    have : c = '0' := by simpa using hc
    subst this
    exact ⟨le_refl _, by decide⟩
  · rw [if_neg hn] at hc
    have hc2 : c ∈ ((Build.decDigitsAux n n).reverse).map
        (fun d => Char.ofNat (48 + d)) := hc
    rcases List.mem_map.mp hc2 with ⟨d, hd, he⟩
    have hd10 : d < 10 := decDigitsAux_lt10 n n d (List.mem_reverse.mp hd)
    rw [← he, digitChar_toNat d hd10]
    omega

theorem decStrInt_nonneg (t : ℤ) (h : 0 ≤ t) :
    Build.decStrInt t = Build.decStr t.toNat := by
  unfold Build.decStrInt
  rw [if_neg (by omega)]

theorem decStrInt_inj_nonneg (a b : ℤ) (ha : 0 ≤ a) (hb : 0 ≤ b)
    (h : Build.decStrInt a = Build.decStrInt b) : a = b := by
  rw [decStrInt_nonneg a ha, decStrInt_nonneg b hb] at h
  have := decStr_inj _ _ h
  omega

theorem decStr_no_colon (n : ℕ) : ':' ∉ (Build.decStr n).data := by
  intro hm
  have h := decStr_chars n ':' hm
  have h58 : (':' : Char).toNat = 58 := rfl
  omega

theorem decStrInt_no_colon (t : ℤ) (h : 0 ≤ t) :
    ':' ∉ (Build.decStrInt t).data := by
  rw [decStrInt_nonneg t h]
  exact decStr_no_colon t.toNat

theorem sepFree_colon (s : String) (h : Build.sepFree s = true) :
    ':' ∉ s.data := by
  unfold Build.sepFree at h
  rw [Bool.and_eq_true, decide_eq_true_eq, decide_eq_true_eq] at h
  exact h.1

theorem sepFree_pipe (s : String) (h : Build.sepFree s = true) :
    '|' ∉ s.data := by
  unfold Build.sepFree at h
  rw [Bool.and_eq_true, decide_eq_true_eq, decide_eq_true_eq] at h
  exact h.2

theorem cleanPM_unit (pm : Build.PMRow) (u : Build.UnitRow)
    (h : Build.cleanPM pm = true) (hu : u ∈ pm.units) :
    Build.sepFree (Build.clean_unit_name u.name) = true ∧
    ∀ it ∈ u.items, Build.sepFree (Build.clean_item_name it) = true := by
  unfold Build.cleanPM at h
  rw [Bool.and_eq_true, List.all_eq_true] at h
  have h1 := h.1 u hu
  rw [Bool.and_eq_true, List.all_eq_true] at h1
  exact h1

theorem cleanPM_trait (pm : Build.PMRow) (ts : List Build.TraitRow)
    (tr : Build.TraitRow) (h : Build.cleanPM pm = true)
    (hts : pm.traits = some ts) (htr : tr ∈ ts) :
    Build.sepFree (Build.clean_trait_name tr.name) = true := by
  unfold Build.cleanPM at h
  rw [Bool.and_eq_true] at h
  have h2 := h.2
  rw [hts, List.all_eq_true] at h2
  exact h2 tr htr

theorem ne_of_data_head {s t : String} {c d : Char} {ls lt : List Char}
    (hs : s.data = c :: ls) (ht : t.data = d :: lt) (h : c ≠ d) : s ≠ t := by
  intro he
  subst he
  rw [hs] at ht
  exact h (List.cons.injEq .. |>.mp ht).1

/-! ### Which tokens each build-pass element can emit -/
theorem mem_bumpCount : ∀ (l : List (String × ℕ)) (k : String)
    (ci : String × ℕ), ci ∈ Build.bumpCount l k →
    ci.1 = k ∨ ci.1 ∈ l.map Prod.fst := by
  intro l
  induction l with
  | nil =>
    intro k ci h
    simp only [Build.bumpCount, List.mem_singleton] at h
    subst h
    exact Or.inl rfl
  | cons x xs ih =>
    intro k ci h
    simp only [Build.bumpCount] at h
    by_cases hx : x.1 = k
    · rw [if_pos hx] at h
      rcases List.mem_cons.mp h with h1 | h1
      · subst h1
        exact Or.inl hx
      · exact Or.inr (by
          simp only [List.map_cons, List.mem_cons]
          exact Or.inr (List.mem_map.mpr ⟨ci, h1, rfl⟩))
    · rw [if_neg hx] at h
      rcases List.mem_cons.mp h with h1 | h1
      · subst h1
        exact Or.inr (by simp)
      · rcases ih k ci h1 with h2 | h2
        · exact Or.inl h2
        · exact Or.inr (by
            simp only [List.map_cons, List.mem_cons]
            exact Or.inr h2)

theorem itemCounts_keys (items : List String) (ci : String × ℕ)
    (h : ci ∈ Build.itemCounts items) :
    ∃ it ∈ items, ci.1 = Build.clean_item_name it := by
  unfold Build.itemCounts at h
  suffices hgen : ∀ (acc : List (String × ℕ)),
      ci ∈ items.foldl (fun acc it =>
        let item_name := Build.clean_item_name it
        if item_name = "EmptyBag" then acc else Build.bumpCount acc item_name) acc →
      ci.1 ∈ acc.map Prod.fst ∨ ∃ it ∈ items, ci.1 = Build.clean_item_name it by
    rcases hgen [] h with h1 | h1
    · simp at h1
    · exact h1
  clear h
  induction items with
  | nil =>
    intro acc h
    exact Or.inl (List.mem_map.mpr ⟨ci, h, rfl⟩)
  | cons it its ih =>
    intro acc h
    rw [List.foldl_cons] at h
    rcases ih _ h with h1 | h1
    · by_cases he : Build.clean_item_name it = "EmptyBag"
      · rw [if_pos he] at h1
        exact Or.inl h1
      · rw [if_neg he] at h1
        rcases List.mem_map.mp h1 with ⟨cj, hcj, hkey⟩
        rcases mem_bumpCount acc _ cj hcj with h2 | h2
        · exact Or.inr ⟨it, List.mem_cons_self it its, by rw [← hkey, h2]⟩
        · exact Or.inl (by rw [← hkey]; exact h2)
    · rcases h1 with ⟨jt, hjt, he⟩
      exact Or.inr ⟨jt, List.mem_cons_of_mem it hjt, he⟩

theorem unitTouches_fst (u : Build.UnitRow) (tl : String × String)
    (h : tl ∈ Build.unitTouches u) :
    tl.1 = Build.tokU (Build.clean_unit_name u.name) ∨
    (∃ t : ℤ, u.tier = some t ∧ 1 ≤ t ∧
      tl.1 = Build.tokUs (Build.clean_unit_name u.name) t) ∨
    (∃ ci ∈ Build.itemCounts u.items,
      tl.1 = Build.tokE (Build.clean_unit_name u.name) ci.1 ∨
      (2 ≤ ci.2 ∧ tl.1 = Build.tokE2 (Build.clean_unit_name u.name) ci.1) ∨
      (3 ≤ ci.2 ∧ tl.1 = Build.tokE3 (Build.clean_unit_name u.name) ci.1)) := by
  unfold Build.unitTouches at h
  rw [List.mem_append, List.mem_append] at h
  rcases h with (h | h) | h
  · rw [List.mem_singleton] at h
    exact Or.inl (by rw [h])
  · cases ht : u.tier with
    | none => rw [ht] at h; cases h
    | some t =>
      rw [ht] at h
      replace h : tl ∈ (if 1 ≤ t then
          [(Build.tokUs (Build.clean_unit_name u.name) t,
            Build.clean_unit_name u.name ++ " " ++ Build.decStrInt t)]
        else []) := h
      by_cases h1 : 1 ≤ t
      · rw [if_pos h1, List.mem_singleton] at h
        exact Or.inr (Or.inl ⟨t, rfl, h1, by rw [h]⟩)
      · rw [if_neg h1] at h
        cases h
  · rcases List.mem_flatMap.mp h with ⟨ci, hci, hmem⟩
    rw [List.mem_append, List.mem_append] at hmem
    refine Or.inr (Or.inr ⟨ci, hci, ?_⟩)
    rcases hmem with (h2 | h2) | h2
    · rw [List.mem_singleton] at h2
      exact Or.inl (by rw [h2])
    · by_cases hc : 2 ≤ ci.2
      · rw [if_pos hc, List.mem_singleton] at h2
        exact Or.inr (Or.inl ⟨hc, by rw [h2]⟩)
      · rw [if_neg hc] at h2
        cases h2
    · by_cases hc : 3 ≤ ci.2
      · rw [if_pos hc, List.mem_singleton] at h2
        exact Or.inr (Or.inr ⟨hc, by rw [h2]⟩)
      · rw [if_neg hc] at h2
        cases h2

theorem tokU_mem_unitTouches (u : Build.UnitRow) :
    ∃ tl ∈ Build.unitTouches u,
      tl.1 = Build.tokU (Build.clean_unit_name u.name) := by
  refine ⟨(Build.tokU (Build.clean_unit_name u.name),
    Build.clean_unit_name u.name), ?_, rfl⟩
  unfold Build.unitTouches
  rw [List.mem_append, List.mem_append]
  exact Or.inl (Or.inl (List.mem_singleton.mpr rfl))

theorem tokE_mem_unitTouches (u : Build.UnitRow) (ci : String × ℕ)
    (hci : ci ∈ Build.itemCounts u.items) :
    ∃ tl ∈ Build.unitTouches u,
      tl.1 = Build.tokE (Build.clean_unit_name u.name) ci.1 := by
  refine ⟨(Build.tokE (Build.clean_unit_name u.name) ci.1,
    Build.clean_unit_name u.name ++ " + " ++ ci.1), ?_, rfl⟩
  unfold Build.unitTouches
  rw [List.mem_append]
  refine Or.inr (List.mem_flatMap.mpr ⟨ci, hci, ?_⟩)
  rw [List.mem_append, List.mem_append]
  exact Or.inl (Or.inl (List.mem_singleton.mpr rfl))

theorem tokE2_mem_unitTouches (u : Build.UnitRow) (ci : String × ℕ)
    (hci : ci ∈ Build.itemCounts u.items) (hc : 2 ≤ ci.2) :
    ∃ tl ∈ Build.unitTouches u,
      tl.1 = Build.tokE2 (Build.clean_unit_name u.name) ci.1 := by
  refine ⟨(Build.tokE2 (Build.clean_unit_name u.name) ci.1,
    Build.clean_unit_name u.name ++ " + " ++ ci.1 ++ " x2"), ?_, rfl⟩
  unfold Build.unitTouches
  rw [List.mem_append]
  refine Or.inr (List.mem_flatMap.mpr ⟨ci, hci, ?_⟩)
  rw [List.mem_append, List.mem_append, if_pos hc]
  exact Or.inl (Or.inr (List.mem_singleton.mpr rfl))

theorem pmTouches_fst (pm : Build.PMRow) (tl : String × String)
    (h : tl ∈ Build.pmTouches pm) :
    (∃ u ∈ pm.units, tl ∈ Build.unitTouches u) ∨
    (∃ it ∈ Build.boardItems pm.units, tl.1 = Build.tokI it) := by
  unfold Build.pmTouches at h
  rw [List.mem_append] at h
  rcases h with h | h
  · exact Or.inl (List.mem_flatMap.mp h)
  · rcases List.mem_map.mp h with ⟨it, hit, he⟩
    exact Or.inr ⟨it, hit, by rw [← he]⟩

theorem occUnit_pos_of_unit (pm : Build.PMRow) (u : Build.UnitRow)
    (hu : u ∈ pm.units) (tl : String × String)
    (htl : tl ∈ Build.unitTouches u) (v : String) (hv : tl.1 = v) :
    0 < Build.occUnit pm v := by
  unfold Build.occUnit Build.countTok
  rw [List.countP_pos]
  refine ⟨tl, ?_, by simp [hv]⟩
  unfold Build.pmTouches
  rw [List.mem_append]
  exact Or.inl (List.mem_flatMap.mpr ⟨u, hu, htl⟩)

theorem occUnit_pos_elim (pm : Build.PMRow) (v : String)
    (h : 0 < Build.occUnit pm v) :
    ∃ tl ∈ Build.pmTouches pm, tl.1 = v := by
  unfold Build.occUnit Build.countTok at h
  rw [List.countP_pos] at h
  rcases h with ⟨tl, htl, he⟩
  exact ⟨tl, htl, by simpa using he⟩

theorem traitTouches_fst (ts : List Build.TraitRow) (tl : String × String)
    (h : tl ∈ Build.traitTouches ts) :
    ∃ tr ∈ ts,
      tl.1 = Build.tokT (Build.clean_trait_name tr.name) ∨
      ∃ lvl : ℕ, 2 ≤ lvl ∧ (lvl : ℤ) ≤ Build.effTier tr.tier ∧
        tl.1 = Build.tokTk (Build.clean_trait_name tr.name) (lvl : ℤ) := by
  unfold Build.traitTouches at h
  rcases List.mem_flatMap.mp h with ⟨tr, htr, hmem⟩
  rw [List.mem_append] at hmem
  refine ⟨tr, htr, ?_⟩
  rcases hmem with h2 | h2
  · rw [List.mem_singleton] at h2
    exact Or.inl (by rw [h2])
  · by_cases hc : 2 ≤ Build.effTier tr.tier
    · rw [if_pos hc] at h2
      rcases List.mem_map.mp h2 with ⟨lvl, hlvl, he⟩
      rcases List.mem_range'_1.mp hlvl with ⟨hi, hlvl2⟩
      refine Or.inr ⟨lvl, hi, by omega, by rw [← he]⟩
    · rw [if_neg hc] at h2
      cases h2

theorem tokT_mem_traitTouches (ts : List Build.TraitRow)
    (tr : Build.TraitRow) (htr : tr ∈ ts) :
    ∃ tl ∈ Build.traitTouches ts,
      tl.1 = Build.tokT (Build.clean_trait_name tr.name) := by
  refine ⟨(Build.tokT (Build.clean_trait_name tr.name),
    Build.clean_trait_name tr.name), ?_, rfl⟩
  unfold Build.traitTouches
  refine List.mem_flatMap.mpr ⟨tr, htr, ?_⟩
  rw [List.mem_append]
  exact Or.inl (List.mem_singleton.mpr rfl)

theorem tokTk_mem_traitTouches (ts : List Build.TraitRow)
    (tr : Build.TraitRow) (htr : tr ∈ ts) (lvl : ℕ) (h2 : 2 ≤ lvl)
    (h3 : (lvl : ℤ) ≤ Build.effTier tr.tier) :
    ∃ tl ∈ Build.traitTouches ts,
      tl.1 = Build.tokTk (Build.clean_trait_name tr.name) (lvl : ℤ) := by
  refine ⟨(Build.tokTk (Build.clean_trait_name tr.name) (lvl : ℤ),
    Build.clean_trait_name tr.name ++ " " ++ Build.decStrInt (lvl : ℤ)), ?_, rfl⟩
  unfold Build.traitTouches
  refine List.mem_flatMap.mpr ⟨tr, htr, ?_⟩
  rw [List.mem_append]
  have hc : 2 ≤ Build.effTier tr.tier := by omega
  rw [if_pos hc]
  refine Or.inr (List.mem_map.mpr ⟨lvl, ?_, rfl⟩)
  rw [List.mem_range'_1]
  omega

theorem occTrait_pos_of_trait (pm : Build.PMRow) (ts : List Build.TraitRow)
    (hts : pm.traits = some ts) (tl : String × String)
    (htl : tl ∈ Build.traitTouches ts) (v : String) (hv : tl.1 = v) :
    0 < Build.occTrait pm v := by
  unfold Build.occTrait Build.countTok
  rw [List.countP_pos]
  refine ⟨tl, ?_, by simp [hv]⟩
  unfold Build.pmTraitTouches
  rw [hts]
  exact htl

theorem occTrait_pos_elim (pm : Build.PMRow) (v : String)
    (h : 0 < Build.occTrait pm v) :
    ∃ ts, pm.traits = some ts ∧ ∃ tl ∈ Build.traitTouches ts, tl.1 = v := by
  unfold Build.occTrait Build.countTok at h
  rw [List.countP_pos] at h
  rcases h with ⟨tl, htl, he⟩
  unfold Build.pmTraitTouches at htl
  cases hts : pm.traits with
  | none => rw [hts] at htl; cases htl
  | some ts =>
    rw [hts] at htl
    exact ⟨ts, rfl, tl, htl, by simpa using he⟩

/-! ### Disequalities and injectivity of the token constructors -/
theorem tokU_ne_tokUs (a X : String) (t : ℤ) (hA : ':' ∉ a.data) :
    Build.tokU a ≠ Build.tokUs X t := by
  intro h
  have hd := congrArg String.data h
  rw [tokU_data, tokUs_data] at hd
  simp only [List.cons.injEq, true_and] at hd
  apply hA
  rw [hd]
  exact List.mem_append_right _ (List.mem_cons_self _ _)

theorem tokUs_name_eq (a X : String) (t k : ℤ) (ha : ':' ∉ a.data)
    (hX : ':' ∉ X.data) (h : Build.tokUs a t = Build.tokUs X k) : a = X := by
  have hd := congrArg String.data h
  rw [tokUs_data, tokUs_data] at hd
  simp only [List.cons.injEq, true_and] at hd
  exact String.ext (append_sep_inj ':' a.data X.data _ _ ha hX hd).1

theorem tokE_ne_tokE2 (a b u i : String) (hb : ':' ∉ b.data)
    (hA : '|' ∉ a.data) (hU : '|' ∉ u.data) :
    Build.tokE a b ≠ Build.tokE2 u i := by
  intro h
  have hd := congrArg String.data h
  rw [tokE_data, tokE2_data] at hd
  simp only [List.cons.injEq, true_and] at hd
  have := (append_sep_inj '|' a.data u.data _ _ hA hU hd).2
  apply hb
  rw [this]
  exact List.mem_append_right _ (List.mem_cons_self _ _)

theorem tokE_ne_tokE3 (a b u i : String) (hb : ':' ∉ b.data)
    (hA : '|' ∉ a.data) (hU : '|' ∉ u.data) :
    Build.tokE a b ≠ Build.tokE3 u i := by
  intro h
  have hd := congrArg String.data h
  rw [tokE_data, tokE3_data] at hd
  simp only [List.cons.injEq, true_and] at hd
  have := (append_sep_inj '|' a.data u.data _ _ hA hU hd).2
  apply hb
  rw [this]
  exact List.mem_append_right _ (List.mem_cons_self _ _)

theorem tokE2_eq (a b u i : String) (hA : '|' ∉ a.data) (hU : '|' ∉ u.data)
    (hb : ':' ∉ b.data) (hi : ':' ∉ i.data)
    (h : Build.tokE2 a b = Build.tokE2 u i) : a = u ∧ b = i := by
  have hd := congrArg String.data h
  rw [tokE2_data, tokE2_data] at hd
  simp only [List.cons.injEq, true_and] at hd
  obtain ⟨h1, h2⟩ := append_sep_inj '|' a.data u.data _ _ hA hU hd
  refine ⟨String.ext h1, ?_⟩
  have h3 : b.data ++ ':' :: ['2'] = i.data ++ ':' :: ['2'] := h2
  exact String.ext (append_sep_inj ':' b.data i.data _ _ hb hi h3).1

theorem tokE3_eq (a b u i : String) (hA : '|' ∉ a.data) (hU : '|' ∉ u.data)
    (hb : ':' ∉ b.data) (hi : ':' ∉ i.data)
    (h : Build.tokE3 a b = Build.tokE3 u i) : a = u ∧ b = i := by
  have hd := congrArg String.data h
  rw [tokE3_data, tokE3_data] at hd
  simp only [List.cons.injEq, true_and] at hd
  obtain ⟨h1, h2⟩ := append_sep_inj '|' a.data u.data _ _ hA hU hd
  refine ⟨String.ext h1, ?_⟩
  have h3 : b.data ++ ':' :: ['3'] = i.data ++ ':' :: ['3'] := h2
  exact String.ext (append_sep_inj ':' b.data i.data _ _ hb hi h3).1

theorem tokE2_ne_tokE3 (a b u i : String) (hA : '|' ∉ a.data)
    (hU : '|' ∉ u.data) (hb : ':' ∉ b.data) (hi : ':' ∉ i.data) :
    Build.tokE2 a b ≠ Build.tokE3 u i := by
  intro h
  have hd := congrArg String.data h
  rw [tokE2_data, tokE3_data] at hd
  simp only [List.cons.injEq, true_and] at hd
  have h2 := (append_sep_inj '|' a.data u.data _ _ hA hU hd).2
  have h3 : b.data ++ ':' :: ['2'] = i.data ++ ':' :: ['3'] := h2
  have := (append_sep_inj ':' b.data i.data _ _ hb hi h3).2
  simp at this

theorem tokE3_ne_tokE2 (a b u i : String) (hA : '|' ∉ a.data)
    (hU : '|' ∉ u.data) (hb : ':' ∉ b.data) (hi : ':' ∉ i.data) :
    Build.tokE3 a b ≠ Build.tokE2 u i := by
  intro h
  exact tokE2_ne_tokE3 u i a b hU hA hi hb h.symm

theorem tokT_ne_tokTk (a X : String) (k : ℤ) (ha : ':' ∉ a.data) :
    Build.tokT a ≠ Build.tokTk X k := by
  intro h
  have hd := congrArg String.data h
  rw [tokT_data, tokTk_data] at hd
  simp only [List.cons.injEq, true_and] at hd
  apply ha
  rw [hd]
  exact List.mem_append_right _ (List.mem_cons_self _ _)

theorem tokTk_eq (a X : String) (j k : ℤ) (ha : ':' ∉ a.data)
    (hX : ':' ∉ X.data) (h : Build.tokTk a j = Build.tokTk X k) :
    a = X ∧ Build.decStrInt j = Build.decStrInt k := by
  have hd := congrArg String.data h
  rw [tokTk_data, tokTk_data] at hd
  simp only [List.cons.injEq, true_and] at hd
  obtain ⟨h1, h2⟩ := append_sep_inj ':' a.data X.data _ _ ha hX hd
  exact ⟨String.ext h1, String.ext h2⟩

theorem tokT_eq (a X : String) (h : Build.tokT a = Build.tokT X) : a = X := by
  have hd := congrArg String.data h
  rw [tokT_data, tokT_data] at hd
  simp only [List.cons.injEq, true_and] at hd
  exact String.ext hd

/-! ### Per-row emission implications for the C3 chains -/
theorem occ_star_to_base (pm : Build.PMRow) (hc : Build.cleanPM pm = true)
    (X : String) (hX : Build.sepFree X = true) (k : ℤ)
    (h : 0 < Build.occUnit pm (Build.tokUs X k)) :
    0 < Build.occUnit pm (Build.tokU X) := by
  rcases occUnit_pos_elim pm _ h with ⟨tl, htl, he⟩
  rcases pmTouches_fst pm tl htl with ⟨u, hu, hmem⟩ | ⟨it, hit, hei⟩
  · obtain ⟨hsf, _⟩ := cleanPM_unit pm u hc hu
    rcases unitTouches_fst u tl hmem with h1 | ⟨t, _, _, h1⟩ | ⟨ci, _, h1⟩
    · rw [h1] at he
      exact absurd he (tokU_ne_tokUs _ X k (sepFree_colon _ hsf))
    · rw [h1] at he
      have hn := tokUs_name_eq _ X t k (sepFree_colon _ hsf) (sepFree_colon X hX) he
      rcases tokU_mem_unitTouches u with ⟨tl', htl', he'⟩
      exact occUnit_pos_of_unit pm u hu tl' htl' _ (by rw [he', hn])
    · rcases h1 with h1 | ⟨_, h1⟩ | ⟨_, h1⟩ <;> rw [h1] at he
      · exact absurd he (ne_of_data_head (tokE_data _ _) (tokUs_data X k) (by decide))
      · exact absurd he (ne_of_data_head (tokE2_data _ _) (tokUs_data X k) (by decide))
      · exact absurd he (ne_of_data_head (tokE3_data _ _) (tokUs_data X k) (by decide))
  · rw [hei] at he
    exact absurd he (ne_of_data_head (tokI_data it) (tokUs_data X k) (by decide))

theorem occ_e2_to_e (pm : Build.PMRow) (hc : Build.cleanPM pm = true)
    (uN iN : String) (hu : Build.sepFree uN = true)
    (hi : Build.sepFree iN = true)
    (h : 0 < Build.occUnit pm (Build.tokE2 uN iN)) :
    0 < Build.occUnit pm (Build.tokE uN iN) := by
  rcases occUnit_pos_elim pm _ h with ⟨tl, htl, he⟩
  rcases pmTouches_fst pm tl htl with ⟨u, hmu, hmem⟩ | ⟨it, _, hei⟩
  · obtain ⟨hsf, hsfit⟩ := cleanPM_unit pm u hc hmu
    rcases unitTouches_fst u tl hmem with h1 | ⟨t, _, _, h1⟩ | ⟨ci, hci, h1⟩
    · rw [h1] at he
      exact absurd he (ne_of_data_head (tokU_data _) (tokE2_data uN iN) (by decide))
    · rw [h1] at he
      exact absurd he (ne_of_data_head (tokUs_data _ t) (tokE2_data uN iN) (by decide))
    · have hcisf : Build.sepFree ci.1 = true := by
        rcases itemCounts_keys u.items ci hci with ⟨it, hit, hkey⟩
        rw [hkey]
        exact hsfit it hit
      rcases h1 with h1 | ⟨hc2, h1⟩ | ⟨hc3, h1⟩ <;> rw [h1] at he
      · exact absurd he (tokE_ne_tokE2 _ ci.1 uN iN (sepFree_colon _ hcisf)
          (sepFree_pipe _ hsf) (sepFree_pipe uN hu))
      · obtain ⟨hn1, hn2⟩ := tokE2_eq _ ci.1 uN iN (sepFree_pipe _ hsf)
          (sepFree_pipe uN hu) (sepFree_colon _ hcisf) (sepFree_colon iN hi) he
        rcases tokE_mem_unitTouches u ci hci with ⟨tl', htl', he'⟩
        exact occUnit_pos_of_unit pm u hmu tl' htl' _ (by rw [he', hn1, hn2])
      · exact absurd he (tokE3_ne_tokE2 _ ci.1 uN iN (sepFree_pipe _ hsf)
          (sepFree_pipe uN hu) (sepFree_colon _ hcisf) (sepFree_colon iN hi))
  · rw [hei] at he
    exact absurd he (ne_of_data_head (tokI_data it) (tokE2_data uN iN) (by decide))

theorem occ_e3_to_e2 (pm : Build.PMRow) (hc : Build.cleanPM pm = true)
    (uN iN : String) (hu : Build.sepFree uN = true)
    (hi : Build.sepFree iN = true)
    (h : 0 < Build.occUnit pm (Build.tokE3 uN iN)) :
    0 < Build.occUnit pm (Build.tokE2 uN iN) := by
  rcases occUnit_pos_elim pm _ h with ⟨tl, htl, he⟩
  rcases pmTouches_fst pm tl htl with ⟨u, hmu, hmem⟩ | ⟨it, _, hei⟩
  · obtain ⟨hsf, hsfit⟩ := cleanPM_unit pm u hc hmu
    rcases unitTouches_fst u tl hmem with h1 | ⟨t, _, _, h1⟩ | ⟨ci, hci, h1⟩
    · rw [h1] at he
      exact absurd he (ne_of_data_head (tokU_data _) (tokE3_data uN iN) (by decide))
    · rw [h1] at he
      exact absurd he (ne_of_data_head (tokUs_data _ t) (tokE3_data uN iN) (by decide))
    · have hcisf : Build.sepFree ci.1 = true := by
        rcases itemCounts_keys u.items ci hci with ⟨it, hit, hkey⟩
        rw [hkey]
        exact hsfit it hit
      rcases h1 with h1 | ⟨hc2, h1⟩ | ⟨hc3, h1⟩ <;> rw [h1] at he
      · exact absurd he (tokE_ne_tokE3 _ ci.1 uN iN (sepFree_colon _ hcisf)
          (sepFree_pipe _ hsf) (sepFree_pipe uN hu))
      · exact absurd he (tokE2_ne_tokE3 _ ci.1 uN iN (sepFree_pipe _ hsf)
          (sepFree_pipe uN hu) (sepFree_colon _ hcisf) (sepFree_colon iN hi))
      · obtain ⟨hn1, hn2⟩ := tokE3_eq _ ci.1 uN iN (sepFree_pipe _ hsf)
          (sepFree_pipe uN hu) (sepFree_colon _ hcisf) (sepFree_colon iN hi) he
        rcases tokE2_mem_unitTouches u ci hci (by omega) with ⟨tl', htl', he'⟩
        exact occUnit_pos_of_unit pm u hmu tl' htl' _ (by rw [he', hn1, hn2])
  · rw [hei] at he
    exact absurd he (ne_of_data_head (tokI_data it) (tokE3_data uN iN) (by decide))

theorem occ_trait_succ_to_k (pm : Build.PMRow) (hc : Build.cleanPM pm = true)
    (name : String) (hn : Build.sepFree name = true) (k : ℕ) (hk : 2 ≤ k)
    (h : 0 < Build.occTrait pm (Build.tokTk name ((k : ℤ) + 1))) :
    0 < Build.occTrait pm (Build.tokTk name (k : ℤ)) := by
  rcases occTrait_pos_elim pm _ h with ⟨ts, hts, tl, htl, he⟩
  rcases traitTouches_fst ts tl htl with ⟨tr, htr, h1 | ⟨lvl, hlvl2, hlvlT, h1⟩⟩
  · rw [h1] at he
    have hsf := cleanPM_trait pm ts tr hc hts htr
    exact absurd he (tokT_ne_tokTk _ name _ (sepFree_colon _ hsf))
  · rw [h1] at he
    have hsf := cleanPM_trait pm ts tr hc hts htr
    obtain ⟨hn1, hn2⟩ := tokTk_eq _ name _ _ (sepFree_colon _ hsf)
      (sepFree_colon name hn) he
    have hlvl : (lvl : ℤ) = (k : ℤ) + 1 :=
      decStrInt_inj_nonneg _ _ (by omega) (by omega) hn2
    rcases tokTk_mem_traitTouches ts tr htr k hk (by omega) with ⟨tl', htl', he'⟩
    exact occTrait_pos_of_trait pm ts hts tl' htl' _ (by rw [he', hn1])

theorem occ_trait2_to_base (pm : Build.PMRow) (hc : Build.cleanPM pm = true)
    (name : String) (hn : Build.sepFree name = true)
    (h : 0 < Build.occTrait pm (Build.tokTk name (2 : ℤ))) :
    0 < Build.occTrait pm (Build.tokT name) := by
  rcases occTrait_pos_elim pm _ h with ⟨ts, hts, tl, htl, he⟩
  rcases traitTouches_fst ts tl htl with ⟨tr, htr, h1 | ⟨lvl, hlvl2, hlvlT, h1⟩⟩
  · rw [h1] at he
    have hsf := cleanPM_trait pm ts tr hc hts htr
    exact absurd he (tokT_ne_tokTk _ name _ (sepFree_colon _ hsf))
  · rw [h1] at he
    have hsf := cleanPM_trait pm ts tr hc hts htr
    obtain ⟨hn1, _⟩ := tokTk_eq _ name _ _ (sepFree_colon _ hsf)
      (sepFree_colon name hn) he
    rcases tokT_mem_traitTouches ts tr htr with ⟨tl', htl', he'⟩
    exact occTrait_pos_of_trait pm ts hts tl' htl' _ (by rw [he', hn1])

theorem not_occUnit_tokTk (pm : Build.PMRow) (name : String) (k : ℤ) :
    ¬ 0 < Build.occUnit pm (Build.tokTk name k) := by
  intro h
  rcases occUnit_pos_elim pm _ h with ⟨tl, htl, he⟩
  rcases pmTouches_fst pm tl htl with ⟨u, _, hmem⟩ | ⟨it, _, hei⟩
  · rcases unitTouches_fst u tl hmem with h1 | ⟨t, _, _, h1⟩ | ⟨ci, _, h1⟩
    · rw [h1] at he
      exact absurd he (ne_of_data_head (tokU_data _) (tokTk_data name k) (by decide))
    · rw [h1] at he
      exact absurd he (ne_of_data_head (tokUs_data _ t) (tokTk_data name k) (by decide))
    · rcases h1 with h1 | ⟨_, h1⟩ | ⟨_, h1⟩ <;> rw [h1] at he
      · exact absurd he (ne_of_data_head (tokE_data _ _) (tokTk_data name k) (by decide))
      · exact absurd he (ne_of_data_head (tokE2_data _ _) (tokTk_data name k) (by decide))
      · exact absurd he (ne_of_data_head (tokE3_data _ _) (tokTk_data name k) (by decide))
  · rw [hei] at he
    exact absurd he (ne_of_data_head (tokI_data it) (tokTk_data name k) (by decide))

theorem not_occUnit_tokT (pm : Build.PMRow) (name : String) :
    ¬ 0 < Build.occUnit pm (Build.tokT name) := by
  intro h
  rcases occUnit_pos_elim pm _ h with ⟨tl, htl, he⟩
  rcases pmTouches_fst pm tl htl with ⟨u, _, hmem⟩ | ⟨it, _, hei⟩
  · rcases unitTouches_fst u tl hmem with h1 | ⟨t, _, _, h1⟩ | ⟨ci, _, h1⟩
    · rw [h1] at he
      exact absurd he (ne_of_data_head (tokU_data _) (tokT_data name) (by decide))
    · rw [h1] at he
      exact absurd he (ne_of_data_head (tokUs_data _ t) (tokT_data name) (by decide))
    · rcases h1 with h1 | ⟨_, h1⟩ | ⟨_, h1⟩ <;> rw [h1] at he
      · exact absurd he (ne_of_data_head (tokE_data _ _) (tokT_data name) (by decide))
      · exact absurd he (ne_of_data_head (tokE2_data _ _) (tokT_data name) (by decide))
      · exact absurd he (ne_of_data_head (tokE3_data _ _) (tokT_data name) (by decide))
  · rw [hei] at he
    exact absurd he (ne_of_data_head (tokI_data it) (tokT_data name) (by decide))

theorem not_occTrait_tokUs (pm : Build.PMRow) (X : String) (k : ℤ) :
    ¬ 0 < Build.occTrait pm (Build.tokUs X k) := by
  intro h
  rcases occTrait_pos_elim pm _ h with ⟨ts, _, tl, htl, he⟩
  rcases traitTouches_fst ts tl htl with ⟨tr, _, h1 | ⟨lvl, _, _, h1⟩⟩ <;> rw [h1] at he
  · exact absurd he (ne_of_data_head (tokT_data _) (tokUs_data X k) (by decide))
  · exact absurd he (ne_of_data_head (tokTk_data _ _) (tokUs_data X k) (by decide))

theorem not_occTrait_tokE2 (pm : Build.PMRow) (uN iN : String) :
    ¬ 0 < Build.occTrait pm (Build.tokE2 uN iN) := by
  intro h
  rcases occTrait_pos_elim pm _ h with ⟨ts, _, tl, htl, he⟩
  rcases traitTouches_fst ts tl htl with ⟨tr, _, h1 | ⟨lvl, _, _, h1⟩⟩ <;> rw [h1] at he
  · exact absurd he (ne_of_data_head (tokT_data _) (tokE2_data uN iN) (by decide))
  · exact absurd he (ne_of_data_head (tokTk_data _ _) (tokE2_data uN iN) (by decide))

theorem not_occTrait_tokE3 (pm : Build.PMRow) (uN iN : String) :
    ¬ 0 < Build.occTrait pm (Build.tokE3 uN iN) := by
  intro h
  rcases occTrait_pos_elim pm _ h with ⟨ts, _, tl, htl, he⟩
  rcases traitTouches_fst ts tl htl with ⟨tr, _, h1 | ⟨lvl, _, _, h1⟩⟩ <;> rw [h1] at he
  · exact absurd he (ne_of_data_head (tokT_data _) (tokE3_data uN iN) (by decide))
  · exact absurd he (ne_of_data_head (tokTk_data _ _) (tokE3_data uN iN) (by decide))

/-! ### Stored bitmaps of the built index -/
theorem mem_mkStats (pl : List ℤ) (ids : List ℕ) (x : ℕ) :
    x ∈ (Build.mkStats pl ids).bitmap ↔ x ∈ ids := by
  show x ∈ insertionSort (fun a b => decide (a ≤ b)) ids.dedup ↔ _
  rw [mem_insertionSort, List.mem_dedup]

theorem mem_membersOf_build (pms : List Build.PMRow) (t : String) (x : ℕ) :
    x ∈ Build.membersOf (Build.build_from_db pms) t ↔
      x ∈ Build.idsOf (Build.buildAcc pms).tok t := by
  by_cases hm : t ∈ (Build.buildAcc pms).tok.id_to_token
  · unfold Build.membersOf
    rw [build_stats_of_mem pms t hm]
    exact mem_mkStats _ _ x
  · unfold Build.membersOf
    rw [build_stats_of_not_mem pms t hm,
      idsOf_eq_of_none _ t ((idx_none_iff t _).mpr hm)]

theorem mem_membersOf_occ (pms : List Build.PMRow) (t : String) (x : ℕ) :
    x ∈ Build.membersOf (Build.build_from_db pms) t ↔
      ∃ pm ∈ pms, x = pm.pm_id ∧
        (0 < Build.occUnit pm t ∨ 0 < Build.occTrait pm t) := by
  rw [mem_membersOf_build, mem_idsOf_buildAcc]

/-- C3 (counterexample): the claim's unit-star chain
`bitmap(U:X:k+1) ⊆ bitmap(U:X:k)` fails on a built index: a board with
a three-star Ashe is in `bitmap(U:Ashe:3)` but `bitmap(U:Ashe:2)` is
empty (the build emits a star token only for the unit's exact star
level, engine.py lines 518–529). -/
theorem C3_token_implication_counterexample :
    1 ∈ Build.membersOf (Build.build_from_db C3pms) (Build.tokUs "Ashe" 3) ∧
    1 ∉ Build.membersOf (Build.build_from_db C3pms) (Build.tokUs "Ashe" 2) := by
  decide

/-- C3 (amended): in every built index whose cleaned unit, item and
trait names are free of the separators `:` and `|`, the stored bitmaps
satisfy `bitmap(U:X:k) ⊆ bitmap(U:X)` (any star level implies unit
presence — the exact-level chain of the original claim is refuted
separately), `bitmap(E:U|I:3) ⊆ bitmap(E:U|I:2) ⊆ bitmap(E:U|I)`, and
`bitmap(T:X:k+1) ⊆ bitmap(T:X:k)` for `k ≥ 2` with
`bitmap(T:X:2) ⊆ bitmap(T:X)`. -/
theorem C3_token_implication_amended (pms : List Build.PMRow)
    (hclean : pms.all Build.cleanPM = true) :
    (∀ X : String, Build.sepFree X = true → ∀ k : ℤ,
      Build.membersOf (Build.build_from_db pms) (Build.tokUs X k) ⊆
        Build.membersOf (Build.build_from_db pms) (Build.tokU X)) ∧
    (∀ uN iN : String, Build.sepFree uN = true → Build.sepFree iN = true →
      Build.membersOf (Build.build_from_db pms) (Build.tokE3 uN iN) ⊆
        Build.membersOf (Build.build_from_db pms) (Build.tokE2 uN iN) ∧
      Build.membersOf (Build.build_from_db pms) (Build.tokE2 uN iN) ⊆
        Build.membersOf (Build.build_from_db pms) (Build.tokE uN iN)) ∧
    (∀ name : String, Build.sepFree name = true →
      (∀ k : ℕ, 2 ≤ k →
        Build.membersOf (Build.build_from_db pms)
            (Build.tokTk name ((k : ℤ) + 1)) ⊆
          Build.membersOf (Build.build_from_db pms)
            (Build.tokTk name (k : ℤ))) ∧
      Build.membersOf (Build.build_from_db pms) (Build.tokTk name (2 : ℤ)) ⊆
        Build.membersOf (Build.build_from_db pms) (Build.tokT name)) := by
  refine ⟨?_, ?_, ?_⟩
  · intro X hX k x hx
    rw [mem_membersOf_occ] at hx ⊢
    rcases hx with ⟨pm, hpm, hid, hocc⟩
    have hc := List.all_eq_true.mp hclean pm hpm
    refine ⟨pm, hpm, hid, Or.inl ?_⟩
    rcases hocc with h1 | h1
    · exact occ_star_to_base pm hc X hX k h1
    · exact absurd h1 (not_occTrait_tokUs pm X k)
  · intro uN iN hu hi
    constructor
    · intro x hx
      rw [mem_membersOf_occ] at hx ⊢
      rcases hx with ⟨pm, hpm, hid, hocc⟩
      have hc := List.all_eq_true.mp hclean pm hpm
      refine ⟨pm, hpm, hid, Or.inl ?_⟩
      rcases hocc with h1 | h1
      · exact occ_e3_to_e2 pm hc uN iN hu hi h1
      · exact absurd h1 (not_occTrait_tokE3 pm uN iN)
    · intro x hx
      rw [mem_membersOf_occ] at hx ⊢
      rcases hx with ⟨pm, hpm, hid, hocc⟩
      have hc := List.all_eq_true.mp hclean pm hpm
      refine ⟨pm, hpm, hid, Or.inl ?_⟩
      rcases hocc with h1 | h1
      · exact occ_e2_to_e pm hc uN iN hu hi h1
      · exact absurd h1 (not_occTrait_tokE2 pm uN iN)
  · intro name hn
    constructor
    · intro k hk x hx
      rw [mem_membersOf_occ] at hx ⊢
      rcases hx with ⟨pm, hpm, hid, hocc⟩
      have hc := List.all_eq_true.mp hclean pm hpm
      refine ⟨pm, hpm, hid, Or.inr ?_⟩
      rcases hocc with h1 | h1
      · exact absurd h1 (not_occUnit_tokTk pm name _)
      · exact occ_trait_succ_to_k pm hc name hn k hk h1
    · intro x hx
      rw [mem_membersOf_occ] at hx ⊢
      rcases hx with ⟨pm, hpm, hid, hocc⟩
      have hc := List.all_eq_true.mp hclean pm hpm
      refine ⟨pm, hpm, hid, Or.inr ?_⟩
      rcases hocc with h1 | h1
      · exact absurd h1 (not_occUnit_tokTk pm name _)
      · exact occ_trait2_to_base pm hc name hn h1

/-- C3 (witness): on the concrete one-board index the amended chains
apply — the three-star Ashe board is in `bitmap(U:Ashe:3)` and
therefore in `bitmap(U:Ashe)`. -/
theorem C3_token_implication_amended_witness :
    C3pms.all Build.cleanPM = true ∧
    Build.sepFree "Ashe" = true ∧
    1 ∈ Build.membersOf (Build.build_from_db C3pms) (Build.tokU "Ashe") :=
  ⟨by decide, by decide,
    (C3_token_implication_amended C3pms (by decide)).1 "Ashe" (by decide) 3
      (by decide)⟩

/-! ### C7: average-placement consistency -/
theorem idsOf_ne_nil (pms : List Build.PMRow) (t : String)
    (hm : t ∈ (Build.buildAcc pms).tok.id_to_token) :
    Build.idsOf (Build.buildAcc pms).tok t ≠ [] := by
  cases hw : List.indexOf? t (Build.buildAcc pms).tok.id_to_token with
  | none => exact absurd hm ((idx_none_iff t _).mp hw)
  | some i =>
    rw [idsOf_eq_of_some _ t i hw]
    have hi : i < (Build.buildAcc pms).tok.acc_ids.length := by
      rw [buildAcc_wf pms]
      exact idx_lt t _ i hw
    rw [List.getD_eq_getElem _ _ hi]
    exact buildAcc_ne pms _ (List.getElem_mem hi)

theorem mul_length_le_sum (l : List ℚ) (b : ℚ) (h : ∀ x ∈ l, b ≤ x) :
    (l.length : ℚ) * b ≤ l.sum := by
  induction l with
  | nil => simp
  | cons x xs ih =>
    have h1 := h x (List.mem_cons_self x xs)
    have h2 := ih (fun y hy => h y (List.mem_cons_of_mem x hy))
    simp only [List.length_cons, List.sum_cons]
    push_cast
    nlinarith

theorem sum_le_mul_length (l : List ℚ) (b : ℚ) (h : ∀ x ∈ l, x ≤ b) :
    l.sum ≤ (l.length : ℚ) * b := by
  induction l with
  | nil => simp
  | cons x xs ih =>
    have h1 := h x (List.mem_cons_self x xs)
    have h2 := ih (fun y hy => h y (List.mem_cons_of_mem x hy))
    simp only [List.length_cons, List.sum_cons]
    push_cast
    nlinarith

theorem intCast_list_sum (l : List ℤ) :
    ((l.sum : ℤ) : ℚ) = (l.map (fun v : ℤ => (v : ℚ))).sum := by
  induction l with
  | nil => simp
  | cons x xs ih => simp [ih]

/-- C7: `avg_placement_for_bitmap` of the empty bitmap is 4.5; on a
nonempty bitmap it is the mean of `placements[id]` over it and lies in
[1, 8] whenever every member's placement does; and every token the
build stores satisfies `count = |bitmap| > 0`, a `placement_sum`
recomputed over the de-duplicated ids, and
`avg_placement = placement_sum / count`, which equals the bitmap's
mean. -/
theorem C7_avg_placement_consistency :
    (∀ E : Engine.EngineState, Engine.avg_placement_for_bitmap E [] = 9 / 2) ∧
    (∀ (E : Engine.EngineState) (B : List ℕ), B ≠ [] →
      Engine.avg_placement_for_bitmap E B =
        (B.map (fun i => ((E.placements.getD i 0 : ℤ) : ℚ))).sum /
          (B.length : ℚ) ∧
      ((∀ i ∈ B, 1 ≤ E.placements.getD i 0 ∧ E.placements.getD i 0 ≤ 8) →
        1 ≤ Engine.avg_placement_for_bitmap E B ∧
        Engine.avg_placement_for_bitmap E B ≤ 8)) ∧
    (∀ (pms : List Build.PMRow) (t : String) (s : Engine.TokenStats),
      Engine.get_token_stats (Build.build_from_db pms) t = some s →
      0 < s.count ∧
      s.count = (s.bitmap.length : ℤ) ∧
      s.placement_sum =
        (s.bitmap.map
          (fun i => (Build.build_from_db pms).placements.getD i 0)).sum ∧
      Engine.TokenStats.avg_placement s = s.placement_sum / s.count ∧
      Engine.TokenStats.avg_placement s =
        Engine.avg_placement_for_bitmap (Build.build_from_db pms) s.bitmap) := by
  refine ⟨fun E => rfl, ?_, ?_⟩
  · intro E B hB
    have hne : B.isEmpty = false := by
      cases B with
      | nil => exact absurd rfl hB
      | cons x xs => rfl
    have havg : Engine.avg_placement_for_bitmap E B =
        (B.map (fun i => ((E.placements.getD i 0 : ℤ) : ℚ))).sum /
          (B.length : ℚ) := by
      unfold Engine.avg_placement_for_bitmap
      rw [hne]
      rfl
    refine ⟨havg, ?_⟩
    intro hbound
    have hlen : (0 : ℚ) < (B.length : ℚ) := by
      have : 0 < B.length := List.length_pos.mpr hB
      exact_mod_cast this
    have hlo : ∀ x ∈ B.map (fun i => ((E.placements.getD i 0 : ℤ) : ℚ)),
        (1 : ℚ) ≤ x := by
      intro x hx
      rcases List.mem_map.mp hx with ⟨i, hi, he⟩
      rw [← he]
      exact_mod_cast (hbound i hi).1
    have hhi : ∀ x ∈ B.map (fun i => ((E.placements.getD i 0 : ℤ) : ℚ)),
        x ≤ (8 : ℚ) := by
      intro x hx
      rcases List.mem_map.mp hx with ⟨i, hi, he⟩
      rw [← he]
      exact_mod_cast (hbound i hi).2
    have h1 := mul_length_le_sum _ 1 hlo
    have h2 := sum_le_mul_length _ 8 hhi
    rw [List.length_map] at h1 h2
    constructor
    · rw [havg, le_div_iff hlen]
      linarith
    · rw [havg, div_le_iff hlen]
      linarith
  · intro pms t s hs
    by_cases hm : t ∈ (Build.buildAcc pms).tok.id_to_token
    · rw [build_stats_of_mem pms t hm] at hs
      have hseq : s = Build.mkStats (Build.buildAcc pms).placements
          (Build.idsOf (Build.buildAcc pms).tok t) := by
        injection hs.symm
      subst hseq
      have hpl : (Build.build_from_db pms).placements =
          (Build.buildAcc pms).placements := rfl
      have hbne : (Build.mkStats (Build.buildAcc pms).placements
          (Build.idsOf (Build.buildAcc pms).tok t)).bitmap ≠ [] := by
        show insertionSort _ (Build.idsOf (Build.buildAcc pms).tok t).dedup ≠ []
        intro hnil
        have hlen := congrArg List.length hnil
        rw [length_insertionSort] at hlen
        have : (Build.idsOf (Build.buildAcc pms).tok t).dedup = [] :=
          List.length_eq_zero.mp hlen
        exact idsOf_ne_nil pms t hm ((List.dedup_eq_nil _).mp this)
      have hcount : (Build.mkStats (Build.buildAcc pms).placements
            (Build.idsOf (Build.buildAcc pms).tok t)).count =
          (((Build.mkStats (Build.buildAcc pms).placements
            (Build.idsOf (Build.buildAcc pms).tok t)).bitmap.length : ℕ) : ℤ) := rfl
      have hpos : 0 < (Build.mkStats (Build.buildAcc pms).placements
          (Build.idsOf (Build.buildAcc pms).tok t)).count := by
        rw [hcount]
        have : 0 < (Build.mkStats (Build.buildAcc pms).placements
            (Build.idsOf (Build.buildAcc pms).tok t)).bitmap.length :=
          List.length_pos.mpr hbne
        exact_mod_cast this
      refine ⟨hpos, hcount, by rw [hpl]; rfl, ?_, ?_⟩
      · unfold Engine.TokenStats.avg_placement
        rw [if_pos hpos]
      · unfold Engine.TokenStats.avg_placement
        rw [if_pos hpos]
        have hne2 : (Build.mkStats (Build.buildAcc pms).placements
            (Build.idsOf (Build.buildAcc pms).tok t)).bitmap.isEmpty = false := by
          cases hb : (Build.mkStats (Build.buildAcc pms).placements
              (Build.idsOf (Build.buildAcc pms).tok t)).bitmap with
          | nil => exact absurd hb hbne
          | cons x xs => rfl
        unfold Engine.avg_placement_for_bitmap
        rw [hne2]
        simp only [Bool.false_eq_true, if_false]
        rw [hpl]
        have hsum : ((Build.mkStats (Build.buildAcc pms).placements
            (Build.idsOf (Build.buildAcc pms).tok t)).placement_sum : ℚ) =
            ((Build.mkStats (Build.buildAcc pms).placements
              (Build.idsOf (Build.buildAcc pms).tok t)).bitmap.map
              (fun i => (((Build.buildAcc pms).placements.getD i 0 : ℤ) : ℚ))).sum := by
          show ((((Build.mkStats (Build.buildAcc pms).placements
            (Build.idsOf (Build.buildAcc pms).tok t)).bitmap.map
              (fun i => (Build.buildAcc pms).placements.getD i 0)).sum : ℤ) : ℚ) = _
          rw [intCast_list_sum, List.map_map]
          rfl
        rw [hsum, hcount]
        push_cast
        rfl
    · rw [build_stats_of_not_mem pms t hm] at hs
      cases hs

/-- C7 (witness): the stored `U:Jinx` stats of the concrete index have
a positive count and an average equal to the bitmap's placement mean,
and that mean lies in [1, 8]. -/
theorem C7_avg_placement_consistency_witness :
    Engine.get_token_stats (Build.build_from_db C7pms) (Build.tokU "Jinx") =
      some C7stats ∧
    (1 ≤ Engine.avg_placement_for_bitmap (Build.build_from_db C7pms) [2] ∧
      Engine.avg_placement_for_bitmap (Build.build_from_db C7pms) [2] ≤ 8) ∧
    0 < C7stats.count ∧
    Engine.TokenStats.avg_placement C7stats =
      Engine.avg_placement_for_bitmap (Build.build_from_db C7pms)
        C7stats.bitmap := by
  have hsome : Engine.get_token_stats (Build.build_from_db C7pms)
      (Build.tokU "Jinx") = some C7stats := by decide
  have h3 := C7_avg_placement_consistency.2.2 C7pms (Build.tokU "Jinx")
    C7stats hsome
  refine ⟨hsome, ?_, h3.1, h3.2.2.2.2⟩
  exact (C7_avg_placement_consistency.2.1 (Build.build_from_db C7pms) [2]
    (by decide)).2 (by decide)

theorem clusterLE_trans (a b c : Clustering.ClusterRow)
    (hab : Clustering.clusterLE a b = true)
    (hbc : Clustering.clusterLE b c = true) :
    Clustering.clusterLE a c = true := by
  have h1 := of_decide_eq_true hab
  have h2 := of_decide_eq_true hbc
  apply decide_eq_true
  rcases h1 with h1 | ⟨he1, hs1⟩ <;> rcases h2 with h2 | ⟨he2, hs2⟩
  · exact Or.inl (lt_trans h1 h2)
  · exact Or.inl (he2 ▸ h1)
  · exact Or.inl (he1 ▸ h2)
  · exact Or.inr ⟨he1.trans he2, le_trans hs2 hs1⟩

theorem clusterLE_total (a b : Clustering.ClusterRow) :
    Clustering.clusterLE a b = true ∨ Clustering.clusterLE b a = true := by
  rcases lt_trichotomy a.avg_placement b.avg_placement with h | h | h
  · exact Or.inl (decide_eq_true (Or.inl h))
  · rcases Nat.le_total b.size a.size with hs | hs
    · exact Or.inl (decide_eq_true (Or.inr ⟨h, hs⟩))
    · exact Or.inr (decide_eq_true (Or.inr ⟨h.symm, hs⟩))
  · exact Or.inr (decide_eq_true (Or.inl h))

theorem countP_lt_succ (l : List ℕ) (n : ℕ) :
    l.countP (fun x => decide (x < n + 1)) =
      l.countP (fun x => decide (x < n)) +
      l.countP (fun x => decide (x = n)) := by
  induction l with
  | nil => rfl
  | cons x xs ih =>
    simp only [List.countP_cons, ih]
    by_cases h1 : x < n + 1 <;> by_cases h2 : x < n <;> by_cases h3 : x = n <;>
      simp [h1, h2, h3] <;> omega

theorem sum_range_clusterSize (labels : List ℕ) (n : ℕ) :
    ((List.range n).map (fun c => Clustering.clusterSize labels c)).sum =
      labels.countP (fun x => decide (x < n)) := by
  induction n with
  | zero =>
    rw [List.range_zero, List.map_nil, List.sum_nil]
    symm
    rw [List.countP_eq_zero]
    intro x _
    simp
  | succ n ih =>
    rw [List.range_succ, List.map_append, List.sum_append, ih, countP_lt_succ]
    simp [Clustering.clusterSize]

theorem keepCluster_size_sum (labels : List ℕ) (plc : List ℤ)
    (min_cluster_size : ℕ) (L : List ℕ) :
    ((L.filterMap (Clustering.keepCluster labels plc min_cluster_size)).map
      (fun r => r.size)).sum ≤
    (L.map (fun c => Clustering.clusterSize labels c)).sum := by
  induction L with
  | nil => simp
  | cons c cs ih =>
    rw [List.map_cons, List.sum_cons, List.filterMap_cons]
    by_cases hlt : Clustering.clusterSize labels c < min_cluster_size
    · have hk : Clustering.keepCluster labels plc min_cluster_size c = none := by
        unfold Clustering.keepCluster
        rw [if_pos hlt]
      rw [hk]
      show ((cs.filterMap (Clustering.keepCluster labels plc
        min_cluster_size)).map (fun r => r.size)).sum ≤ _
      omega
    · have hk : Clustering.keepCluster labels plc min_cluster_size c =
          some (Clustering.mkClusterRow labels plc c) := by
        unfold Clustering.keepCluster
        rw [if_neg hlt]
      rw [hk]
      show ((Clustering.mkClusterRow labels plc c ::
        cs.filterMap (Clustering.keepCluster labels plc
          min_cluster_size)).map (fun r => r.size)).sum ≤ _
      rw [List.map_cons, List.sum_cons]
      have hsz : (Clustering.mkClusterRow labels plc c).size =
          Clustering.clusterSize labels c := rfl
      rw [hsz]
      omega

/-- C9: after the KMeans fit, every cluster the loop keeps has
`size ≥ min_cluster_size`, the kept sizes sum to at most the number of
base rows (skipped clusters' rows are simply omitted), and the returned
list is sorted by `(avg_placement ascending, size descending)`. -/
theorem C9_cluster_invariants (labels : List ℕ) (plc : List ℤ)
    (n_clusters min_cluster_size : ℕ) :
    (∀ r ∈ Clustering.compute_clusters_core labels plc n_clusters
      min_cluster_size, min_cluster_size ≤ r.size) ∧
    ((Clustering.compute_clusters_core labels plc n_clusters
      min_cluster_size).map (fun r => r.size)).sum ≤ labels.length ∧
    (Clustering.compute_clusters_core labels plc n_clusters
      min_cluster_size).Pairwise (fun a b =>
        a.avg_placement < b.avg_placement ∨
        (a.avg_placement = b.avg_placement ∧ b.size ≤ a.size)) := by
  refine ⟨?_, ?_, ?_⟩
  · intro r hr
    rw [Clustering.compute_clusters_core, mem_insertionSort] at hr
    rcases List.mem_filterMap.mp hr with ⟨c, _, heq⟩
    unfold Clustering.keepCluster at heq
    by_cases hlt : Clustering.clusterSize labels c < min_cluster_size
    · rw [if_pos hlt] at heq
      cases heq
    · rw [if_neg hlt] at heq
      have := Option.some.inj heq
      rw [← this]
      show min_cluster_size ≤ Clustering.clusterSize labels c
      omega
  · rw [Clustering.compute_clusters_core]
    have hperm := (perm_insertionSort Clustering.clusterLE
      ((List.range n_clusters).filterMap
        (Clustering.keepCluster labels plc min_cluster_size))).map
      (fun r : Clustering.ClusterRow => r.size)
    rw [hperm.sum_eq]
    calc (((List.range n_clusters).filterMap
          (Clustering.keepCluster labels plc min_cluster_size)).map
          (fun r => r.size)).sum
        ≤ ((List.range n_clusters).map
            (fun c => Clustering.clusterSize labels c)).sum :=
          keepCluster_size_sum labels plc min_cluster_size (List.range n_clusters)
      _ = labels.countP (fun x => decide (x < n_clusters)) :=
          sum_range_clusterSize labels n_clusters
      _ ≤ labels.length := List.countP_le_length _
  · rw [Clustering.compute_clusters_core]
    have hp := pairwise_insertionSort Clustering.clusterLE clusterLE_trans
      clusterLE_total ((List.range n_clusters).filterMap
        (Clustering.keepCluster labels plc min_cluster_size))
    exact hp.imp (fun h => of_decide_eq_true h)

/-! ### Codec primitive round-trip lemmas -/
theorem rdU16_spec (v : ℕ) (rest : List ℕ) (h : v < 2 ^ 16) :
    Codec.rdU16 (Codec.u16le v ++ rest) = some (v, rest) := by
  show some (v % 256 + 2 ^ 8 * (v / 256 % 256), rest) = some (v, rest)
  have : v % 256 + 2 ^ 8 * (v / 256 % 256) = v := by omega
  rw [this]

theorem rdU32_spec (v : ℕ) (rest : List ℕ) (h : v < 2 ^ 32) :
    Codec.rdU32 (Codec.u32le v ++ rest) = some (v, rest) := by
  show some (v % 256 + 2 ^ 8 * (v / 2 ^ 8 % 256) + 2 ^ 16 * (v / 2 ^ 16 % 256) +
    2 ^ 24 * (v / 2 ^ 24 % 256), rest) = some (v, rest)
  have : v % 256 + 2 ^ 8 * (v / 2 ^ 8 % 256) + 2 ^ 16 * (v / 2 ^ 16 % 256) +
      2 ^ 24 * (v / 2 ^ 24 % 256) = v := by omega
  rw [this]

theorem rdU64_spec (v : ℕ) (rest : List ℕ) (h : v < 2 ^ 64) :
    Codec.rdU64 (Codec.u64le v ++ rest) = some (v, rest) := by
  show some (v % 256 + 2 ^ 8 * (v / 2 ^ 8 % 256) + 2 ^ 16 * (v / 2 ^ 16 % 256) +
    2 ^ 24 * (v / 2 ^ 24 % 256) + 2 ^ 32 * (v / 2 ^ 32 % 256) +
    2 ^ 40 * (v / 2 ^ 40 % 256) + 2 ^ 48 * (v / 2 ^ 48 % 256) +
    2 ^ 56 * (v / 2 ^ 56 % 256), rest) = some (v, rest)
  have : v % 256 + 2 ^ 8 * (v / 2 ^ 8 % 256) + 2 ^ 16 * (v / 2 ^ 16 % 256) +
      2 ^ 24 * (v / 2 ^ 24 % 256) + 2 ^ 32 * (v / 2 ^ 32 % 256) +
      2 ^ 40 * (v / 2 ^ 40 % 256) + 2 ^ 48 * (v / 2 ^ 48 % 256) +
      2 ^ 56 * (v / 2 ^ 56 % 256) = v := by omega
  rw [this]

theorem rdI8_spec (v : ℤ) (rest : List ℕ) (h1 : -128 ≤ v) (h2 : v < 128) :
    Codec.rdI8 (Codec.i8b v ++ rest) = some (v, rest) := by
  show some (Codec.asI 8 (v % 256).toNat, rest) = some (v, rest)
  unfold Codec.asI
  by_cases hc : (v % 256).toNat < 2 ^ 7
  · rw [if_pos hc]
    have : ((v % 256).toNat : ℤ) = v := by omega
    rw [this]
  · rw [if_neg hc]
    have : ((v % 256).toNat : ℤ) - 2 ^ 8 = v := by omega
    rw [this]

theorem rdI16_spec (v : ℤ) (rest : List ℕ) (h1 : -(2 ^ 15) ≤ v)
    (h2 : v < 2 ^ 15) :
    Codec.rdI16 (Codec.i16le v ++ rest) = some (v, rest) := by
  unfold Codec.rdI16 Codec.i16le
  have hu := rdU16_spec (v % 2 ^ 16).toNat rest (by omega)
  rw [hu, Option.map_some']
  show some (Codec.asI 16 (v % 2 ^ 16).toNat, rest) = some (v, rest)
  unfold Codec.asI
  by_cases hc : (v % 2 ^ 16).toNat < 2 ^ 15
  · rw [if_pos hc]
    have : ((v % 2 ^ 16).toNat : ℤ) = v := by omega
    rw [this]
  · rw [if_neg hc]
    have : ((v % 2 ^ 16).toNat : ℤ) - 2 ^ 16 = v := by omega
    rw [this]

theorem rdI32_spec (v : ℤ) (rest : List ℕ) (h1 : -(2 ^ 31) ≤ v)
    (h2 : v < 2 ^ 31) :
    Codec.rdI32 (Codec.i32le v ++ rest) = some (v, rest) := by
  unfold Codec.rdI32 Codec.i32le
  have hu := rdU32_spec (v % 2 ^ 32).toNat rest (by omega)
  rw [hu, Option.map_some']
  show some (Codec.asI 32 (v % 2 ^ 32).toNat, rest) = some (v, rest)
  unfold Codec.asI
  by_cases hc : (v % 2 ^ 32).toNat < 2 ^ 31
  · rw [if_pos hc]
    have : ((v % 2 ^ 32).toNat : ℤ) = v := by omega
    rw [this]
  · rw [if_neg hc]
    have : ((v % 2 ^ 32).toNat : ℤ) - 2 ^ 32 = v := by omega
    rw [this]

theorem rdI64_spec (v : ℤ) (rest : List ℕ) (h1 : -(2 ^ 63) ≤ v)
    (h2 : v < 2 ^ 63) :
    Codec.rdI64 (Codec.i64le v ++ rest) = some (v, rest) := by
  unfold Codec.rdI64 Codec.i64le
  have hu := rdU64_spec (v % 2 ^ 64).toNat rest (by omega)
  rw [hu, Option.map_some']
  show some (Codec.asI 64 (v % 2 ^ 64).toNat, rest) = some (v, rest)
  unfold Codec.asI
  by_cases hc : (v % 2 ^ 64).toNat < 2 ^ 63
  · rw [if_pos hc]
    have : ((v % 2 ^ 64).toNat : ℤ) = v := by omega
    rw [this]
  · rw [if_neg hc]
    have : ((v % 2 ^ 64).toNat : ℤ) - 2 ^ 64 = v := by omega
    rw [this]

theorem rdU8_spec (v : ℕ) (rest : List ℕ) (h : v < 256) :
    Codec.rdU8 ((fun v => [v % 256]) v ++ rest) = some (v, rest) := by
  show some (v % 256, rest) = some (v, rest)
  have : v % 256 = v := by omega
  rw [this]

theorem rdLoop_spec (rd : List ℕ → Option (α × List ℕ)) (enc : α → List ℕ)
    (P : α → Prop)
    (hspec : ∀ x rest, P x → rd (enc x ++ rest) = some (x, rest)) :
    ∀ (xs : List α) (rest : List ℕ), (∀ x ∈ xs, P x) →
      Codec.rdLoop rd xs.length (xs.flatMap enc ++ rest) = some (xs, rest) := by
  intro xs
  induction xs with
  | nil =>
    intro rest _
    rfl
  | cons x xs ih =>
    intro rest hP
    rw [List.flatMap_cons, List.append_assoc]
    show Codec.rdLoop rd (xs.length + 1) (enc x ++ (xs.flatMap enc ++ rest)) = _
    have h1 := hspec x (xs.flatMap enc ++ rest) (hP x (List.mem_cons_self x xs))
    have h2 := ih rest (fun y hy => hP y (List.mem_cons_of_mem x hy))
    simp only [Codec.rdLoop, h1, h2]

theorem charOfNat_toNat (c : Char) : Char.ofNat c.toNat = c :=
  char_eq_of_toNat_eq (toNat_charOfNat c.toNat c.valid)

theorem utf8Dec_step (c : Char) (rest : List ℕ) (f : ℕ) :
    Codec.utf8Dec (f + 1) (Codec.utf8Char c ++ rest) =
      (Codec.utf8Dec f rest).map (fun cs => c :: cs) := by
  have hv : Nat.isValidChar c.toNat := c.valid
  by_cases h1 : c.toNat < 0x80
  · have hb : Codec.utf8Char c = [c.toNat] := by
      unfold Codec.utf8Char
      rw [if_pos h1]
    rw [hb, List.cons_append, List.nil_append]
    show Codec.utf8Dec (f + 1) (c.toNat :: rest) = _
    conv_lhs => unfold Codec.utf8Dec
    rw [if_pos h1, charOfNat_toNat c]
  · by_cases h2 : c.toNat < 0x800
    · have hb : Codec.utf8Char c = [0xC0 + c.toNat / 64, 0x80 + c.toNat % 64] := by
        unfold Codec.utf8Char
        rw [if_neg h1, if_pos h2]
      rw [hb]
      show Codec.utf8Dec (f + 1)
        ((0xC0 + c.toNat / 64) :: (0x80 + c.toNat % 64) :: rest) = _
      conv_lhs => unfold Codec.utf8Dec
      rw [if_neg (show ¬ (0xC0 + c.toNat / 64 < 0x80) by omega),
        if_neg (show ¬ (0xC0 + c.toNat / 64 < 0xC0) by omega),
        if_pos (show 0xC0 + c.toNat / 64 < 0xE0 by omega)]
      show (if 0x80 ≤ 0x80 + c.toNat % 64 ∧ 0x80 + c.toNat % 64 < 0xC0 then
          let n := (0xC0 + c.toNat / 64 - 0xC0) * 64 + (0x80 + c.toNat % 64 - 0x80)
          if 0x80 ≤ n then (Codec.utf8Dec f rest).map (fun cs => Char.ofNat n :: cs)
          else none
        else none) = _
      rw [if_pos (show 0x80 ≤ 0x80 + c.toNat % 64 ∧ 0x80 + c.toNat % 64 < 0xC0 by
        constructor <;> omega)]
      show (if 0x80 ≤ (0xC0 + c.toNat / 64 - 0xC0) * 64 +
          (0x80 + c.toNat % 64 - 0x80) then
          (Codec.utf8Dec f rest).map (fun cs => Char.ofNat
            ((0xC0 + c.toNat / 64 - 0xC0) * 64 + (0x80 + c.toNat % 64 - 0x80)) :: cs)
        else none) = _
      rw [if_pos (show (0x80 : ℕ) ≤ (0xC0 + c.toNat / 64 - 0xC0) * 64 +
        (0x80 + c.toNat % 64 - 0x80) by omega)]
      have hn : (0xC0 + c.toNat / 64 - 0xC0) * 64 + (0x80 + c.toNat % 64 - 0x80) =
          c.toNat := by omega
      rw [hn, charOfNat_toNat c]
    · by_cases h3 : c.toNat < 0x10000
      · have hb : Codec.utf8Char c = [0xE0 + c.toNat / 4096, 0x80 + c.toNat / 64 % 64,
            0x80 + c.toNat % 64] := by
          unfold Codec.utf8Char
          rw [if_neg h1, if_neg h2, if_pos h3]
        rw [hb]
        show Codec.utf8Dec (f + 1) ((0xE0 + c.toNat / 4096) ::
          (0x80 + c.toNat / 64 % 64) :: (0x80 + c.toNat % 64) :: rest) = _
        conv_lhs => unfold Codec.utf8Dec
        rw [if_neg (show ¬ (0xE0 + c.toNat / 4096 < 0x80) by omega),
          if_neg (show ¬ (0xE0 + c.toNat / 4096 < 0xC0) by omega),
          if_neg (show ¬ (0xE0 + c.toNat / 4096 < 0xE0) by omega),
          if_pos (show 0xE0 + c.toNat / 4096 < 0xF0 by omega)]
        show (if 0x80 ≤ 0x80 + c.toNat / 64 % 64 ∧ 0x80 + c.toNat / 64 % 64 < 0xC0 ∧
            0x80 ≤ 0x80 + c.toNat % 64 ∧ 0x80 + c.toNat % 64 < 0xC0 then
            let n := (0xE0 + c.toNat / 4096 - 0xE0) * 4096 +
              (0x80 + c.toNat / 64 % 64 - 0x80) * 64 + (0x80 + c.toNat % 64 - 0x80)
            if 0x800 ≤ n ∧ ¬ (0xD800 ≤ n ∧ n < 0xE000) then
              (Codec.utf8Dec f rest).map (fun cs => Char.ofNat n :: cs)
            else none
          else none) = _
        rw [if_pos (show 0x80 ≤ 0x80 + c.toNat / 64 % 64 ∧
            0x80 + c.toNat / 64 % 64 < 0xC0 ∧ 0x80 ≤ 0x80 + c.toNat % 64 ∧
            0x80 + c.toNat % 64 < 0xC0 by
          refine ⟨by omega, by omega, by omega, by omega⟩)]
        have hn : (0xE0 + c.toNat / 4096 - 0xE0) * 4096 +
            (0x80 + c.toNat / 64 % 64 - 0x80) * 64 +
            (0x80 + c.toNat % 64 - 0x80) = c.toNat := by omega
        show (if 0x800 ≤ (0xE0 + c.toNat / 4096 - 0xE0) * 4096 +
            (0x80 + c.toNat / 64 % 64 - 0x80) * 64 + (0x80 + c.toNat % 64 - 0x80) ∧
            ¬ (0xD800 ≤ (0xE0 + c.toNat / 4096 - 0xE0) * 4096 +
              (0x80 + c.toNat / 64 % 64 - 0x80) * 64 + (0x80 + c.toNat % 64 - 0x80) ∧
              (0xE0 + c.toNat / 4096 - 0xE0) * 4096 +
              (0x80 + c.toNat / 64 % 64 - 0x80) * 64 +
              (0x80 + c.toNat % 64 - 0x80) < 0xE000) then
            (Codec.utf8Dec f rest).map (fun cs => Char.ofNat
              ((0xE0 + c.toNat / 4096 - 0xE0) * 4096 +
               (0x80 + c.toNat / 64 % 64 - 0x80) * 64 +
               (0x80 + c.toNat % 64 - 0x80)) :: cs)
          else none) = _
        rw [hn]
        rw [if_pos (show 0x800 ≤ c.toNat ∧ ¬ (0xD800 ≤ c.toNat ∧ c.toNat < 0xE000) by
          unfold Nat.isValidChar at hv
          exact ⟨by omega, by omega⟩)]
        rw [charOfNat_toNat c]
      · have h4 : c.toNat < 0x110000 := by
          unfold Nat.isValidChar at hv
          omega
        have hb : Codec.utf8Char c = [0xF0 + c.toNat / 0x40000,
            0x80 + c.toNat / 4096 % 64, 0x80 + c.toNat / 64 % 64,
            0x80 + c.toNat % 64] := by
          unfold Codec.utf8Char
          rw [if_neg h1, if_neg h2, if_neg h3]
        rw [hb]
        show Codec.utf8Dec (f + 1) ((0xF0 + c.toNat / 0x40000) ::
          (0x80 + c.toNat / 4096 % 64) :: (0x80 + c.toNat / 64 % 64) ::
          (0x80 + c.toNat % 64) :: rest) = _
        conv_lhs => unfold Codec.utf8Dec
        rw [if_neg (show ¬ (0xF0 + c.toNat / 0x40000 < 0x80) by omega),
          if_neg (show ¬ (0xF0 + c.toNat / 0x40000 < 0xC0) by omega),
          if_neg (show ¬ (0xF0 + c.toNat / 0x40000 < 0xE0) by omega),
          if_neg (show ¬ (0xF0 + c.toNat / 0x40000 < 0xF0) by omega),
          if_pos (show 0xF0 + c.toNat / 0x40000 < 0xF8 by omega)]
        show (if 0x80 ≤ 0x80 + c.toNat / 4096 % 64 ∧
            0x80 + c.toNat / 4096 % 64 < 0xC0 ∧
            0x80 ≤ 0x80 + c.toNat / 64 % 64 ∧ 0x80 + c.toNat / 64 % 64 < 0xC0 ∧
            0x80 ≤ 0x80 + c.toNat % 64 ∧ 0x80 + c.toNat % 64 < 0xC0 then
            let n := (0xF0 + c.toNat / 0x40000 - 0xF0) * 0x40000 +
              (0x80 + c.toNat / 4096 % 64 - 0x80) * 4096 +
              (0x80 + c.toNat / 64 % 64 - 0x80) * 64 + (0x80 + c.toNat % 64 - 0x80)
            if 0x10000 ≤ n ∧ n < 0x110000 then
              (Codec.utf8Dec f rest).map (fun cs => Char.ofNat n :: cs)
            else none
          else none) = _
        rw [if_pos (show 0x80 ≤ 0x80 + c.toNat / 4096 % 64 ∧
            0x80 + c.toNat / 4096 % 64 < 0xC0 ∧
            0x80 ≤ 0x80 + c.toNat / 64 % 64 ∧ 0x80 + c.toNat / 64 % 64 < 0xC0 ∧
            0x80 ≤ 0x80 + c.toNat % 64 ∧ 0x80 + c.toNat % 64 < 0xC0 by
          refine ⟨by omega, by omega, by omega, by omega, by omega, by omega⟩)]
        have hn : (0xF0 + c.toNat / 0x40000 - 0xF0) * 0x40000 +
            (0x80 + c.toNat / 4096 % 64 - 0x80) * 4096 +
            (0x80 + c.toNat / 64 % 64 - 0x80) * 64 +
            (0x80 + c.toNat % 64 - 0x80) = c.toNat := by omega
        show (if 0x10000 ≤ (0xF0 + c.toNat / 0x40000 - 0xF0) * 0x40000 +
            (0x80 + c.toNat / 4096 % 64 - 0x80) * 4096 +
            (0x80 + c.toNat / 64 % 64 - 0x80) * 64 + (0x80 + c.toNat % 64 - 0x80) ∧
            (0xF0 + c.toNat / 0x40000 - 0xF0) * 0x40000 +
            (0x80 + c.toNat / 4096 % 64 - 0x80) * 4096 +
            (0x80 + c.toNat / 64 % 64 - 0x80) * 64 +
            (0x80 + c.toNat % 64 - 0x80) < 0x110000 then
            (Codec.utf8Dec f rest).map (fun cs => Char.ofNat
              ((0xF0 + c.toNat / 0x40000 - 0xF0) * 0x40000 +
               (0x80 + c.toNat / 4096 % 64 - 0x80) * 4096 +
               (0x80 + c.toNat / 64 % 64 - 0x80) * 64 +
               (0x80 + c.toNat % 64 - 0x80)) :: cs)
          else none) = _
        rw [hn]
        rw [if_pos (show 0x10000 ≤ c.toNat ∧ c.toNat < 0x110000 by
          exact ⟨by omega, by omega⟩)]
        rw [charOfNat_toNat c]

theorem utf8Dec_spec : ∀ (cs : List Char) (f : ℕ), cs.length ≤ f →
    Codec.utf8Dec f (cs.flatMap Codec.utf8Char) = some cs := by
  intro cs
  induction cs with
  | nil =>
    intro f _
    cases f <;> rfl
  | cons c cs ih =>
    intro f hf
    cases f with
    | zero => simp at hf
    | succ f =>
      rw [List.flatMap_cons, utf8Dec_step c _ f,
        ih f (by simpa using Nat.lt_succ_iff.mp (Nat.lt_of_lt_of_le (Nat.lt_succ_self _) hf))]
      rfl

theorem rdBytes_spec (pre rest : List ℕ) :
    Codec.rdBytes pre.length (pre ++ rest) = some (pre, rest) := by
  unfold Codec.rdBytes
  rw [if_pos (by simp)]
  rw [List.take_left, List.drop_left]

theorem rdStr_spec (s : String) (rest : List ℕ)
    (h : Codec.strWF s = true) :
    Codec.rdStr (Codec.encStr s ++ rest) = some (s, rest) := by
  unfold Codec.encStr
  rw [List.append_assoc]
  have h16 : (Codec.utf8Str s).length < 2 ^ 16 := by
    unfold Codec.strWF at h
    exact of_decide_eq_true h
  have hdec : Codec.utf8Dec (Codec.utf8Str s).length (Codec.utf8Str s) =
      some s.data := by
    have hlen : s.data.length ≤ (Codec.utf8Str s).length := by
      unfold Codec.utf8Str
      induction s.data with
      | nil => simp
      | cons c cs ih2 =>
        rw [List.flatMap_cons, List.length_append, List.length_cons]
        have : 1 ≤ (Codec.utf8Char c).length := by
          unfold Codec.utf8Char
          simp only []
          split
          · simp
          · split
            · simp
            · split <;> simp
        omega
    have := utf8Dec_spec s.data (Codec.utf8Str s).length hlen
    unfold Codec.utf8Str at this ⊢
    exact this
  have hrb := rdBytes_spec (Codec.utf8Str s) rest
  simp only [Codec.rdStr, rdU16_spec _ _ h16, hrb, hdec]

theorem flatMap_u32le_len (bm : List ℕ) :
    (bm.flatMap Codec.u32le).length = 4 * bm.length := by
  induction bm with
  | nil => rfl
  | cons x xs ih =>
    rw [List.flatMap_cons, List.length_append, ih, List.length_cons]
    have h4 : (Codec.u32le x).length = 4 := rfl
    rw [h4]
    ring

theorem serBM_len (bm : List ℕ) : (Codec.serBM bm).length = Codec.serBMLen bm := by
  unfold Codec.serBM Codec.serBMLen
  rw [List.length_append, flatMap_u32le_len]
  have h4 : (Codec.u32le bm.length).length = 4 := rfl
  rw [h4]

theorem deserBM_spec (bm : List ℕ) (hlen : bm.length < 2 ^ 32)
    (helem : ∀ x ∈ bm, x < 2 ^ 32) :
    Codec.deserBM (Codec.serBM bm) = some bm := by
  unfold Codec.serBM
  have hloop := rdLoop_spec Codec.rdU32 Codec.u32le (fun v => v < 2 ^ 32)
    (fun x rest hx => rdU32_spec x rest hx) bm [] helem
  rw [List.append_nil] at hloop
  simp only [Codec.deserBM, rdU32_spec _ _ hlen, hloop]

theorem rdStats_spec (o : Option Engine.TokenStats) (rest : List ℕ)
    (h : Codec.tokWF o = true) :
    Codec.rdStats (Codec.encStats o ++ rest) = some (o, rest) := by
  cases o with
  | none =>
    show Codec.rdStats (Codec.u32le 0 ++ List.replicate 12 0 ++ rest) = _
    rw [List.append_assoc]
    have h0 := rdU32_spec 0 (List.replicate 12 (0 : ℕ) ++ rest) (by norm_num)
    have hb12 : Codec.rdBytes 12 (List.replicate 12 (0 : ℕ) ++ rest) =
        some (List.replicate 12 0, rest) := by
      have h12 : (List.replicate 12 (0 : ℕ)).length = 12 := by simp
      rw [← h12]
      exact rdBytes_spec _ _
    simp only [Codec.rdStats, h0, hb12]
    norm_num
  | some s =>
    unfold Codec.tokWF at h
    rw [Bool.and_eq_true, Bool.and_eq_true, Bool.and_eq_true, Bool.and_eq_true,
      Bool.and_eq_true, List.all_eq_true] at h
    obtain ⟨⟨⟨⟨⟨hbm, hblen⟩, hp1⟩, hp2⟩, hc1⟩, hc2⟩ := h
    have hblen2 : Codec.serBMLen s.bitmap < 2 ^ 32 := of_decide_eq_true hblen
    show Codec.rdStats (Codec.u32le (Codec.serBMLen s.bitmap) ++
      Codec.serBM s.bitmap ++ Codec.i64le s.placement_sum ++
      Codec.i32le s.count ++ rest) = _
    rw [List.append_assoc, List.append_assoc, List.append_assoc]
    have hu := rdU32_spec (Codec.serBMLen s.bitmap)
      (Codec.serBM s.bitmap ++ (Codec.i64le s.placement_sum ++
        (Codec.i32le s.count ++ rest))) hblen2
    have hrb : Codec.rdBytes (Codec.serBMLen s.bitmap)
        (Codec.serBM s.bitmap ++ (Codec.i64le s.placement_sum ++
          (Codec.i32le s.count ++ rest))) =
        some (Codec.serBM s.bitmap, Codec.i64le s.placement_sum ++
          (Codec.i32le s.count ++ rest)) := by
      rw [← serBM_len s.bitmap]
      exact rdBytes_spec _ _
    have hdes := deserBM_spec s.bitmap (by unfold Codec.serBMLen at hblen2; omega)
      (fun x hx => of_decide_eq_true (hbm x hx))
    have hp := rdI64_spec s.placement_sum (Codec.i32le s.count ++ rest)
      (of_decide_eq_true hp1) (of_decide_eq_true hp2)
    have hc := rdI32_spec s.count rest (of_decide_eq_true hc1)
      (of_decide_eq_true hc2)
    simp only [Codec.rdStats, hu, hrb, hdes, hp, hc]
    rw [if_pos (show 0 < Codec.serBMLen s.bitmap by unfold Codec.serBMLen; omega)]

theorem take4_magic (r : List ℕ) : (Codec.magic ++ r).take 4 = Codec.magic := by
  have h4 : Codec.magic.length = 4 := rfl
  rw [← h4]
  exact List.take_left ..

theorem drop4_magic (r : List ℕ) : (Codec.magic ++ r).drop 4 = r := by
  have h4 : Codec.magic.length = 4 := rfl
  rw [← h4]
  exact List.drop_left ..

/-- C8: `load` of any snapshot whose version field is not 3 fails with
the source's error message, which reports the observed and the expected
version; in particular it never produces an engine. -/
theorem C8_version_gate (v : ℕ) (rest : List ℕ) (hv : v < 2 ^ 32)
    (hne : v ≠ 3) :
    Codec.load (Codec.magic ++ Codec.u32le v ++ rest) =
      Except.error ("Unsupported engine version: " ++ Build.decStr v ++
        " (expected 3). Rebuild engine.bin with smeecher-build.") ∧
    ∀ E : Engine.EngineState,
      Codec.load (Codec.magic ++ Codec.u32le v ++ rest) ≠ Except.ok E := by
  have herr : Codec.load (Codec.magic ++ Codec.u32le v ++ rest) =
      Except.error ("Unsupported engine version: " ++ Build.decStr v ++
        " (expected 3). Rebuild engine.bin with smeecher-build.") := by
    unfold Codec.load
    rw [List.append_assoc]
    simp only [take4_magic, drop4_magic]
    rw [if_neg (show ¬ (Codec.magic ≠ Codec.magic) from fun hc => hc rfl)]
    simp only [rdU32_spec v rest hv]
    rw [if_pos hne]
  refine ⟨herr, fun E hok => ?_⟩
  rw [herr] at hok
  cases hok

/-! ### Per-section helpers for the snapshot round trip -/
theorem i16Range_forall (l : List ℤ) (h : Codec.i16Range l = true) :
    ∀ v ∈ l, -(2 ^ 15) ≤ v ∧ v < 2 ^ 15 := by
  intro v hv
  have := List.all_eq_true.mp h v hv
  rw [Bool.and_eq_true, decide_eq_true_eq, decide_eq_true_eq] at this
  exact this

theorem i32Range_forall (l : List ℤ) (h : Codec.i32Range l = true) :
    ∀ v ∈ l, -(2 ^ 31) ≤ v ∧ v < 2 ^ 31 := by
  intro v hv
  have := List.all_eq_true.mp h v hv
  rw [Bool.and_eq_true, decide_eq_true_eq, decide_eq_true_eq] at this
  exact this

theorem u32Range_forall (l : List ℕ) (h : Codec.u32Range l = true) :
    ∀ v ∈ l, v < 2 ^ 32 := by
  intro v hv
  exact of_decide_eq_true (List.all_eq_true.mp h v hv)

theorem rdLoopI8_spec (l : List ℤ) (h : ∀ v ∈ l, -128 ≤ v ∧ v < 128)
    (r : List ℕ) :
    Codec.rdLoop Codec.rdI8 l.length (l.flatMap Codec.i8b ++ r) = some (l, r) :=
  rdLoop_spec Codec.rdI8 Codec.i8b (fun v => -128 ≤ v ∧ v < 128)
    (fun x rest hx => rdI8_spec x rest hx.1 hx.2) l r h

theorem rdLoopI16_spec (l : List ℤ) (h : Codec.i16Range l = true)
    (r : List ℕ) :
    Codec.rdLoop Codec.rdI16 l.length (l.flatMap Codec.i16le ++ r) =
      some (l, r) :=
  rdLoop_spec Codec.rdI16 Codec.i16le (fun v => -(2 ^ 15) ≤ v ∧ v < 2 ^ 15)
    (fun x rest hx => rdI16_spec x rest hx.1 hx.2) l r (i16Range_forall l h)

theorem rdLoopI32_spec (l : List ℤ) (h : Codec.i32Range l = true)
    (r : List ℕ) :
    Codec.rdLoop Codec.rdI32 l.length (l.flatMap Codec.i32le ++ r) =
      some (l, r) :=
  rdLoop_spec Codec.rdI32 Codec.i32le (fun v => -(2 ^ 31) ≤ v ∧ v < 2 ^ 31)
    (fun x rest hx => rdI32_spec x rest hx.1 hx.2) l r (i32Range_forall l h)

theorem rdLoopU32_spec (l : List ℕ) (h : Codec.u32Range l = true)
    (r : List ℕ) :
    Codec.rdLoop Codec.rdU32 l.length (l.flatMap Codec.u32le ++ r) =
      some (l, r) :=
  rdLoop_spec Codec.rdU32 Codec.u32le (fun v => v < 2 ^ 32)
    (fun x rest hx => rdU32_spec x rest hx) l r (u32Range_forall l h)

theorem rdLoopU8_spec (l : List ℕ) (h : ∀ v ∈ l, v < 256) (r : List ℕ) :
    Codec.rdLoop Codec.rdU8 l.length (l.flatMap (fun v => [v % 256]) ++ r) =
      some (l, r) :=
  rdLoop_spec Codec.rdU8 (fun v => [v % 256]) (fun v => v < 256)
    (fun x rest hx => rdU8_spec x rest hx) l r h

theorem rdLoopStr_spec (l : List String) (h : ∀ s ∈ l, Codec.strWF s = true)
    (r : List ℕ) :
    Codec.rdLoop Codec.rdStr l.length (l.flatMap Codec.encStr ++ r) =
      some (l, r) :=
  rdLoop_spec Codec.rdStr Codec.encStr (fun s => Codec.strWF s = true)
    (fun x rest hx => rdStr_spec x rest hx) l r h

theorem rdLoopStats_spec (l : List (Option Engine.TokenStats))
    (h : l.all Codec.tokWF = true) (r : List ℕ) :
    Codec.rdLoop Codec.rdStats l.length (l.flatMap Codec.encStats ++ r) =
      some (l, r) :=
  rdLoop_spec Codec.rdStats Codec.encStats (fun o => Codec.tokWF o = true)
    (fun x rest hx => rdStats_spec x rest hx) l r
    (fun x hx => List.all_eq_true.mp h x hx)

theorem range_getD_flatMap (l : List α) (d : α) (f : α → List ℕ) :
    (List.range l.length).flatMap (fun i => f (l.getD i d)) = l.flatMap f := by
  induction l using List.reverseRecOn with
  | nil => rfl
  | append_singleton xs x ih =>
    rw [List.length_append, List.length_singleton, List.range_succ,
      List.flatMap_append, List.flatMap_append, List.flatMap_singleton,
      List.flatMap_singleton]
    congr 1
    · rw [← ih]
      apply List.flatMap_congr
      intro i hi
      rw [List.getD_append xs [x] d i (List.mem_range.mp hi)]
    · rw [getD_append_length xs x d]

/-- C1: the v3 snapshot round-trips — for every well-formed engine
state (parallel arrays, machine-representable values, `ready` derived
from the stored `tau` patterns, as build + cache-init or a previous
load produce), `load (save E)` succeeds and returns `E` itself: ids and
their order, bitmaps, placements, proxy arrays, labels and the
necessity cache all reproduced exactly. -/
theorem C1_snapshot_roundtrip (E : Engine.EngineState)
    (h : Codec.engineWF E) :
    Codec.load (Codec.save E) = Except.ok E := by
  obtain ⟨hl1, hl2, hl3, hl4, hl5, hl6, hl7, hn1, hn2, hn3, hpl, hr1, hr2, hr3,
    hr4, hr5, hr6, hr7, hap1, hap2, hlab, htok, hstr1, hstr2, htokwf,
    hf1, hf2, hf3, hf4, hf5, hf6, hf7, hf8,
    hfr1, hfr2, hfr3, hfr4, hfr5, hfr6, hfr7, hfr8,
    hil1, hil2, hil3, hir1, hir2, hir3, hsc1, hsc2, hready⟩ := h
  unfold Codec.save
  simp only []
  have ha1 : Codec.arrOrZeros E.placements.length E.item_count = E.item_count := by
    unfold Codec.arrOrZeros
    rw [if_pos hl1]
  have ha2 : Codec.arrOrZeros E.placements.length E.component_count =
      E.component_count := by
    unfold Codec.arrOrZeros
    rw [if_pos hl2]
  have ha3 : Codec.arrOrZeros E.placements.length E.completed_item_count =
      E.completed_item_count := by
    unfold Codec.arrOrZeros
    rw [if_pos hl3]
  have ha4 : Codec.arrOrZeros E.placements.length E.unit_count = E.unit_count := by
    unfold Codec.arrOrZeros
    rw [if_pos hl4]
  have ha5 : Codec.arrOrZeros E.placements.length E.two_star_count =
      E.two_star_count := by
    unfold Codec.arrOrZeros
    rw [if_pos hl5]
  have ha6 : Codec.arrOrZeros E.placements.length E.three_star_count =
      E.three_star_count := by
    unfold Codec.arrOrZeros
    rw [if_pos hl6]
  have ha7 : Codec.arrOrZeros E.placements.length E.unit_gold_value =
      E.unit_gold_value := by
    unfold Codec.arrOrZeros
    rw [if_pos hl7]
  have hb1 : Codec.floatArrOr E.id_to_token.length E.necessity_top4_tau =
      E.necessity_top4_tau := by
    unfold Codec.floatArrOr
    rw [if_pos hf1]
  have hb2 : Codec.floatArrOr E.id_to_token.length E.necessity_top4_ci95_low =
      E.necessity_top4_ci95_low := by
    unfold Codec.floatArrOr
    rw [if_pos hf2]
  have hb3 : Codec.floatArrOr E.id_to_token.length E.necessity_top4_ci95_high =
      E.necessity_top4_ci95_high := by
    unfold Codec.floatArrOr
    rw [if_pos hf3]
  have hb4 : Codec.floatArrOr E.id_to_token.length E.necessity_top4_se =
      E.necessity_top4_se := by
    unfold Codec.floatArrOr
    rw [if_pos hf4]
  have hb5 : Codec.floatArrOr E.id_to_token.length E.necessity_top4_raw_tau =
      E.necessity_top4_raw_tau := by
    unfold Codec.floatArrOr
    rw [if_pos hf5]
  have hb6 : Codec.floatArrOr E.id_to_token.length E.necessity_top4_frac_trimmed =
      E.necessity_top4_frac_trimmed := by
    unfold Codec.floatArrOr
    rw [if_pos hf6]
  have hb7 : Codec.floatArrOr E.id_to_token.length E.necessity_top4_e_p01 =
      E.necessity_top4_e_p01 := by
    unfold Codec.floatArrOr
    rw [if_pos hf7]
  have hb8 : Codec.floatArrOr E.id_to_token.length E.necessity_top4_e_p99 =
      E.necessity_top4_e_p99 := by
    unfold Codec.floatArrOr
    rw [if_pos hf8]
  have hc1 : Codec.intArrOr E.id_to_token.length E.necessity_top4_n_treated =
      E.necessity_top4_n_treated := by
    unfold Codec.intArrOr
    rw [if_pos hil1]
  have hc2 : Codec.intArrOr E.id_to_token.length E.necessity_top4_n_control =
      E.necessity_top4_n_control := by
    unfold Codec.intArrOr
    rw [if_pos hil2]
  have hc3 : Codec.intArrOr E.id_to_token.length E.necessity_top4_n_used =
      E.necessity_top4_n_used := by
    unfold Codec.intArrOr
    rw [if_pos hil3]
  have hd1 : Codec.u8ArrOr E.id_to_token.length E.necessity_top4_scope_min_star =
      E.necessity_top4_scope_min_star := by
    unfold Codec.u8ArrOr
    rw [if_pos hsc1]
  have hlabeq : (List.range E.id_to_token.length).flatMap
      (fun i => Codec.encStr (E.labels.getD i "")) =
      E.labels.flatMap Codec.encStr := by
    rw [← hlab]
    exact range_getD_flatMap E.labels "" Codec.encStr
  have htokeq : (List.range E.id_to_token.length).flatMap
      (fun i => Codec.encStats (E.tokens.getD i none)) =
      E.tokens.flatMap Codec.encStats := by
    rw [← htok]
    exact range_getD_flatMap E.tokens none Codec.encStats
  rw [ha1, ha2, ha3, ha4, ha5, ha6, ha7, hb1, hb2, hb3, hb4, hb5, hb6, hb7,
    hb8, hc1, hc2, hc3, hd1, hlabeq, htokeq]
  simp only [List.append_assoc]
  have hv3 : ∀ r, Codec.rdU32 (Codec.u32le 3 ++ r) = some (3, r) :=
    fun r => rdU32_spec 3 r (by norm_num)
  have hq1 : ∀ r, Codec.rdU64 (Codec.u64le E.placements.length ++ r) =
      some (E.placements.length, r) := fun r => rdU64_spec _ r hn1
  have hq2 : ∀ r, Codec.rdU64 (Codec.u64le E.id_to_token.length ++ r) =
      some (E.id_to_token.length, r) := fun r => rdU64_spec _ r hn2
  have hq3 : ∀ r, Codec.rdU64 (Codec.u64le E.total_matches ++ r) =
      some (E.total_matches, r) := fun r => rdU64_spec _ r hn3
  have hs1 : ∀ r, Codec.rdLoop Codec.rdI8 E.placements.length
      (E.placements.flatMap Codec.i8b ++ r) = some (E.placements, r) :=
    fun r => rdLoopI8_spec _ hpl r
  have hs2 : ∀ r, Codec.rdLoop Codec.rdI16 E.placements.length
      (E.item_count.flatMap Codec.i16le ++ r) = some (E.item_count, r) := by
    intro r
    have := rdLoopI16_spec E.item_count hr1 r
    rwa [hl1] at this
  have hs3 : ∀ r, Codec.rdLoop Codec.rdI16 E.placements.length
      (E.component_count.flatMap Codec.i16le ++ r) =
      some (E.component_count, r) := by
    intro r
    have := rdLoopI16_spec E.component_count hr2 r
    rwa [hl2] at this
  have hs4 : ∀ r, Codec.rdLoop Codec.rdI16 E.placements.length
      (E.completed_item_count.flatMap Codec.i16le ++ r) =
      some (E.completed_item_count, r) := by
    intro r
    have := rdLoopI16_spec E.completed_item_count hr3 r
    rwa [hl3] at this
  have hs5 : ∀ r, Codec.rdLoop Codec.rdI16 E.placements.length
      (E.unit_count.flatMap Codec.i16le ++ r) = some (E.unit_count, r) := by
    intro r
    have := rdLoopI16_spec E.unit_count hr4 r
    rwa [hl4] at this
  have hs6 : ∀ r, Codec.rdLoop Codec.rdI16 E.placements.length
      (E.two_star_count.flatMap Codec.i16le ++ r) =
      some (E.two_star_count, r) := by
    intro r
    have := rdLoopI16_spec E.two_star_count hr5 r
    rwa [hl5] at this
  have hs7 : ∀ r, Codec.rdLoop Codec.rdI16 E.placements.length
      (E.three_star_count.flatMap Codec.i16le ++ r) =
      some (E.three_star_count, r) := by
    intro r
    have := rdLoopI16_spec E.three_star_count hr6 r
    rwa [hl6] at this
  have hs8 : ∀ r, Codec.rdLoop Codec.rdI32 E.placements.length
      (E.unit_gold_value.flatMap Codec.i32le ++ r) =
      some (E.unit_gold_value, r) := by
    intro r
    have := rdLoopI32_spec E.unit_gold_value hr7 r
    rwa [hl7] at this
  have hap_u : ∀ r, Codec.rdU32 (Codec.u32le (Codec.serBMLen E.all_players) ++ r) =
      some (Codec.serBMLen E.all_players, r) := fun r => rdU32_spec _ r hap2
  have hap_b : ∀ r, Codec.rdBytes (Codec.serBMLen E.all_players)
      (Codec.serBM E.all_players ++ r) = some (Codec.serBM E.all_players, r) := by
    intro r
    rw [← serBM_len]
    exact rdBytes_spec _ r
  have hap_d : Codec.deserBM (Codec.serBM E.all_players) = some E.all_players :=
    deserBM_spec _ (by unfold Codec.serBMLen at hap2; omega)
      (u32Range_forall _ hap1)
  have hstr : ∀ r, Codec.rdLoop Codec.rdStr E.id_to_token.length
      (E.id_to_token.flatMap Codec.encStr ++ r) = some (E.id_to_token, r) :=
    fun r => rdLoopStr_spec _ hstr1 r
  have hlabs : ∀ r, Codec.rdLoop Codec.rdStr E.id_to_token.length
      (E.labels.flatMap Codec.encStr ++ r) = some (E.labels, r) := by
    intro r
    have := rdLoopStr_spec E.labels hstr2 r
    rwa [hlab] at this
  have hstats : ∀ r, Codec.rdLoop Codec.rdStats E.id_to_token.length
      (E.tokens.flatMap Codec.encStats ++ r) = some (E.tokens, r) := by
    intro r
    have := rdLoopStats_spec E.tokens htokwf r
    rwa [htok] at this
  have hflt1 : ∀ r, Codec.rdLoop Codec.rdU32 E.id_to_token.length
      (E.necessity_top4_tau.flatMap Codec.u32le ++ r) =
      some (E.necessity_top4_tau, r) := by
    intro r
    have := rdLoopU32_spec E.necessity_top4_tau hfr1 r
    rwa [hf1] at this
  have hflt2 : ∀ r, Codec.rdLoop Codec.rdU32 E.id_to_token.length
      (E.necessity_top4_ci95_low.flatMap Codec.u32le ++ r) =
      some (E.necessity_top4_ci95_low, r) := by
    intro r
    have := rdLoopU32_spec E.necessity_top4_ci95_low hfr2 r
    rwa [hf2] at this
  have hflt3 : ∀ r, Codec.rdLoop Codec.rdU32 E.id_to_token.length
      (E.necessity_top4_ci95_high.flatMap Codec.u32le ++ r) =
      some (E.necessity_top4_ci95_high, r) := by
    intro r
    have := rdLoopU32_spec E.necessity_top4_ci95_high hfr3 r
    rwa [hf3] at this
  have hflt4 : ∀ r, Codec.rdLoop Codec.rdU32 E.id_to_token.length
      (E.necessity_top4_se.flatMap Codec.u32le ++ r) =
      some (E.necessity_top4_se, r) := by
    intro r
    have := rdLoopU32_spec E.necessity_top4_se hfr4 r
    rwa [hf4] at this
  have hflt5 : ∀ r, Codec.rdLoop Codec.rdU32 E.id_to_token.length
      (E.necessity_top4_raw_tau.flatMap Codec.u32le ++ r) =
      some (E.necessity_top4_raw_tau, r) := by
    intro r
    have := rdLoopU32_spec E.necessity_top4_raw_tau hfr5 r
    rwa [hf5] at this
  have hflt6 : ∀ r, Codec.rdLoop Codec.rdU32 E.id_to_token.length
      (E.necessity_top4_frac_trimmed.flatMap Codec.u32le ++ r) =
      some (E.necessity_top4_frac_trimmed, r) := by
    intro r
    have := rdLoopU32_spec E.necessity_top4_frac_trimmed hfr6 r
    rwa [hf6] at this
  have hflt7 : ∀ r, Codec.rdLoop Codec.rdU32 E.id_to_token.length
      (E.necessity_top4_e_p01.flatMap Codec.u32le ++ r) =
      some (E.necessity_top4_e_p01, r) := by
    intro r
    have := rdLoopU32_spec E.necessity_top4_e_p01 hfr7 r
    rwa [hf7] at this
  have hflt8 : ∀ r, Codec.rdLoop Codec.rdU32 E.id_to_token.length
      (E.necessity_top4_e_p99.flatMap Codec.u32le ++ r) =
      some (E.necessity_top4_e_p99, r) := by
    intro r
    have := rdLoopU32_spec E.necessity_top4_e_p99 hfr8 r
    rwa [hf8] at this
  have hint1 : ∀ r, Codec.rdLoop Codec.rdI32 E.id_to_token.length
      (E.necessity_top4_n_treated.flatMap Codec.i32le ++ r) =
      some (E.necessity_top4_n_treated, r) := by
    intro r
    have := rdLoopI32_spec E.necessity_top4_n_treated hir1 r
    rwa [hil1] at this
  have hint2 : ∀ r, Codec.rdLoop Codec.rdI32 E.id_to_token.length
      (E.necessity_top4_n_control.flatMap Codec.i32le ++ r) =
      some (E.necessity_top4_n_control, r) := by
    intro r
    have := rdLoopI32_spec E.necessity_top4_n_control hir2 r
    rwa [hil2] at this
  have hint3 : ∀ r, Codec.rdLoop Codec.rdI32 E.id_to_token.length
      (E.necessity_top4_n_used.flatMap Codec.i32le ++ r) =
      some (E.necessity_top4_n_used, r) := by
    intro r
    have := rdLoopI32_spec E.necessity_top4_n_used hir3 r
    rwa [hil3] at this
  have hscope : ∀ r, Codec.rdLoop Codec.rdU8 E.id_to_token.length
      (E.necessity_top4_scope_min_star.flatMap (fun v => [v % 256]) ++ r) =
      some (E.necessity_top4_scope_min_star, r) := by
    intro r
    have := rdLoopU8_spec E.necessity_top4_scope_min_star hsc2 r
    rwa [hsc1] at this
  simp only [Codec.load, take4_magic, drop4_magic]
  rw [if_neg (show ¬ (Codec.magic ≠ Codec.magic) from fun hcon => hcon rfl)]
  simp only [hv3]
  rw [if_neg (show ¬ ((3 : ℕ) ≠ 3) from fun hcon => hcon rfl)]
  have hscope0 : Codec.rdLoop Codec.rdU8 E.id_to_token.length
      (E.necessity_top4_scope_min_star.flatMap (fun v => [v % 256])) =
      some (E.necessity_top4_scope_min_star, []) := by
    have := hscope []
    rwa [List.append_nil] at this
  simp only [hq1, hq2, hq3, hs1, hs2, hs3, hs4, hs5, hs6, hs7, hs8, hap_u,
    hap_b, hap_d, hstr, hlabs, hstats, hflt1, hflt2, hflt3, hflt4, hflt5,
    hflt6, hflt7, hflt8, hint1, hint2, hint3, hscope, hscope0]
  rw [← hready]

/-- C1 (witness): the concrete engine is well formed and survives the
byte round trip unchanged. -/
theorem C1_snapshot_roundtrip_witness :
    Codec.engineWF C1engine ∧
    Codec.load (Codec.save C1engine) = Except.ok C1engine :=
  ⟨by unfold Codec.engineWF; decide,
   C1_snapshot_roundtrip C1engine (by unfold Codec.engineWF; decide)⟩

/-- C8 (witness): a version-2 header is rejected with the exact
message. -/
theorem C8_version_gate_witness :
    Codec.load (Codec.magic ++ Codec.u32le 2) =
      Except.error ("Unsupported engine version: 2 (expected 3). " ++
        "Rebuild engine.bin with smeecher-build.") := by
  have h := (C8_version_gate 2 [] (by decide) (by decide)).1
  rw [List.append_nil] at h
  rw [h]
  rfl

end Smeecher

